import Mathlib

/-!
# ViNCEd Theme Manager: merge-patch and theme-document construction

A shallow embedding of `src/ViNCEd_Theme.c`, and of the pen search
(`calculate_color_distance`, `find_closest_pen`) of `src/amiga_color_window.c`.

Conventions of the embedding.

* A C string (`UBYTE *`) is the list of its bytes before the terminating NUL,
  each byte a natural number (`CStr`).  `cstr` turns a literal into such a list.
* Local work buffers (`work_line`, `r_str`, `load_flag`, ...) are treated as
  holding whatever `strcpy`/`sprintf` puts into them; `strncpy` truncation is
  modelled by `List.take` with the buffer bound of the source.
* `AllocMem` is taken to succeed (the out-of-memory returns are not modelled).
* Where the behaviour of the source is undefined (a read of a slot or of a
  buffer that was never written) the embedding gives no result (`none`).
* The linked `ColorList` is the list of its `line` fields, in order.
* A file read with `FGets` is the list of the chunks `FGets` returns (each
  with its line feed when it has one); what one loop iteration writes with
  `FPuts` is one element of the output list, and the text of the written file
  is the concatenation of these elements.
-/

namespace ViNCEd

/-! ## Strings -/

/-- A C string: the bytes before the terminating NUL. -/
abbrev CStr := List Nat

/-- Bytes of a string literal. -/
def cstr (s : String) : CStr := s.toList.map Char.toNat

/-- Maximum line length for preference files (`MAX_LINE_LENGTH`). -/
def MAX_LINE_LENGTH : Nat := 512

/-- Required number of COLOR lines (`REQUIRED_COLOR_LINES`). -/
def REQUIRED_COLOR_LINES : Nat := 16

/-- The line feed byte written by `FPuts(new_file, "\n")`. -/
def NL : Nat := 10

/-- C `toupper` on a byte (C locale): `a`..`z` go to `A`..`Z`. -/
def toupper (c : Nat) : Nat := if 97 ≤ c ∧ c ≤ 122 then c - 32 else c

/-- Source `str_to_upper`: uppercase every byte of the string. -/
def str_to_upper (s : CStr) : CStr := s.map toupper

/-- The test `*start == ' ' || *start == '\t'` of `line_starts_with`. -/
def isBlank (c : Nat) : Bool := c == 32 || c == 9

/-- C `isspace` (C locale): space, `\t`, `\n`, `\v`, `\f`, `\r`. -/
def isspace (c : Nat) : Bool := c == 32 || (9 ≤ c && c ≤ 13)

/-- The test `strncmp(a, b, n) == 0` on NUL-free strings. -/
def strncmp_eq (a b : CStr) (n : Nat) : Bool := a.take n == b.take n

/-- Source `line_starts_with`: skip leading spaces and tabs, copy into the
512-byte and 256-byte buffers, uppercase both, compare the first
`strlen(temp_prefix)` bytes. -/
def line_starts_with (line pfx : CStr) : Bool :=
  let start := line.dropWhile isBlank
  let temp_line := str_to_upper (start.take (MAX_LINE_LENGTH - 1))
  let temp_pfx := str_to_upper (pfx.take 255)
  strncmp_eq temp_line temp_pfx temp_pfx.length

/-- Source `starts_with`: as `line_starts_with`, without skipping leading
blanks. -/
def starts_with (str pfx : CStr) : Bool :=
  let temp_str := str_to_upper (str.take (MAX_LINE_LENGTH - 1))
  let temp_pfx := str_to_upper (pfx.take 255)
  strncmp_eq temp_str temp_pfx temp_pfx.length

/-- The literal `"CURSORCOLOR="`. -/
def CURSORCOLOR_EQ : CStr := cstr ("CURSORCOLOR=")

/-- The literal `"COLOR="`. -/
def COLOR_EQ : CStr := cstr ("COLOR=")

/-- The literal `";Colors:"`. -/
def COLORS_MARKER : CStr := cstr (";Colors:")

/-- Source `ColorOverrides`. -/
structure ColorOverrides where
  override_load : Bool
  use_load : Bool
  override_ansi : Bool
  use_ansi : Bool
  deriving DecidableEq, Repr

/-! ## `update_prefs_file`: splitting the new colors -/

/-- The loop "Organize new colors" of `update_prefs_file`, run from the state
`(cursor_color, color_entries[0 .. color_index))`; `color_index` is the length
of the second component.  Slots of `color_entries` at and above `color_index`
are never written. -/
def organize_colors : List CStr → Option CStr → List CStr → Option CStr × List CStr
  | [], cursor_color, color_entries => (cursor_color, color_entries)
  | line :: next, cursor_color, color_entries =>
    if color_entries.length ≤ REQUIRED_COLOR_LINES then
      if starts_with line CURSORCOLOR_EQ then
        organize_colors next (some line) color_entries
      else if starts_with line COLOR_EQ && color_entries.length < REQUIRED_COLOR_LINES then
        organize_colors next cursor_color (color_entries ++ [line])
      else
        organize_colors next cursor_color color_entries
    else (cursor_color, color_entries)

/-- The `cursor_color` pointer after the split of `new_colors`. -/
def split_cursor (new_colors : List CStr) : Option CStr :=
  (organize_colors new_colors none []).1

/-- The initialised part `color_entries[0 .. color_index)` after the split. -/
def split_colors (new_colors : List CStr) : List CStr :=
  (organize_colors new_colors none []).2

/-- A complete new document as `update_prefs_file` splits it: `cursor` passes
the `CURSORCOLOR=` test and `colors` are 16 lines that pass the `COLOR=` test
(both with `starts_with`); the document is `cursor :: colors`. -/
def complete_doc (cursor : CStr) (colors : List CStr) : Bool :=
  starts_with cursor CURSORCOLOR_EQ && colors.length == REQUIRED_COLOR_LINES
    && colors.all (fun c => starts_with c COLOR_EQ)

/-! ## `update_prefs_file`: the scan of the existing file -/

/-- What `FPuts(new_file, e->line); FPuts(new_file, "\n")` writes. -/
def put_entry (line : CStr) : CStr := line ++ [NL]

/-- One iteration of the `while (FGets(old_file, ...))` loop: the text written
for `line`, the new `current_color_index` and the new `found_colors_section`. -/
def scan_line (cursor_color : Option CStr) (color_entries : List CStr)
    (line : CStr) (current_color_index : Nat) (found_colors_section : Bool) :
    CStr × Nat × Bool :=
  if line_starts_with line CURSORCOLOR_EQ then
    match cursor_color with
    | some c => (put_entry c, current_color_index, found_colors_section)
    | none => (line, current_color_index, found_colors_section)
  else if line_starts_with line COLOR_EQ then
    match color_entries.get? current_color_index with
    | some e => (put_entry e, current_color_index + 1, found_colors_section)
    | none => (line, current_color_index + 1, found_colors_section)
  else if starts_with line COLORS_MARKER then
    (line, current_color_index, true)
  else
    (line, current_color_index, found_colors_section)

/-- The whole `while (FGets(old_file, ...))` loop from a given state: the
texts written, one per line read, and the final `current_color_index` and
`found_colors_section`. -/
def scan_lines (cursor_color : Option CStr) (color_entries : List CStr) :
    List CStr → Nat → Bool → List CStr × Nat × Bool
  | [], idx, found => ([], idx, found)
  | line :: rest, idx, found =>
    let r := scan_line cursor_color color_entries line idx found
    let t := scan_lines cursor_color color_entries rest r.2.1 r.2.2
    (r.1 :: t.1, t.2.1, t.2.2)

/-- The block "Add any remaining new color entries that weren't replacements"
run after the scan. -/
def append_remaining (color_entries : List CStr) (current_color_index : Nat)
    (found_colors_section : Bool) : List CStr :=
  if current_color_index < color_entries.length then
    (if found_colors_section then [] else [put_entry COLORS_MARKER])
      ++ (color_entries.drop current_color_index).map put_entry
  else []

/-- The branch `if (old_file)` of `update_prefs_file`: everything written to
the scratch file when the target could be opened and `FGets` returned
`old_lines`. -/
def merge_existing (old_lines : List CStr) (new_colors : List CStr) : List CStr :=
  let cursor_color := split_cursor new_colors
  let color_entries := split_colors new_colors
  let s := scan_lines cursor_color color_entries old_lines 0 false
  s.1 ++ append_remaining color_entries s.2.1 s.2.2

/-- The branch "No existing file" of `update_prefs_file`.  Its loop reads
`color_entries[color_index]` for `color_index = 0, 1, ...` up to 16 without
comparing with the number of slots filled by the split, so with fewer than 16
color records it reads an uninitialised slot: that case is `none`. -/
def write_fresh (new_colors : List CStr) : Option (List CStr) :=
  let color_entries := split_colors new_colors
  if color_entries.length = REQUIRED_COLOR_LINES then
    some ([put_entry COLORS_MARKER]
      ++ (match split_cursor new_colors with
          | some c => [put_entry c]
          | none => [])
      ++ color_entries.map put_entry)
  else none

/-- Everything `update_prefs_file` writes to the scratch file: `old_file` is
`none` when the target cannot be opened, else the lines `FGets` returns. -/
def update_prefs_lines (old_file : Option (List CStr)) (new_colors : List CStr) :
    Option (List CStr) :=
  match old_file with
  | some old_lines => some (merge_existing old_lines new_colors)
  | none => write_fresh new_colors

/-! ## `convert_to_16bit_rgb` -/

/-- Value of a hexadecimal digit byte, if it is one. -/
def hexval (c : Nat) : Option Nat :=
  if 48 ≤ c ∧ c ≤ 57 then some (c - 48)
  else if 97 ≤ c ∧ c ≤ 102 then some (c - 87)
  else if 65 ≤ c ∧ c ≤ 70 then some (c - 55)
  else none

/-- Value of a decimal digit byte, if it is one. -/
def decval (c : Nat) : Option Nat :=
  if 48 ≤ c ∧ c ≤ 57 then some (c - 48) else none

/-- The number read from the longest run of digits (in `base`, recognised by
`val`) at the head of `s`. -/
def read_digits (val : Nat → Option Nat) (base : Nat) : CStr → Nat → Nat
  | [], acc => acc
  | c :: rest, acc =>
    match val c with
    | some d => read_digits val base rest (acc * base + d)
    | none => acc

/-- An optional sign at the head of a number: whether it is `-`, and the rest. -/
def read_sign (s : CStr) : Bool × CStr :=
  match s with
  | 45 :: t => (true, t)
  | 43 :: t => (false, t)
  | _ => (false, s)

/-- C `strtoul(s, NULL, 16)` with a 32-bit `unsigned long`: white space, an
optional sign, an optional `0x`/`0X`, hexadecimal digits; `ULONG_MAX` when the
digits do not fit, the value negated modulo `2^32` after a minus sign. -/
def strtoul16 (s : CStr) : Nat :=
  let sg := read_sign (s.dropWhile isspace)
  let body := match sg.2 with
    | 48 :: x :: t => if x = 120 ∨ x = 88 then t else sg.2
    | _ => sg.2
  let v := read_digits hexval 16 body 0
  if v > 0xFFFFFFFF then 0xFFFFFFFF
  else if sg.1 then (2 ^ 32 - v) % 2 ^ 32 else v

/-- C `atol(s)` with a 32-bit `long`, as `strtol(s, NULL, 10)`: white space,
an optional sign, decimal digits; a value out of range is clamped to
`LONG_MAX` or `LONG_MIN` (the C standard leaves that case undefined). -/
def atol (s : CStr) : Int :=
  let sg := read_sign (s.dropWhile isspace)
  let v := read_digits decval 10 sg.2 0
  if sg.1 then (if v > 2 ^ 31 then -(2 ^ 31 : Int) else -(v : Int))
  else (if v > 2 ^ 31 - 1 then (2 ^ 31 - 1 : Int) else (v : Int))

/-- Conversion of a `long` to the 32-bit `ULONG` it is stored into. -/
def toULONG (i : Int) : Nat := (i % (2 ^ 32 : Int)).toNat

/-- The loop "Get fractional part and divisor": `(frac_part, divisor)` after
reading the decimal digits at the head of `p`, in 32-bit unsigned arithmetic. -/
def read_fraction : CStr → Nat → Nat → Nat × Nat
  | [], frac_part, divisor => (frac_part, divisor)
  | c :: rest, frac_part, divisor =>
    if 48 ≤ c ∧ c ≤ 57 then
      read_fraction rest ((frac_part * 10 + (c - 48)) % 2 ^ 32) ((divisor * 10) % 2 ^ 32)
    else (frac_part, divisor)

/-- The work buffer `clean_input`: the first 31 bytes of `input` that are not
white space. -/
def clean_input (input : CStr) : CStr := (input.filter (fun c => !isspace c)).take 31

/-- The expression `(UWORD)((value << 8) | value)`. -/
def byte_double (value : Nat) : Nat := ((value <<< 8) ||| value) % 2 ^ 16

/-- Source `convert_to_16bit_rgb`. -/
def convert_to_16bit_rgb (input : CStr) : Nat :=
  let clean := clean_input input
  if starts_with clean (cstr ("0x")) || starts_with clean (cstr ("0X")) then
    let value := strtoul16 (clean.drop 2)
    if value ≤ 0xFF then byte_double value else (value &&& 0xFFFF) % 2 ^ 16
  else if 46 ∈ clean then
    let int_part := if clean.head? = some 46 then 0 else toULONG (atol clean)
    let fd := read_fraction ((clean.dropWhile (fun c => c != 46)).drop 1) 0 1
    if int_part ≥ 1 then 0xFFFF
    else ((fd.1 * 65535) % 2 ^ 32 / fd.2) % 2 ^ 16
  else
    let value := toULONG (atol clean)
    let value := if value > 255 then 255 else value
    byte_double value

/-! ## `convert_color_line` -/

/-- A lowercase hexadecimal digit byte. -/
def hexdigit (d : Nat) : Nat := if d < 10 then 48 + d else 87 + d

/-- The format `%04x` applied to a `UWORD`. -/
def hex4 (v : Nat) : CStr :=
  [hexdigit (v / 4096 % 16), hexdigit (v / 256 % 16), hexdigit (v / 16 % 16), hexdigit (v % 16)]

/-- The text after the equals sign cut at its first `n` commas: the loop
"Find all comma positions after equals" records at most `n = 10` commas, and
the segments are what lies between them (the last one runs to the end of the
line). The number of recorded commas is the length of the result minus one. -/
def split_commas : Nat → CStr → List CStr
  | 0, s => [s]
  | n + 1, s =>
    if 44 ∈ s then
      s.takeWhile (fun c => c != 44) :: split_commas n ((s.dropWhile (fun c => c != 44)).drop 1)
    else [s]

/-- The block "Remove trailing whitespace and newlines from blue component". -/
def strip_trailing (b_str : CStr) : CStr := (b_str.reverse.dropWhile isspace).reverse

/-- The load token chosen by the override block, given the token in force. -/
def apply_load (ov : ColorOverrides) (load_flag : CStr) : CStr :=
  if ov.override_load then (if ov.use_load then cstr ("LOAD") else cstr ("NOLOAD")) else load_flag

/-- The ansi token chosen by the override block, given the token in force. -/
def apply_ansi (ov : ColorOverrides) (ansi_flag : CStr) : CStr :=
  if ov.override_ansi then (if ov.use_ansi then cstr ("ANSI") else cstr ("NOANSI")) else ansi_flag

/-- The final `sprintf(output_line, "%s%s,%s,0x%04x,0x%04x,0x%04x", ...)`. -/
def format_color_line (pfx_part load_flag ansi_flag : CStr) (r_val g_val b_val : Nat) : CStr :=
  pfx_part ++ load_flag ++ [44] ++ ansi_flag ++ cstr (",0x") ++ hex4 r_val
    ++ cstr (",0x") ++ hex4 g_val ++ cstr (",0x") ++ hex4 b_val

/-- The parts `convert_color_line` extracts from a line: `prefix_part`, the
load and ansi tokens and the three channel texts (blue not yet stripped);
`none` is the return of `FALSE`.  Callers always pass a non-NULL `overrides`
(a NULL pointer behaves as the policy with no override set). -/
def color_line_parts (input_line : CStr) (ov : ColorOverrides) :
    Option (CStr × CStr × CStr × CStr × CStr × CStr) :=
  let work_line := input_line.take (MAX_LINE_LENGTH - 1)
  if 61 ∈ work_line then
    let pfx_part := work_line.takeWhile (fun c => c != 61) ++ [61]
    let start_pos := (work_line.dropWhile (fun c => c != 61)).drop 1
    let segs := split_commas 10 start_pos
    let comma_count := segs.length - 1
    let seg := fun (i : Nat) => segs.getD i []
    if comma_count < 2 then none
    else if comma_count = 2 then
      some (pfx_part, apply_load ov (cstr ("NOLOAD")), apply_ansi ov (cstr ("NOANSI")),
        seg 0, seg 1, seg 2)
    else if comma_count = 4 then
      some (pfx_part, apply_load ov (seg 0), apply_ansi ov (seg 1), seg 2, seg 3, seg 4)
    else
      let rgb_start := comma_count - 2
      if comma_count ≥ 4 then
        some (pfx_part, apply_load ov (seg 0), apply_ansi ov (seg 1),
          seg rgb_start, seg (rgb_start + 1), seg (rgb_start + 2))
      else
        some (pfx_part, cstr ("NOLOAD"), cstr ("NOANSI"),
          seg rgb_start, seg (rgb_start + 1), seg (rgb_start + 2))
  else none

/-- Source `convert_color_line`: the converted line, or `none` for `FALSE`. -/
def convert_color_line (input_line : CStr) (ov : ColorOverrides) : Option CStr :=
  match color_line_parts input_line ov with
  | none => none
  | some (pfx_part, load_flag, ansi_flag, r_str, g_str, b_str) =>
    some (format_color_line pfx_part load_flag ansi_flag
      (convert_to_16bit_rgb r_str) (convert_to_16bit_rgb g_str)
      (convert_to_16bit_rgb (strip_trailing b_str)))

/-! ## `generate_default_colors` and `read_theme_file` -/

/-- The line `sprintf(..., "<kind>%s,%s,0x0000,0x0000,0x0000", load_flag, ansi_flag)`
with the flags chosen as in the blocks "Apply overrides if specified". -/
def default_line (kind : CStr) (ov : ColorOverrides) : CStr :=
  kind ++ apply_load ov (cstr ("NOLOAD")) ++ [44] ++ apply_ansi ov (cstr ("NOANSI"))
    ++ cstr (",0x0000,0x0000,0x0000")

/-- Source `generate_default_colors`: the list it builds. -/
def generate_default_colors (ov : ColorOverrides) : List CStr :=
  default_line CURSORCOLOR_EQ ov :: List.replicate REQUIRED_COLOR_LINES (default_line COLOR_EQ ov)

/-- The block "Remove trailing newline" of `read_theme_file`. -/
def chomp (line : CStr) : CStr :=
  match line.getLast? with
  | some c =>
    if c = 10 ∨ c = 13 then
      match line.dropLast.getLast? with
      | some d => if d = 13 then line.dropLast.dropLast else line.dropLast
      | none => line.dropLast
    else line
  | none => line

/-- State of the read loop: `found_cursor_color`, `color_count` and the list
`colors` built so far. -/
structure ReadState where
  found_cursor_color : Bool
  color_count : Nat
  colors : List CStr
  deriving DecidableEq, Repr

/-- The two tests of one iteration of the read loop, on the chomped line. -/
def read_line (ov : ColorOverrides) (line : CStr) (st : ReadState) : ReadState :=
  if !st.found_cursor_color && line_starts_with line CURSORCOLOR_EQ then
    match convert_color_line line ov with
    | some converted_line =>
      { st with found_cursor_color := true, colors := st.colors ++ [converted_line] }
    | none => st
  else if st.found_cursor_color && decide (st.color_count < REQUIRED_COLOR_LINES)
      && line_starts_with line COLOR_EQ then
    match convert_color_line line ov with
    | some converted_line =>
      { st with color_count := st.color_count + 1, colors := st.colors ++ [converted_line] }
    | none => st
  else st

/-- The loop `while (FGets(file, line, sizeof(line)) && success)` with its
final `break` once the cursor and 16 colors are there. -/
def read_loop (ov : ColorOverrides) : List CStr → ReadState → ReadState
  | [], st => st
  | raw :: rest, st =>
    let st1 := read_line ov (chomp raw) st
    if st1.found_cursor_color && decide (st1.color_count ≥ REQUIRED_COLOR_LINES) then st1
    else read_loop ov rest st1

/-- The loop "Add default COLOR entries for any missing ones": it appends
`REQUIRED_COLOR_LINES - color_count` default lines. -/
def fill_colors (ov : ColorOverrides) (st : ReadState) : List CStr :=
  st.colors ++ List.replicate (REQUIRED_COLOR_LINES - st.color_count) (default_line COLOR_EQ ov)

/-- The body of `read_theme_file` once the file is open, on the lines `FGets`
returns: the scan, then the default colors appended.  When the scan found no
cursor line the source runs the block "Insert default cursor color at
beginning", which takes `strlen(default_line)` of the buffer before `sprintf`
fills it, allocates that many bytes plus one and copies the default cursor
line (47 bytes with the default tokens) into them: the content of the buffer
is indeterminate, the copy may run past the allocation, and the behaviour is
undefined.  That case is `none`: the embedding has no document for it. -/
def read_theme_lines (lines : List CStr) (ov : ColorOverrides) : Option (List CStr) :=
  let st := read_loop ov lines { found_cursor_color := false, color_count := 0, colors := [] }
  if st.found_cursor_color then some (fill_colors ov st) else none

/-- Source `read_theme_file`: `file` is `none` when the theme file cannot be
opened.  The result is `none` when the function returns `FALSE` (the file
cannot be opened) and where `read_theme_lines` is (no cursor line found: the
behaviour of the source is undefined); otherwise it is the document built. -/
def read_theme_file (file : Option (List CStr)) (ov : ColorOverrides) : Option (List CStr) :=
  match file with
  | none => none
  | some lines => read_theme_lines lines ov

/-- What holds of the read state throughout the loop: before the cursor is
found nothing has been collected; after, the list is the cursor line followed
by `color_count ≤ 16` color lines. -/
def ReadInv (st : ReadState) : Prop :=
  (st.found_cursor_color = false → st.colors = [] ∧ st.color_count = 0) ∧
  (st.found_cursor_color = true → ∃ cursor cs, st.colors = cursor :: cs ∧
    line_starts_with cursor CURSORCOLOR_EQ = true ∧ cs.length = st.color_count ∧
    st.color_count ≤ REQUIRED_COLOR_LINES ∧
    ∀ c ∈ cs, line_starts_with c COLOR_EQ = true)

/-! ## `update_prefs_file` over a file system -/

/-- The chunks successive `FGets(file, line, 512)` calls return on a file
holding `text`: each ends after a line feed or after 511 bytes; `cur` is the
chunk being filled. -/
def fgets_chunks : CStr → CStr → List CStr
  | [], cur => if cur = [] then [] else [cur]
  | c :: rest, cur =>
    if c = NL ∨ cur.length + 1 = MAX_LINE_LENGTH - 1 then (cur ++ [c]) :: fgets_chunks rest []
    else fgets_chunks rest (cur ++ [c])

/-- A file system state: the text held at each path, `none` where there is no
file. -/
abbrev FileSys := CStr → Option CStr

/-- The state with `data` stored at `path`. -/
def fs_store (fs : FileSys) (path data : CStr) : FileSys :=
  fun q => if q = path then some data else fs q

/-- The state with no file at `path`. -/
def fs_remove (fs : FileSys) (path : CStr) : FileSys :=
  fun q => if q = path then none else fs q

/-- Whether each dos.library call of `update_prefs_file` that can fail for a
reason outside the path-to-contents state (protection bits, locks, a full or
read-only volume) goes through. -/
structure DosEnv where
  open_old_ok : Bool
  open_new_ok : Bool
  delete_prefs_ok : Bool
  rename_ok : Bool
  delete_temp_ok : Bool
  deriving DecidableEq, Repr

/-- The call `DeleteFile(path)`: the file is removed when the call goes through. -/
def DeleteFile (ok : Bool) (fs : FileSys) (path : CStr) : FileSys :=
  if ok then fs_remove fs path else fs

/-- The call `Rename(old_name, new_name)`: it needs the old name to exist and,
as dos.library does not replace an existing object, the new name to be free. -/
def Rename (ok : Bool) (fs : FileSys) (old_name new_name : CStr) : Bool × FileSys :=
  match fs old_name with
  | none => (false, fs)
  | some data =>
    if ok && (fs new_name).isNone then (true, fs_store (fs_remove fs old_name) new_name data)
    else (false, fs)

/-- What a run of `update_prefs_file` leaves behind: its return value, the
return value of the final `Rename` (`none` when the run ends before it) and
the file system state. -/
structure UpdateOutcome where
  success : Bool
  rename_result : Option Bool
  fs : FileSys

/-- The name `sprintf(temp_path, "%s.tmp", prefs_path)`. -/
def temp_path (prefs_path : CStr) : CStr := prefs_path ++ cstr (".tmp")

/-- Source `update_prefs_file` on a file system state.  The result is `none`
only where `write_fresh` is (a read of an uninitialised slot). -/
def update_prefs_file (env : DosEnv) (fs : FileSys) (prefs_path : CStr)
    (new_colors : List CStr) : Option UpdateOutcome :=
  let old_file := if env.open_old_ok then fs prefs_path else none
  if env.open_new_ok then
    match update_prefs_lines (old_file.map (fun text => fgets_chunks text [])) new_colors with
    | none => none
    | some written =>
      let fs1 := fs_store fs (temp_path prefs_path) written.flatten
      let fs2 := DeleteFile env.delete_prefs_ok fs1 prefs_path
      let r := Rename env.rename_ok fs2 (temp_path prefs_path) prefs_path
      if r.1 then some { success := true, rename_result := some true, fs := r.2 }
      else some { success := false, rename_result := some false,
                  fs := DeleteFile env.delete_temp_ok r.2 (temp_path prefs_path) }
  else some { success := false, rename_result := none, fs := fs }

/-! ## Lines given by their parts -/

/-- The text `s0,s1,...,sn` made of the segments `s0 .. sn` with one comma
between neighbours. -/
def join_commas : List CStr → CStr
  | [] => []
  | [s] => s
  | s :: t => s ++ 44 :: join_commas t

/-- The segments `convert_color_line` works with: the text after the first
equals sign of the work line, cut at its first 10 commas (the argument of
`split_commas` in `color_line_parts`). -/
def work_segments (input_line : CStr) : List CStr :=
  split_commas 10
    (((input_line.take (MAX_LINE_LENGTH - 1)).dropWhile (fun c => c != 61)).drop 1)

/-- The canonical text `0xXXXX` of a 16-bit value, as `0x%04x` prints it. -/
def canonical_hex (x : Nat) : CStr := cstr ("0x") ++ hex4 x

/-! ## Tokens given by their parts -/

/-- The relation "`t'` is `t` with white space bytes inserted at any
positions": bytes of `t` are kept in order, and each byte added is one that
`isspace` accepts. -/
inductive WsInserted : CStr → CStr → Prop
  | done : WsInserted [] []
  | keep (c : Nat) {t t' : CStr} : WsInserted t t' → WsInserted (c :: t) (c :: t')
  | insert (w : Nat) {t t' : CStr} : isspace w = true → WsInserted t t' → WsInserted t (w :: t')

/-- The quotient `n / d` rounded to the nearest integer (halves upwards). -/
def round_div (n d : Nat) : Nat := (2 * n + d) / (2 * d)

/-- The sixteen lowercase hexadecimal digit characters, by value. -/
def hex_chars : CStr := cstr ("0123456789abcdef")

/-- The text of a channel as the record grammar wants it: `0x` followed by the
four lowercase hexadecimal digits of the 16-bit value `v`. -/
def channel_text (v : Nat) (T : CStr) : Prop :=
  ∃ d3 d2 d1 d0, d3 < 16 ∧ d2 < 16 ∧ d1 < 16 ∧ d0 < 16 ∧
    v = 4096 * d3 + 256 * d2 + 16 * d1 + d0 ∧
    T = [48, 120, hex_chars.getD d3 0, hex_chars.getD d2 0, hex_chars.getD d1 0,
      hex_chars.getD d0 0]

/-! ## `convert_to_ansi_colors` -/

/-- Source `AnsiColor` (`amiga_color_window.h`). -/
structure AnsiColor where
  red : Nat
  green : Nat
  blue : Nat
  load_flag : Bool
  assigned_pen : Nat
  deriving DecidableEq, Repr

/-- Source `default_ansi_colors`: the standard 16-color palette. -/
def default_ansi_colors : List AnsiColor :=
  [⟨0x00, 0x00, 0x00, false, 0⟩, ⟨0x80, 0x00, 0x00, false, 0⟩, ⟨0x00, 0x80, 0x00, false, 0⟩,
   ⟨0x80, 0x80, 0x00, false, 0⟩, ⟨0x00, 0x00, 0x80, false, 0⟩, ⟨0x80, 0x00, 0x80, false, 0⟩,
   ⟨0x00, 0x80, 0x80, false, 0⟩, ⟨0xC0, 0xC0, 0xC0, false, 0⟩, ⟨0x80, 0x80, 0x80, false, 0⟩,
   ⟨0xFF, 0x00, 0x00, false, 0⟩, ⟨0x00, 0xFF, 0x00, false, 0⟩, ⟨0xFF, 0xFF, 0x00, false, 0⟩,
   ⟨0x00, 0x00, 0xFF, false, 0⟩, ⟨0xFF, 0x00, 0xFF, false, 0⟩, ⟨0x00, 0xFF, 0xFF, false, 0⟩,
   ⟨0xFF, 0xFF, 0xFF, false, 0⟩]

/-- C `strchr(s, c)` for a byte `c` other than NUL: the rest of `s` from the
first `c` on, `none` for a NULL result. -/
def strchr (s : CStr) (c : Nat) : Option CStr :=
  if c ∈ s then some (s.dropWhile (fun x => x != c)) else none

/-- C `strstr(s, needle)`: the rest of `s` from the first occurrence of
`needle` on, `none` for a NULL result. -/
def strstr : CStr → CStr → Option CStr
  | [], needle => if needle = [] then some [] else none
  | c :: t, needle =>
    if (c :: t).take needle.length = needle then some (c :: t) else strstr t needle

/-- The expression `(v >> 8) & 0xFF` that turns a 16-bit channel into the
8-bit value shown by `display_color_check` and stored by
`convert_to_ansi_colors`. -/
def to_8bit (v : Nat) : Nat := (v >>> 8) &&& 0xFF

/-- The body of the branch "Process COLOR entries" of `convert_to_ansi_colors`
on one line: the new value of `ansi_colors[color_index]` when the three `0x`
are found (`color_index` is then advanced), `none` otherwise. -/
def parse_ansi_entry (line : CStr) (old : AnsiColor) : Option AnsiColor :=
  match strchr line 61 with
  | none => none
  | some equals_pos =>
    match strstr equals_pos (cstr ("0x")) with
    | none => none
    | some hex_start =>
      match strstr (hex_start.drop 1) (cstr ("0x")) with
      | none => none
      | some hex2 =>
        match strstr (hex2.drop 1) (cstr ("0x")) with
        | none => none
        | some hex3 =>
          some { old with
            red := to_8bit (strtoul16 (hex_start.drop 2))
            green := to_8bit (strtoul16 (hex2.drop 2))
            blue := to_8bit (strtoul16 (hex3.drop 2))
            load_flag := (strstr line (cstr ("LOAD"))).isSome }

/-- The loop "Parse color entries, skipping CURSORCOLOR" of
`convert_to_ansi_colors` from the state `(color_index, ansi_colors)`. -/
def ansi_loop : List CStr → Nat → List AnsiColor → List AnsiColor
  | [], _, ansi_colors => ansi_colors
  | line :: next, color_index, ansi_colors =>
    if color_index < 16 then
      if starts_with line CURSORCOLOR_EQ then ansi_loop next color_index ansi_colors
      else if starts_with line COLOR_EQ then
        match parse_ansi_entry line (ansi_colors.getD color_index ⟨0, 0, 0, false, 0⟩) with
        | some c => ansi_loop next (color_index + 1) (ansi_colors.set color_index c)
        | none => ansi_loop next color_index ansi_colors
      else ansi_loop next color_index ansi_colors
    else ansi_colors

/-- Source `convert_to_ansi_colors`: the array `ansi_colors` it fills, from
the lines of a non-NULL `ColorList`. -/
def convert_to_ansi_colors (colors : List CStr) : List AnsiColor :=
  ansi_loop colors 0 default_ansi_colors

/-! ## `find_closest_pen` (`amiga_color_window.c`) -/

/-- Source `calculate_color_distance`: the arguments are `UBYTE`, the
differences and their squares are `LONG`, the result is a `ULONG`. -/
def calculate_color_distance (r1 g1 b1 r2 g2 b2 : Nat) : Nat :=
  let dr : Int := ((r1 % 256 : Nat) : Int) - ((r2 % 256 : Nat) : Int)
  let dg : Int := ((g1 % 256 : Nat) : Int) - ((g2 % 256 : Nat) : Int)
  let db : Int := ((b1 % 256 : Nat) : Int) - ((b2 % 256 : Nat) : Int)
  toULONG (dr * dr + dg * dg + db * db)

/-- The assignment `csw->available_pens = 1 << csw->depth` of
`init_color_swatch_window`: `available_pens` is a `UBYTE`. -/
def init_available_pens (depth : Nat) : Nat := (1 <<< depth) % 256

/-- One iteration of the loop of `find_closest_pen` on the state
`(best_pen, best_distance)`; `colormap pen` is what `GetRGB32` stores for the
pen, three 32-bit values with the intensity in the top byte. -/
def pen_step (colormap : Nat → Nat × Nat × Nat) (red green blue : Nat) (st : Nat × Nat)
    (pen : Nat) : Nat × Nat :=
  let rgb := colormap pen
  let pen_red := (rgb.1 >>> 24) &&& 0xFF
  let pen_green := (rgb.2.1 >>> 24) &&& 0xFF
  let pen_blue := (rgb.2.2 >>> 24) &&& 0xFF
  let distance := calculate_color_distance red green blue pen_red pen_green pen_blue
  if distance < st.2 then (pen, distance) else st

/-- Source `find_closest_pen`, with `csw->available_pens` (a `UBYTE`, so below
256) and the color map of the screen as arguments. -/
def find_closest_pen (available_pens : Nat) (colormap : Nat → Nat × Nat × Nat)
    (red green blue : Nat) : Nat :=
  ((List.range available_pens).foldl (pen_step colormap red green blue) (0, 0xFFFFFFFF)).1

/-- The distance `find_closest_pen` computes for a pen. -/
def pen_distance (colormap : Nat → Nat × Nat × Nat) (red green blue pen : Nat) : Nat :=
  calculate_color_distance red green blue (((colormap pen).1 >>> 24) &&& 0xFF)
    (((colormap pen).2.1 >>> 24) &&& 0xFF) (((colormap pen).2.2 >>> 24) &&& 0xFF)

/-! ## Texts of numbers -/

/-- The decimal text of `n`: its decimal digits, most significant first, `0`
for zero. -/
def decimal_text (n : Nat) : CStr :=
  if n = 0 then [48] else (Nat.digits 10 n).reverse.map (fun d => 48 + d)

/-- The two-digit hexadecimal text of a byte `n`, with the prefix `0x` and
lowercase digits. -/
def hex2_text (n : Nat) : CStr := cstr ("0x") ++ [hexdigit (n / 16 % 16), hexdigit (n % 16)]

/-! ## Text lines -/

/-- A line as a text file holds it and one `FGets` call returns it: it ends
with a line feed, has no other line feed and fits the 512-byte line buffer. -/
def is_text_line (l : CStr) : Bool :=
  l.getLast? == some NL && !(l.dropLast.contains NL) && decide (l.length ≤ MAX_LINE_LENGTH - 1)

/-! ## Sample inputs -/

/-- The policy with no override set. -/
def no_overrides : ColorOverrides :=
  { override_load := false, use_load := false, override_ansi := false, use_ansi := false }

/-- A cursor record line. -/
def sample_cursor : CStr := cstr ("CURSORCOLOR=LOAD,ANSI,0x1111,0x2222,0x3333")

/-- Sixteen color record lines, `COLOR=NOLOAD,NOANSI,0x000n,0x000n,0x000n`. -/
def sample_colors : List CStr :=
  (List.range 16).map (fun n => format_color_line COLOR_EQ (cstr ("NOLOAD")) (cstr ("NOANSI")) n n n)

/-- A preferences file with a cursor line, a marker and two color lines. -/
def sample_prefs : List CStr :=
  [cstr ("FONT=topaz\n"), cstr ("  cursorcolor=1,2,3\n"), cstr (";Colors:\n"),
   cstr ("COLOR=1,2,3\n"), cstr ("COLOR=4,5,6\n")]

/-- A preferences file with a cursor line and 16 color lines between two other
lines. -/
def full_prefs : List CStr :=
  [cstr ("FONT=topaz\n"), cstr ("CURSORCOLOR=1,2,3\n")]
    ++ List.replicate 16 (cstr ("COLOR=1,2,3\n")) ++ [cstr ("REXX=off\n")]

/-- The path of the preferences file of the current session. -/
def sample_path : CStr := cstr ("ENV:ViNCEd.prefs")

/-- A file system holding one preferences file. -/
def sample_fs : FileSys :=
  fun q => if q = sample_path then some (cstr ("FONT=topaz\nCOLOR=1,2,3\n")) else none

/-- Every call goes through except the final `Rename`. -/
def rename_fails_env : DosEnv :=
  { open_old_ok := true, open_new_ok := true, delete_prefs_ok := true, rename_ok := false,
    delete_temp_ok := true }

/-- A color map with black at pen 0 and white at pen 1, for `GetRGB32`. -/
def sample_colormap : Nat → Nat × Nat × Nat :=
  fun pen => if pen = 1 then (0xFFFFFFFF, 0xFFFFFFFF, 0xFFFFFFFF) else (0, 0, 0)

/-- Every dos.library call goes through. -/
def all_ok_env : DosEnv :=
  { open_old_ok := true, open_new_ok := true, delete_prefs_ok := true, rename_ok := true,
    delete_temp_ok := true }

/-- A file system holding one preferences file whose last line has no line
feed. -/
def unterminated_fs : FileSys :=
  fun q => if q = sample_path then some (cstr (";Colors:\nFONT=topaz")) else none

/-! ## Prefix tests -/

theorem toupper_not_lower (c : Nat) : ¬ (97 ≤ toupper c ∧ toupper c ≤ 122) := by
  unfold toupper; split <;> omega

/-- Normal form of the prefix test for a prefix already in upper case that
fits both buffers. -/
theorem line_starts_with_iff (l pfx : CStr) (hu : str_to_upper pfx = pfx)
    (hlen : pfx.length ≤ 255) :
    line_starts_with l pfx = true ↔
      (str_to_upper (l.dropWhile isBlank)).take pfx.length = pfx := by
  have h1 : pfx.take 255 = pfx := List.take_of_length_le hlen
  simp only [line_starts_with, strncmp_eq, h1, hu, MAX_LINE_LENGTH, beq_iff_eq, List.take_length]
  simp only [str_to_upper, ← List.map_take, List.take_take]
  rw [Nat.min_eq_left (by omega)]

theorem starts_with_iff (l pfx : CStr) (hu : str_to_upper pfx = pfx)
    (hlen : pfx.length ≤ 255) :
    starts_with l pfx = true ↔ (str_to_upper l).take pfx.length = pfx := by
  have h1 : pfx.take 255 = pfx := List.take_of_length_le hlen
  simp only [starts_with, strncmp_eq, h1, hu, MAX_LINE_LENGTH, beq_iff_eq, List.take_length]
  simp only [str_to_upper, ← List.map_take, List.take_take]
  rw [Nat.min_eq_left (by omega)]

theorem cursor_line_iff (l : CStr) :
    line_starts_with l CURSORCOLOR_EQ = true ↔
      (str_to_upper (l.dropWhile isBlank)).take 12 = CURSORCOLOR_EQ :=
  line_starts_with_iff l CURSORCOLOR_EQ (by decide) (by decide)

theorem color_line_iff (l : CStr) :
    line_starts_with l COLOR_EQ = true ↔
      (str_to_upper (l.dropWhile isBlank)).take 6 = COLOR_EQ :=
  line_starts_with_iff l COLOR_EQ (by decide) (by decide)

/-- A line cannot pass both prefix tests. -/
theorem cursor_line_not_color_line (l : CStr) (h : line_starts_with l CURSORCOLOR_EQ = true) :
    line_starts_with l COLOR_EQ = false := by
  rw [cursor_line_iff] at h
  by_contra hc
  rw [Bool.not_eq_false, color_line_iff] at hc
  have h6 : ((str_to_upper (l.dropWhile isBlank)).take 12).take 6 = CURSORCOLOR_EQ.take 6 := by
    rw [h]
  rw [List.take_take] at h6
  simp only [Nat.min_def] at h6
  norm_num at h6
  rw [hc] at h6
  exact absurd h6 (by decide)

/-- A line that starts with a byte that is neither blank nor a letter C passes
neither `line_starts_with` test. -/
theorem no_record_of_head (c : Nat) (t : CStr) (hb : isBlank c = false) (hc : toupper c ≠ 67) :
    line_starts_with (c :: t) CURSORCOLOR_EQ = false ∧
      line_starts_with (c :: t) COLOR_EQ = false := by
  constructor
  · by_contra h
    rw [Bool.not_eq_false, cursor_line_iff] at h
    simp [List.dropWhile, hb, str_to_upper, CURSORCOLOR_EQ, cstr] at h
    exact hc h.1
  · by_contra h
    rw [Bool.not_eq_false, color_line_iff] at h
    simp [List.dropWhile, hb, str_to_upper, COLOR_EQ, cstr] at h
    exact hc h.1

/-- A marker line (test `starts_with(line, ";Colors:")`) is not a record line. -/
theorem marker_not_record (l : CStr) (h : starts_with l COLORS_MARKER = true) :
    line_starts_with l CURSORCOLOR_EQ = false ∧ line_starts_with l COLOR_EQ = false := by
  have hu : str_to_upper (cstr (";COLORS:")) = cstr (";COLORS:") := by decide
  have h2 : starts_with l (cstr (";COLORS:")) = true := by
    have e : str_to_upper (COLORS_MARKER.take 255) = str_to_upper ((cstr (";COLORS:")).take 255) := by
      decide
    simpa only [starts_with, e] using h
  rw [starts_with_iff l _ hu (by decide)] at h2
  cases l with
  | nil => exact absurd h2 (by decide)
  | cons c t =>
    simp [str_to_upper, cstr] at h2
    have h59 : toupper c = 59 := h2.1
    have hc : c = 59 := by
      unfold toupper at h59; split at h59 <;> omega
    subst hc
    exact no_record_of_head 59 t (by decide) (by decide)

/-! ## The scan of the existing file -/

/-- The text written for a line does not depend on `found_colors_section`. -/
theorem scan_line_text_indep (cur : Option CStr) (cols : List CStr) (l : CStr) (idx : Nat)
    (f1 f2 : Bool) :
    (scan_line cur cols l idx f1).1 = (scan_line cur cols l idx f2).1 := by
  unfold scan_line
  split
  · cases cur <;> rfl
  · split
    · cases cols.get? idx <;> rfl
    · split <;> rfl

/-- The index `current_color_index` advances exactly on the lines that pass the
`COLOR=` test. -/
theorem scan_line_index (cur : Option CStr) (cols : List CStr) (l : CStr) (idx : Nat)
    (f : Bool) :
    (scan_line cur cols l idx f).2.1 = idx + (if line_starts_with l COLOR_EQ then 1 else 0) := by
  unfold scan_line
  by_cases h1 : line_starts_with l CURSORCOLOR_EQ = true
  · have h2 := cursor_line_not_color_line l h1
    simp only [h1, h2, if_true]
    cases cur <;> simp
  · simp only [Bool.not_eq_true] at h1
    by_cases h2 : line_starts_with l COLOR_EQ = true
    · simp only [h1, h2, if_true]
      cases cols.get? idx <;> simp
    · simp only [Bool.not_eq_true] at h2
      simp only [h1, h2]
      by_cases h3 : starts_with l COLORS_MARKER = true <;> simp [h3]

/-- The flag `found_colors_section` is raised exactly by the lines that pass
`starts_with(line, ";Colors:")`. -/
theorem scan_line_found (cur : Option CStr) (cols : List CStr) (l : CStr) (idx : Nat)
    (f : Bool) :
    (scan_line cur cols l idx f).2.2 = (f || starts_with l COLORS_MARKER) := by
  unfold scan_line
  by_cases hm : starts_with l COLORS_MARKER = true
  · have h := marker_not_record l hm
    simp [h.1, h.2, hm]
  · simp only [Bool.not_eq_true] at hm
    simp only [hm, Bool.or_false]
    split
    · cases cur <;> rfl
    · split
      · cases cols.get? idx <;> rfl
      · simp

theorem scan_lines_length (cur : Option CStr) (cols : List CStr) (lines : List CStr) :
    ∀ (idx : Nat) (f : Bool), (scan_lines cur cols lines idx f).1.length = lines.length := by
  induction lines with
  | nil => intro idx f; rfl
  | cons l rest ih => intro idx f; simp [scan_lines, ih]

theorem scan_lines_index (cur : Option CStr) (cols : List CStr) (lines : List CStr) :
    ∀ (idx : Nat) (f : Bool), (scan_lines cur cols lines idx f).2.1
      = idx + lines.countP (fun l => line_starts_with l COLOR_EQ) := by
  induction lines with
  | nil => intro idx f; rfl
  | cons l rest ih =>
    intro idx f
    simp only [scan_lines, ih, scan_line_index, List.countP_cons]
    split <;> simp_all; omega

theorem scan_lines_found (cur : Option CStr) (cols : List CStr) (lines : List CStr) :
    ∀ (idx : Nat) (f : Bool), (scan_lines cur cols lines idx f).2.2
      = (f || lines.any (fun l => starts_with l COLORS_MARKER)) := by
  induction lines with
  | nil => intro idx f; simp [scan_lines]
  | cons l rest ih =>
    intro idx f
    simp only [scan_lines, ih, scan_line_found, List.any_cons, Bool.or_assoc]

/-- The text written at position `i` is the one `scan_line` writes for line `i`
with `current_color_index` advanced by the `COLOR=` lines before it. -/
theorem scan_lines_getElem? (cur : Option CStr) (cols : List CStr) (lines : List CStr) :
    ∀ (i idx : Nat) (f : Bool), (scan_lines cur cols lines idx f).1[i]?
      = (lines[i]?).map (fun l => (scan_line cur cols l
          (idx + (lines.take i).countP (fun l => line_starts_with l COLOR_EQ)) false).1) := by
  induction lines with
  | nil => intro i idx f; simp [scan_lines]
  | cons l rest ih =>
    intro i idx f
    cases i with
    | zero =>
      simp only [scan_lines, List.getElem?_cons_zero, List.take_zero, List.countP_nil,
        Nat.add_zero, Option.map_some']
      rw [scan_line_text_indep cur cols l idx f false]
    | succ j =>
      simp only [scan_lines, List.getElem?_cons_succ, List.take_succ_cons, List.countP_cons]
      rw [ih j, scan_line_index]
      congr 1
      funext x
      congr 2
      split <;> simp_all; omega

/-! ## The split of the new colors -/

theorem cursor_rec_iff (l : CStr) :
    starts_with l CURSORCOLOR_EQ = true ↔ (str_to_upper l).take 12 = CURSORCOLOR_EQ :=
  starts_with_iff l CURSORCOLOR_EQ (by decide) (by decide)

theorem color_rec_iff (l : CStr) :
    starts_with l COLOR_EQ = true ↔ (str_to_upper l).take 6 = COLOR_EQ :=
  starts_with_iff l COLOR_EQ (by decide) (by decide)

/-- A record cannot pass both `starts_with` tests. -/
theorem color_rec_not_cursor_rec (l : CStr) (h : starts_with l COLOR_EQ = true) :
    starts_with l CURSORCOLOR_EQ = false := by
  rw [color_rec_iff] at h
  by_contra hc
  rw [Bool.not_eq_false, cursor_rec_iff] at hc
  have h6 : ((str_to_upper l).take 12).take 6 = CURSORCOLOR_EQ.take 6 := by rw [hc]
  rw [List.take_take] at h6
  simp only [Nat.min_def] at h6
  norm_num at h6
  rw [h] at h6
  exact absurd h6 (by decide)

/-- The color slots filled by the split never exceed 16. -/
theorem organize_colors_length (doc : List CStr) :
    ∀ (cur : Option CStr) (acc : List CStr), acc.length ≤ REQUIRED_COLOR_LINES →
      (organize_colors doc cur acc).2.length ≤ REQUIRED_COLOR_LINES := by
  induction doc with
  | nil => intro cur acc h; exact h
  | cons l rest ih =>
    intro cur acc h
    unfold organize_colors
    simp only [h, if_true]
    split
    · exact ih _ _ h
    · split
      · rename_i h2
        simp only [Bool.and_eq_true, decide_eq_true_eq] at h2
        apply ih
        simp only [List.length_append, List.length_singleton]
        exact h2.2
      · exact ih _ _ h

/-- Every slot filled by the split holds a line of the document that passes
the `COLOR=` test and fails the `CURSORCOLOR=` test. -/
theorem organize_colors_mem (doc : List CStr) :
    ∀ (cur : Option CStr) (acc : List CStr) (P : CStr → Prop),
      (∀ e ∈ acc, P e) →
      (∀ e ∈ doc, starts_with e COLOR_EQ = true → starts_with e CURSORCOLOR_EQ = false → P e) →
      ∀ e ∈ (organize_colors doc cur acc).2, P e := by
  induction doc with
  | nil => intro cur acc P h _; exact h
  | cons l rest ih =>
    intro cur acc P hacc hdoc
    unfold organize_colors
    have hrest : ∀ e ∈ rest, starts_with e COLOR_EQ = true →
        starts_with e CURSORCOLOR_EQ = false → P e :=
      fun e he => hdoc e (List.mem_cons_of_mem _ he)
    split
    · split
      · exact ih _ _ P hacc hrest
      · rename_i h1
        split
        · rename_i h2
          simp only [Bool.and_eq_true, decide_eq_true_eq] at h2
          apply ih _ _ P _ hrest
          intro e he
          rcases List.mem_append.mp he with h | h
          · exact hacc e h
          · rw [List.mem_singleton] at h
            subst h
            exact hdoc e (List.mem_cons_self _ _) h2.1 (by simpa using h1)
        · exact ih _ _ P hacc hrest
    · exact hacc

/-- The cursor pointer after the split is a line of the document that passes
the `CURSORCOLOR=` test; it is set as soon as the document has such a line. -/
theorem organize_colors_cursor (doc : List CStr) :
    ∀ (cur : Option CStr) (acc : List CStr), acc.length ≤ REQUIRED_COLOR_LINES →
      ((∃ x ∈ doc, starts_with x CURSORCOLOR_EQ = true) →
        ∃ c ∈ doc, starts_with c CURSORCOLOR_EQ = true ∧ (organize_colors doc cur acc).1 = some c) ∧
      ((∀ x ∈ doc, starts_with x CURSORCOLOR_EQ = false) →
        (organize_colors doc cur acc).1 = cur) := by
  induction doc with
  | nil =>
    intro cur acc _
    exact ⟨fun ⟨x, hx, _⟩ => absurd hx (List.not_mem_nil x), fun _ => rfl⟩
  | cons l rest ih =>
    intro cur acc h
    unfold organize_colors
    simp only [h, if_true]
    by_cases h1 : starts_with l CURSORCOLOR_EQ = true
    · simp only [h1, if_true]
      have ih1 := ih (some l) acc h
      refine ⟨fun _ => ?_, fun hall => ?_⟩
      · by_cases hr : ∃ x ∈ rest, starts_with x CURSORCOLOR_EQ = true
        · obtain ⟨c, hc, hcs, he⟩ := ih1.1 hr
          exact ⟨c, List.mem_cons_of_mem _ hc, hcs, he⟩
        · have hr2 : ∀ x ∈ rest, starts_with x CURSORCOLOR_EQ = false := by
            intro x hx
            by_contra hne
            exact hr ⟨x, hx, by simpa using hne⟩
          exact ⟨l, List.mem_cons_self _ _, h1, ih1.2 hr2⟩
      · have := hall l (List.mem_cons_self _ _)
        rw [h1] at this
        exact absurd this (by decide)
    · simp only [Bool.not_eq_true] at h1
      simp only [h1]
      have key : ∀ acc2 : List CStr, acc2.length ≤ REQUIRED_COLOR_LINES →
          ((∃ x ∈ l :: rest, starts_with x CURSORCOLOR_EQ = true) →
            ∃ c ∈ l :: rest, starts_with c CURSORCOLOR_EQ = true
              ∧ (organize_colors rest cur acc2).1 = some c) ∧
          ((∀ x ∈ l :: rest, starts_with x CURSORCOLOR_EQ = false) →
            (organize_colors rest cur acc2).1 = cur) := by
        intro acc2 h2
        have ih2 := ih cur acc2 h2
        refine ⟨fun ⟨x, hx, hxs⟩ => ?_, fun hall => ?_⟩
        · rcases List.mem_cons.mp hx with hxl | hxr
          · subst hxl
            rw [h1] at hxs
            exact absurd hxs (by decide)
          · obtain ⟨c, hc, hcs, he⟩ := ih2.1 ⟨x, hxr, hxs⟩
            exact ⟨c, List.mem_cons_of_mem _ hc, hcs, he⟩
        · exact ih2.2 (fun x hx => hall x (List.mem_cons_of_mem _ hx))
      by_cases h2 : (starts_with l COLOR_EQ && decide (acc.length < REQUIRED_COLOR_LINES)) = true
      · rw [if_pos h2]
        simp only [Bool.and_eq_true, decide_eq_true_eq] at h2
        apply key
        simp only [List.length_append, List.length_singleton]
        exact h2.2
      · rw [if_neg h2]
        exact key acc h

/-- Color lines alone fill the slots in order while there is room. -/
theorem organize_colors_colors (colors : List CStr) :
    ∀ (cur : Option CStr) (acc : List CStr),
      (∀ c ∈ colors, starts_with c COLOR_EQ = true) →
      acc.length + colors.length ≤ REQUIRED_COLOR_LINES →
      organize_colors colors cur acc = (cur, acc ++ colors) := by
  induction colors with
  | nil => intro cur acc _ _; simp [organize_colors]
  | cons c rest ih =>
    intro cur acc hc hlen
    simp only [List.length_cons] at hlen
    have h1 := hc c (List.mem_cons_self _ _)
    have h2 := color_rec_not_cursor_rec c h1
    have h3 : acc.length ≤ REQUIRED_COLOR_LINES := by omega
    have h4 : acc.length < REQUIRED_COLOR_LINES := by omega
    unfold organize_colors
    simp only [h1, h2, h3, h4, if_true, Bool.true_and, decide_True, Bool.false_eq_true, if_false]
    rw [ih cur (acc ++ [c]) (fun x hx => hc x (List.mem_cons_of_mem _ hx))
      (by simp only [List.length_append, List.length_singleton]; omega)]
    simp

/-- The split of a complete document gives back its cursor and its colors. -/
theorem split_complete (cursor : CStr) (colors : List CStr)
    (hdoc : complete_doc cursor colors = true) :
    split_cursor (cursor :: colors) = some cursor ∧ split_colors (cursor :: colors) = colors := by
  simp only [complete_doc, Bool.and_eq_true, beq_iff_eq, List.all_eq_true] at hdoc
  obtain ⟨⟨h1, h2⟩, h3⟩ := hdoc
  have h := organize_colors_colors colors (some cursor) [] h3 (by simp [h2])
  simp only [split_cursor, split_colors]
  unfold organize_colors
  simp [h1, h, REQUIRED_COLOR_LINES]

/-! ## Records and the lines written for them -/

theorem dropWhile_isBlank_append (a b : CStr) (h : a.dropWhile isBlank ≠ []) :
    (a ++ b).dropWhile isBlank = a.dropWhile isBlank ++ b := by
  induction a with
  | nil => exact absurd rfl h
  | cons c t ih =>
    by_cases hc : isBlank c = true
    · simp only [List.cons_append, List.dropWhile_cons, hc, if_true] at h ⊢
      exact ih h
    · simp [List.dropWhile_cons, hc]

theorem take_upper_append (x b p : CStr) (h : (str_to_upper x).take p.length = p) :
    (str_to_upper (x ++ b)).take p.length = p := by
  have hl : p.length ≤ (str_to_upper x).length := by
    have := congrArg List.length h
    simp only [List.length_take] at this
    omega
  simp only [str_to_upper, List.map_append] at hl ⊢
  rw [List.take_append_of_le_length hl]
  exact h

/-- A line that passes a prefix test still passes it with text added at its
end. -/
theorem line_starts_with_append (a b pfx : CStr) (hu : str_to_upper pfx = pfx)
    (hlen : pfx.length ≤ 255) (hne : pfx ≠ []) (h : line_starts_with a pfx = true) :
    line_starts_with (a ++ b) pfx = true := by
  rw [line_starts_with_iff _ _ hu hlen] at h ⊢
  have hd : a.dropWhile isBlank ≠ [] := by
    intro he
    rw [he] at h
    simp [str_to_upper] at h
    exact hne h
  rw [dropWhile_isBlank_append a b hd]
  exact take_upper_append _ b pfx h

/-- A record that passes `starts_with` for `CURSORCOLOR=` or `COLOR=` begins
with a letter C, so skipping blanks changes nothing. -/
theorem head_of_rec (l pfx : CStr) (hu : str_to_upper pfx = pfx) (hlen : pfx.length ≤ 255)
    (hp : pfx.head? = some 67) (h : starts_with l pfx = true) :
    l.dropWhile isBlank = l := by
  rw [starts_with_iff _ _ hu hlen] at h
  cases l with
  | nil => rfl
  | cons c t =>
    cases pfx with
    | nil => simp at hp
    | cons p ps =>
      simp only [List.head?_cons, Option.some.injEq] at hp
      subst hp
      simp only [str_to_upper, List.map_cons, List.length_cons, List.take_succ_cons,
        List.cons.injEq] at h
      have hc : isBlank c = false := by
        have h67 := h.1
        unfold toupper at h67
        simp only [isBlank, Bool.or_eq_false_iff, beq_eq_false_iff_ne]
        split at h67 <;> omega
      simp [List.dropWhile_cons, hc]

theorem rec_is_line (l pfx : CStr) (hu : str_to_upper pfx = pfx) (hlen : pfx.length ≤ 255)
    (hp : pfx.head? = some 67) (h : starts_with l pfx = true) :
    line_starts_with l pfx = true := by
  rw [line_starts_with_iff _ _ hu hlen, head_of_rec l pfx hu hlen hp h]
  exact (starts_with_iff _ _ hu hlen).mp h

/-- The line written for a cursor record passes the `CURSORCOLOR=` test. -/
theorem put_cursor_is_cursor_line (c : CStr) (h : starts_with c CURSORCOLOR_EQ = true) :
    line_starts_with (put_entry c) CURSORCOLOR_EQ = true :=
  line_starts_with_append c [NL] CURSORCOLOR_EQ (by decide) (by decide) (by decide)
    (rec_is_line c CURSORCOLOR_EQ (by decide) (by decide) (by decide) h)

theorem put_entry_injective (a b : CStr) (h : put_entry a = put_entry b) : a = b := by
  simpa [put_entry] using h

/-- The three ways `scan_line` writes a line. -/
theorem scan_line_cases (cur : Option CStr) (cols : List CStr) (l : CStr) (idx : Nat) (f : Bool) :
    (line_starts_with l CURSORCOLOR_EQ = true ∧
        ∃ c, cur = some c ∧ (scan_line cur cols l idx f).1 = put_entry c) ∨
    (line_starts_with l CURSORCOLOR_EQ = false ∧ line_starts_with l COLOR_EQ = true ∧
        ∃ e, cols[idx]? = some e ∧ (scan_line cur cols l idx f).1 = put_entry e) ∨
    (scan_line cur cols l idx f).1 = l := by
  unfold scan_line
  by_cases h1 : line_starts_with l CURSORCOLOR_EQ = true
  · simp only [h1, if_true]
    cases cur with
    | none => right; right; rfl
    | some c => left; exact ⟨trivial, c, rfl, rfl⟩
  · simp only [Bool.not_eq_true] at h1
    simp only [h1, Bool.false_eq_true, if_false]
    by_cases h2 : line_starts_with l COLOR_EQ = true
    · simp only [h2, if_true, List.get?_eq_getElem?]
      cases h3 : cols[idx]? with
      | none => right; right; rfl
      | some e => right; left; exact ⟨trivial, trivial, e, rfl, rfl⟩
    · simp only [Bool.not_eq_true] at h2
      simp only [h2, Bool.false_eq_true, if_false]
      right; right
      split <;> rfl

/-- A line that passes neither record test is written as it is. -/
theorem scan_line_other (cur : Option CStr) (cols : List CStr) (l : CStr) (idx : Nat) (f : Bool)
    (h1 : line_starts_with l CURSORCOLOR_EQ = false) (h2 : line_starts_with l COLOR_EQ = false) :
    (scan_line cur cols l idx f).1 = l := by
  rcases scan_line_cases cur cols l idx f with h | h | h
  · rw [h1] at h; exact absurd h.1 (by decide)
  · rw [h2] at h; exact absurd h.2.1 (by decide)
  · exact h

/-- The positions where the scan writes something else than the line read are
positions of record lines. -/
theorem scan_lines_diff_count (cur : Option CStr) (cols : List CStr) (lines : List CStr) :
    ∀ (idx : Nat) (f : Bool),
      (List.zip lines (scan_lines cur cols lines idx f).1).countP (fun p => p.1 != p.2)
        ≤ lines.countP (fun l => line_starts_with l CURSORCOLOR_EQ)
          + lines.countP (fun l => line_starts_with l COLOR_EQ) := by
  induction lines with
  | nil => intro idx f; simp [scan_lines]
  | cons l rest ih =>
    intro idx f
    simp only [scan_lines, List.zip_cons_cons, List.countP_cons]
    have ih1 := ih (scan_line cur cols l idx f).2.1 (scan_line cur cols l idx f).2.2
    rcases scan_line_cases cur cols l idx f with h | h | h
    · simp only [h.1, if_true]
      split <;> split <;> omega
    · simp only [h.2.1, if_true]
      split <;> split <;> omega
    · simp only [h, bne_self_eq_false, Bool.false_eq_true, if_false]
      split <;> split <;> omega

/-! ## Properties of the merge -/

theorem split_cursor_mem (new_colors : List CStr) (c : CStr)
    (h : split_cursor new_colors = some c) :
    c ∈ new_colors ∧ starts_with c CURSORCOLOR_EQ = true := by
  have key := organize_colors_cursor new_colors none [] (by decide)
  by_cases hex : ∃ x ∈ new_colors, starts_with x CURSORCOLOR_EQ = true
  · obtain ⟨d, hd, hds, he⟩ := key.1 hex
    have : d = c := by
      have h2 : some d = some c := by rw [← he]; exact h
      exact Option.some.inj h2
    subst this
    exact ⟨hd, hds⟩
  · have hall : ∀ x ∈ new_colors, starts_with x CURSORCOLOR_EQ = false := by
      intro x hx
      by_contra hne
      exact hex ⟨x, hx, by simpa using hne⟩
    have := key.2 hall
    unfold split_cursor at h
    rw [this] at h
    exact absurd h (by simp)

theorem split_colors_mem (new_colors : List CStr) (e : CStr) (h : e ∈ split_colors new_colors) :
    e ∈ new_colors ∧ starts_with e COLOR_EQ = true ∧ starts_with e CURSORCOLOR_EQ = false :=
  organize_colors_mem new_colors none []
    (fun e => e ∈ new_colors ∧ starts_with e COLOR_EQ = true ∧ starts_with e CURSORCOLOR_EQ = false)
    (fun x hx => absurd hx (List.not_mem_nil x))
    (fun _ he h1 h2 => ⟨he, h1, h2⟩) e h

theorem split_colors_length (new_colors : List CStr) :
    (split_colors new_colors).length ≤ REQUIRED_COLOR_LINES :=
  organize_colors_length new_colors none [] (by decide)

/-- The text at position `i` of the merged file, for a position of the target. -/
theorem merge_existing_getElem? (old_lines new_colors : List CStr) (i : Nat) (l : CStr)
    (hl : old_lines[i]? = some l) :
    (merge_existing old_lines new_colors)[i]? =
      some (scan_line (split_cursor new_colors) (split_colors new_colors) l
        ((old_lines.take i).countP (fun x => line_starts_with x COLOR_EQ)) false).1 := by
  have hi : i < old_lines.length := by
    by_contra hge
    rw [List.getElem?_eq_none (by omega)] at hl
    exact absurd hl (by simp)
  unfold merge_existing
  simp only
  rw [List.getElem?_append_left (by rw [scan_lines_length]; exact hi), scan_lines_getElem?, hl]
  simp

/-- Nothing is appended once the target has at least 16 `COLOR=` lines. -/
theorem merge_existing_full (old_lines new_colors : List CStr)
    (h : REQUIRED_COLOR_LINES ≤ old_lines.countP (fun l => line_starts_with l COLOR_EQ)) :
    merge_existing old_lines new_colors
      = (scan_lines (split_cursor new_colors) (split_colors new_colors) old_lines 0 false).1 := by
  unfold merge_existing append_remaining
  simp only [scan_lines_index]
  have := split_colors_length new_colors
  rw [if_neg (by omega)]
  simp

/-- C1: for every existing target and every new document, the merged output
keeps one line per target line at the same position (the line itself, or a
record of the new document written in place of a `CURSORCOLOR=` or `COLOR=`
line), every line that passes neither `line_starts_with` test is reproduced
identically at its position, and when the target has one `CURSORCOLOR=` line
and exactly 16 `COLOR=` lines nothing is appended: the output has the length of
the target and differs from it at no more than 17 positions. -/
theorem C1_unrelated_lines_kept (old_lines new_colors : List CStr) :
    update_prefs_lines (some old_lines) new_colors = some (merge_existing old_lines new_colors) ∧
    old_lines.length ≤ (merge_existing old_lines new_colors).length ∧
    (∀ (i : Nat) (l : CStr), old_lines[i]? = some l →
      ∃ w, (merge_existing old_lines new_colors)[i]? = some w ∧
        (w = l ∨ ((line_starts_with l CURSORCOLOR_EQ = true ∨ line_starts_with l COLOR_EQ = true)
          ∧ ∃ e ∈ new_colors, w = put_entry e))) ∧
    (∀ (i : Nat) (l : CStr), old_lines[i]? = some l →
      line_starts_with l CURSORCOLOR_EQ = false → line_starts_with l COLOR_EQ = false →
      (merge_existing old_lines new_colors)[i]? = some l) ∧
    (old_lines.countP (fun l => line_starts_with l CURSORCOLOR_EQ) = 1 →
      old_lines.countP (fun l => line_starts_with l COLOR_EQ) = 16 →
      (merge_existing old_lines new_colors).length = old_lines.length ∧
      (List.zip old_lines (merge_existing old_lines new_colors)).countP
        (fun p => p.1 != p.2) ≤ 17) := by
  refine ⟨rfl, ?_, ?_, ?_, ?_⟩
  · unfold merge_existing
    simp only [List.length_append, scan_lines_length]
    omega
  · intro i l hl
    rw [merge_existing_getElem? old_lines new_colors i l hl]
    refine ⟨_, rfl, ?_⟩
    rcases scan_line_cases (split_cursor new_colors) (split_colors new_colors) l
        ((old_lines.take i).countP (fun x => line_starts_with x COLOR_EQ)) false with h | h | h
    · obtain ⟨h1, c, hc, hw⟩ := h
      exact Or.inr ⟨Or.inl h1, c, (split_cursor_mem new_colors c hc).1, hw⟩
    · obtain ⟨_, h2, e, he, hw⟩ := h
      exact Or.inr ⟨Or.inr h2, e,
        (split_colors_mem new_colors e (List.getElem?_mem he)).1, hw⟩
    · exact Or.inl h
  · intro i l hl h1 h2
    rw [merge_existing_getElem? old_lines new_colors i l hl, scan_line_other _ _ _ _ _ h1 h2]
  · intro h1 h16
    rw [merge_existing_full old_lines new_colors (by rw [h16]; decide)]
    refine ⟨scan_lines_length _ _ _ _ _, ?_⟩
    have := scan_lines_diff_count (split_cursor new_colors) (split_colors new_colors)
      old_lines 0 false
    omega

/-- C2: for every existing target and every complete new document, a target
line that passes the `COLOR=` test and has `n` such lines before it is written
as the color record number `n` (counting from 0) of the document when
`n < 16`, and is left as it is when `n ≥ 16`. -/
theorem C2_color_lines_replaced (old_lines : List CStr) (cursor : CStr) (colors : List CStr)
    (hdoc : complete_doc cursor colors = true) (i : Nat) (l : CStr)
    (hl : old_lines[i]? = some l) (hc : line_starts_with l COLOR_EQ = true) :
    ((old_lines.take i).countP (fun x => line_starts_with x COLOR_EQ) < 16 →
      ∃ c, colors[(old_lines.take i).countP (fun x => line_starts_with x COLOR_EQ)]? = some c ∧
        (merge_existing old_lines (cursor :: colors))[i]? = some (put_entry c)) ∧
    (16 ≤ (old_lines.take i).countP (fun x => line_starts_with x COLOR_EQ) →
      (merge_existing old_lines (cursor :: colors))[i]? = some l) := by
  have hs := split_complete cursor colors hdoc
  have hlen : colors.length = 16 := by
    simp only [complete_doc, Bool.and_eq_true, beq_iff_eq] at hdoc
    exact hdoc.1.2
  have hcur : line_starts_with l CURSORCOLOR_EQ = false := by
    by_contra h
    have := cursor_line_not_color_line l (by simpa using h)
    rw [hc] at this
    exact absurd this (by decide)
  rw [merge_existing_getElem? old_lines (cursor :: colors) i l hl, hs.1, hs.2]
  unfold scan_line
  simp only [hcur, hc, if_true, Bool.false_eq_true, if_false, List.get?_eq_getElem?]
  constructor
  · intro hn
    have hlt : (old_lines.take i).countP (fun x => line_starts_with x COLOR_EQ) < colors.length := by
      omega
    refine ⟨colors[(old_lines.take i).countP (fun x => line_starts_with x COLOR_EQ)],
      List.getElem?_eq_getElem hlt, ?_⟩
    rw [List.getElem?_eq_getElem hlt]
  · intro hn
    rw [List.getElem?_eq_none (by omega)]

/-- C3: for every existing target and every new document that has a line
passing the `CURSORCOLOR=` test, the split keeps one such line `c` of the
document as the cursor record; every target line that passes the
`CURSORCOLOR=` test (leading blanks skipped, case ignored) is written as `c`,
and at no position of a line that fails the test is `c` written. -/
theorem C3_cursor_lines_replaced (old_lines new_colors : List CStr)
    (h : ∃ x ∈ new_colors, starts_with x CURSORCOLOR_EQ = true) :
    ∃ c ∈ new_colors, starts_with c CURSORCOLOR_EQ = true ∧ split_cursor new_colors = some c ∧
      ∀ (i : Nat) (l : CStr), old_lines[i]? = some l →
        (line_starts_with l CURSORCOLOR_EQ = true →
          (merge_existing old_lines new_colors)[i]? = some (put_entry c)) ∧
        (line_starts_with l CURSORCOLOR_EQ = false →
          (merge_existing old_lines new_colors)[i]? ≠ some (put_entry c)) := by
  obtain ⟨c, hc, hcs, he⟩ := (organize_colors_cursor new_colors none [] (by decide)).1 h
  refine ⟨c, hc, hcs, he, ?_⟩
  intro i l hl
  rw [merge_existing_getElem? old_lines new_colors i l hl]
  have hsc : split_cursor new_colors = some c := he
  constructor
  · intro h1
    rw [hsc]
    unfold scan_line
    simp [h1]
  · intro h1 heq
    have heq2 := Option.some.inj heq
    rcases scan_line_cases (split_cursor new_colors) (split_colors new_colors) l
        ((old_lines.take i).countP (fun x => line_starts_with x COLOR_EQ)) false with h2 | h2 | h2
    · rw [h1] at h2
      exact absurd h2.1 (by decide)
    · obtain ⟨_, _, e, hmem, hw⟩ := h2
      have hec : e = c := put_entry_injective e c (by rw [← hw, heq2])
      have := (split_colors_mem new_colors e (List.getElem?_mem hmem)).2.2
      rw [hec, hcs] at this
      exact absurd this (by decide)
    · rw [h2] at heq2
      have := put_cursor_is_cursor_line c hcs
      rw [← heq2, h1] at this
      exact absurd this (by decide)

/-- C4: for every existing target with `k` lines passing the `COLOR=` test and
every complete new document: when `k < 16` the output is the scanned target
lines followed by one `;Colors:` line exactly when no target line passed
`starts_with(line, ";Colors:")`, followed by the color records `k+1 .. 16` of
the document in order; when `k ≥ 16` nothing follows the scanned lines. -/
theorem C4_remaining_appended (old_lines : List CStr) (cursor : CStr) (colors : List CStr)
    (hdoc : complete_doc cursor colors = true) :
    (old_lines.countP (fun l => line_starts_with l COLOR_EQ) < 16 →
      (merge_existing old_lines (cursor :: colors)).drop old_lines.length
        = (if old_lines.any (fun l => starts_with l COLORS_MARKER) then []
            else [put_entry COLORS_MARKER])
          ++ (colors.drop (old_lines.countP (fun l => line_starts_with l COLOR_EQ))).map
              put_entry) ∧
    (16 ≤ old_lines.countP (fun l => line_starts_with l COLOR_EQ) →
      (merge_existing old_lines (cursor :: colors)).length = old_lines.length) := by
  have hs := split_complete cursor colors hdoc
  have hlen : colors.length = 16 := by
    simp only [complete_doc, Bool.and_eq_true, beq_iff_eq] at hdoc
    exact hdoc.1.2
  constructor
  · intro hk
    unfold merge_existing append_remaining
    simp only [hs.1, hs.2, scan_lines_index, scan_lines_found, Nat.zero_add, Bool.false_or]
    rw [if_pos (by omega)]
    have hl := scan_lines_length (some cursor) colors old_lines 0 false
    rw [List.drop_append_of_le_length (by omega), ← hl, List.drop_length, List.nil_append]
  · intro hk
    rw [merge_existing_full old_lines (cursor :: colors) hk]
    exact scan_lines_length _ _ _ _ _

/-- C5: for every complete new document, when the target cannot be opened
`update_prefs_file` writes exactly 18 lines: the `;Colors:` marker, the cursor
record, then the 16 color records in document order. -/
theorem C5_fresh_file (cursor : CStr) (colors : List CStr)
    (hdoc : complete_doc cursor colors = true) :
    update_prefs_lines none (cursor :: colors)
      = some (put_entry COLORS_MARKER :: put_entry cursor :: colors.map put_entry) ∧
    (put_entry COLORS_MARKER :: put_entry cursor :: colors.map put_entry).length = 18 := by
  have hs := split_complete cursor colors hdoc
  have hlen : colors.length = 16 := by
    simp only [complete_doc, Bool.and_eq_true, beq_iff_eq] at hdoc
    exact hdoc.1.2
  constructor
  · simp [update_prefs_lines, write_fresh, hs.1, hs.2, hlen, REQUIRED_COLOR_LINES]
  · simp [hlen]

set_option maxRecDepth 100000 in
/-- Witness of C1 on `full_prefs`. -/
theorem C1_unrelated_lines_kept_witness :
    full_prefs.countP (fun l => line_starts_with l CURSORCOLOR_EQ) = 1 ∧
    full_prefs.countP (fun l => line_starts_with l COLOR_EQ) = 16 ∧
    (merge_existing full_prefs (sample_cursor :: sample_colors)).length = full_prefs.length ∧
    (List.zip full_prefs (merge_existing full_prefs (sample_cursor :: sample_colors))).countP
      (fun p => p.1 != p.2) ≤ 17 :=
  ⟨by decide, by decide,
    (C1_unrelated_lines_kept full_prefs (sample_cursor :: sample_colors)).2.2.2.2
      (by decide) (by decide)⟩

set_option maxRecDepth 100000 in
/-- Witness of C2: line 4 of `sample_prefs` is the second `COLOR=` line. -/
theorem C2_color_lines_replaced_witness :
    complete_doc sample_cursor sample_colors = true ∧
    sample_prefs[4]? = some (cstr ("COLOR=4,5,6\n")) ∧
    line_starts_with (cstr ("COLOR=4,5,6\n")) COLOR_EQ = true ∧
    (((sample_prefs.take 4).countP (fun x => line_starts_with x COLOR_EQ) < 16 →
      ∃ c, sample_colors[(sample_prefs.take 4).countP
          (fun x => line_starts_with x COLOR_EQ)]? = some c ∧
        (merge_existing sample_prefs (sample_cursor :: sample_colors))[4]? = some (put_entry c)) ∧
    (16 ≤ (sample_prefs.take 4).countP (fun x => line_starts_with x COLOR_EQ) →
      (merge_existing sample_prefs (sample_cursor :: sample_colors))[4]?
        = some (cstr ("COLOR=4,5,6\n")))) :=
  ⟨by decide, by decide, by decide,
    C2_color_lines_replaced sample_prefs sample_cursor sample_colors (by decide) 4
      (cstr ("COLOR=4,5,6\n")) (by decide) (by decide)⟩

set_option maxRecDepth 100000 in
/-- Witness of C3 on `sample_prefs`. -/
theorem C3_cursor_lines_replaced_witness :
    (∃ x ∈ sample_cursor :: sample_colors, starts_with x CURSORCOLOR_EQ = true) ∧
    ∃ c ∈ sample_cursor :: sample_colors, starts_with c CURSORCOLOR_EQ = true ∧
      split_cursor (sample_cursor :: sample_colors) = some c ∧
      ∀ (i : Nat) (l : CStr), sample_prefs[i]? = some l →
        (line_starts_with l CURSORCOLOR_EQ = true →
          (merge_existing sample_prefs (sample_cursor :: sample_colors))[i]?
            = some (put_entry c)) ∧
        (line_starts_with l CURSORCOLOR_EQ = false →
          (merge_existing sample_prefs (sample_cursor :: sample_colors))[i]?
            ≠ some (put_entry c)) :=
  ⟨⟨sample_cursor, List.mem_cons_self _ _, by decide⟩,
    C3_cursor_lines_replaced sample_prefs (sample_cursor :: sample_colors)
      ⟨sample_cursor, List.mem_cons_self _ _, by decide⟩⟩

set_option maxRecDepth 100000 in
/-- Witness of C4 on `sample_prefs`, which has 2 `COLOR=` lines and a marker. -/
theorem C4_remaining_appended_witness :
    complete_doc sample_cursor sample_colors = true ∧
    sample_prefs.countP (fun l => line_starts_with l COLOR_EQ) < 16 ∧
    (merge_existing sample_prefs (sample_cursor :: sample_colors)).drop sample_prefs.length
      = (if sample_prefs.any (fun l => starts_with l COLORS_MARKER) then []
          else [put_entry COLORS_MARKER])
        ++ (sample_colors.drop (sample_prefs.countP (fun l => line_starts_with l COLOR_EQ))).map
            put_entry :=
  ⟨by decide, by decide,
    (C4_remaining_appended sample_prefs sample_cursor sample_colors (by decide)).1 (by decide)⟩

set_option maxRecDepth 100000 in
/-- Witness of C5 on the sample document. -/
theorem C5_fresh_file_witness :
    complete_doc sample_cursor sample_colors = true ∧
    update_prefs_lines none (sample_cursor :: sample_colors)
      = some (put_entry COLORS_MARKER :: put_entry sample_cursor :: sample_colors.map put_entry) ∧
    (put_entry COLORS_MARKER :: put_entry sample_cursor :: sample_colors.map put_entry).length
      = 18 :=
  ⟨by decide, C5_fresh_file sample_cursor sample_colors (by decide)⟩

set_option maxRecDepth 100000 in
/-- C6 (the code at the failing input): merging the complete sample document
into an existing target with zero lines writes the marker and the 16 color
records; the cursor record, which replaced no line, is not in the output. -/
theorem C6_cursor_not_appended :
    complete_doc sample_cursor sample_colors = true ∧
    update_prefs_lines (some []) (sample_cursor :: sample_colors)
      = some (put_entry COLORS_MARKER :: sample_colors.map put_entry) ∧
    put_entry sample_cursor ∉ put_entry COLORS_MARKER :: sample_colors.map put_entry := by
  decide

/-- The scratch path differs from the target path. -/
theorem temp_path_ne (p : CStr) : temp_path p ≠ p := by
  intro h
  have := congrArg List.length h
  simp [temp_path, cstr] at this

/-- A failed `Rename` leaves the file system as it was. -/
theorem Rename_failed (ok : Bool) (fs : FileSys) (a b : CStr) (h : (Rename ok fs a b).1 = false) :
    (Rename ok fs a b).2 = fs := by
  unfold Rename at h ⊢
  cases hfa : fs a with
  | none => rfl
  | some data =>
    simp only [hfa] at h ⊢
    by_cases hc : (ok && (fs b).isNone) = true
    · simp [hc] at h
    · simp [hc]

set_option maxRecDepth 100000 in
/-- C7 (as stated, refuted): with every call going through except the final
`Rename`, `update_prefs_file` reports failure and afterwards neither the
scratch file nor the target exists, although the target existed before. -/
theorem C7_counterexample :
    (update_prefs_file rename_fails_env sample_fs sample_path
        (sample_cursor :: sample_colors)).map
      (fun o => (o.success, o.rename_result, o.fs (temp_path sample_path), o.fs sample_path))
      = some (false, some false, none, none) ∧
    sample_fs sample_path = some (cstr ("FONT=topaz\nCOLOR=1,2,3\n")) := by
  decide

/-- C7 (amended): whenever the final `Rename` fails, `update_prefs_file`
reports failure; it has called `DeleteFile` on the target before the rename and
calls it on the scratch file after, so afterwards the target holds its former
contents only if that deletion did not go through (else it is absent), and the
scratch file is absent when its deletion goes through and present otherwise. -/
theorem C7_rename_failure (env : DosEnv) (fs : FileSys) (prefs_path : CStr)
    (new_colors : List CStr)
    (hfail : (update_prefs_file env fs prefs_path new_colors).map (fun o => o.rename_result)
      = some (some false)) :
    (update_prefs_file env fs prefs_path new_colors).map (fun o => o.success) = some false ∧
    (update_prefs_file env fs prefs_path new_colors).map (fun o => o.fs prefs_path)
      = some (if env.delete_prefs_ok then none else fs prefs_path) ∧
    (env.delete_temp_ok = true →
      (update_prefs_file env fs prefs_path new_colors).map (fun o => o.fs (temp_path prefs_path))
        = some none) ∧
    (env.delete_temp_ok = false →
      (update_prefs_file env fs prefs_path new_colors).map
        (fun o => (o.fs (temp_path prefs_path)).isSome) = some true) := by
  have hne := temp_path_ne prefs_path
  unfold update_prefs_file at hfail ⊢
  cases hnew : env.open_new_ok with
  | false => simp [hnew] at hfail
  | true =>
    simp only [hnew, if_true] at hfail ⊢
    cases hw : update_prefs_lines
        ((if env.open_old_ok = true then fs prefs_path else none).map
          (fun text => fgets_chunks text [])) new_colors with
    | none => simp [hw] at hfail
    | some written =>
      simp only [hw] at hfail ⊢
      cases hr : (Rename env.rename_ok
          (DeleteFile env.delete_prefs_ok (fs_store fs (temp_path prefs_path) written.flatten)
            prefs_path) (temp_path prefs_path) prefs_path).1 with
      | true => simp [hr] at hfail
      | false =>
        have hr2 := Rename_failed _ _ _ _ hr
        simp only [hr, hr2, Bool.false_eq_true, if_false, Option.map_some', Option.some.injEq,
          true_and]
        refine ⟨?_, ?_, ?_⟩
        · cases env.delete_temp_ok <;> cases env.delete_prefs_ok <;>
            simp [DeleteFile, fs_remove, fs_store, hne, Ne.symm hne]
        · intro ht
          simp [DeleteFile, fs_remove, ht]
        · intro ht
          cases env.delete_prefs_ok <;>
            simp [DeleteFile, fs_remove, fs_store, ht, hne]

set_option maxRecDepth 100000 in
/-- Witness of C7 (amended) on the sample file system. -/
theorem C7_rename_failure_witness :
    (update_prefs_file rename_fails_env sample_fs sample_path
        (sample_cursor :: sample_colors)).map (fun o => o.rename_result) = some (some false) ∧
    (update_prefs_file rename_fails_env sample_fs sample_path
        (sample_cursor :: sample_colors)).map (fun o => o.success) = some false ∧
    (update_prefs_file rename_fails_env sample_fs sample_path
        (sample_cursor :: sample_colors)).map (fun o => o.fs sample_path)
      = some (if rename_fails_env.delete_prefs_ok then none else sample_fs sample_path) :=
  ⟨by decide,
    (C7_rename_failure rename_fails_env sample_fs sample_path (sample_cursor :: sample_colors)
      (by decide)).1,
    (C7_rename_failure rename_fails_env sample_fs sample_path (sample_cursor :: sample_colors)
      (by decide)).2.1⟩

/-! ## The prefix kept by `convert_color_line` -/

theorem takeWhile_append_stop {α : Type} (p : α → Bool) (u : List α) (y : α) (r : List α)
    (hu : ∀ x ∈ u, p x = true) (hy : p y = false) :
    (u ++ y :: r).takeWhile p = u := by
  induction u with
  | nil => simp [List.takeWhile_cons, hy]
  | cons a t ih =>
    have ha := hu a (List.mem_cons_self _ _)
    simp only [List.cons_append, List.takeWhile_cons, ha, if_true]
    rw [ih (fun x hx => hu x (List.mem_cons_of_mem _ hx))]

theorem dropWhile_append_stop {α : Type} (p : α → Bool) (u : List α) (y : α) (r : List α)
    (hu : ∀ x ∈ u, p x = true) (hy : p y = false) :
    (u ++ y :: r).dropWhile p = y :: r := by
  induction u with
  | nil => simp [List.dropWhile_cons, hy]
  | cons a t ih =>
    have ha := hu a (List.mem_cons_self _ _)
    simp only [List.cons_append, List.dropWhile_cons, ha, if_true]
    exact ih (fun x hx => hu x (List.mem_cons_of_mem _ hx))

/-- A text whose first bytes, uppercased, are `Q` followed by an equals sign
splits at its first equals sign after exactly `Q.length` bytes. -/
theorem split_at_equals (Q : CStr) :
    ∀ (d : CStr), (∀ x ∈ Q, x ≠ 61) →
      (str_to_upper d).take (Q.length + 1) = Q ++ [61] →
      ∃ q d2, d = q ++ 61 :: d2 ∧ str_to_upper q = Q ∧ ∀ x ∈ q, x ≠ 61 := by
  induction Q with
  | nil =>
    intro d _ h
    cases d with
    | nil => simp [str_to_upper] at h
    | cons c t =>
      simp only [str_to_upper, List.map_cons, List.length_nil, Nat.zero_add, List.take_succ_cons,
        List.take_zero, List.nil_append, List.cons.injEq, and_true] at h
      have hc : c = 61 := by
        unfold toupper at h; split at h <;> omega
      exact ⟨[], t, by simp [hc], rfl, fun x hx => absurd hx (List.not_mem_nil x)⟩
  | cons a Q ih =>
    intro d hQ h
    cases d with
    | nil => simp [str_to_upper] at h
    | cons c t =>
      simp only [str_to_upper, List.map_cons, List.length_cons, List.take_succ_cons,
        List.cons_append, List.cons.injEq] at h
      obtain ⟨q, d2, hd, hq, hne⟩ := ih t (fun x hx => hQ x (List.mem_cons_of_mem _ hx)) h.2
      have ha : a ≠ 61 := hQ a (List.mem_cons_self _ _)
      have hc : c ≠ 61 := by
        intro hc
        rw [hc] at h
        exact ha (by rw [← h.1]; decide)
      refine ⟨c :: q, d2, by simp [hd], by simp [str_to_upper, h.1] at hq ⊢; exact hq, ?_⟩
      intro x hx
      rcases List.mem_cons.mp hx with h1 | h1
      · rw [h1]; exact hc
      · exact hne x h1

theorem isBlank_ne_equals (x : Nat) (h : isBlank x = true) : (x != 61) = true := by
  simp only [isBlank, Bool.or_eq_true, beq_iff_eq] at h
  simp only [bne_iff_ne]
  omega

/-- The part of the work line up to its first equals sign, when the line has
one among its first 511 bytes. -/
theorem takeWhile_take_equals (u r : CStr) (hu : ∀ x ∈ u, x ≠ 61)
    (h : 61 ∈ (u ++ 61 :: r).take (MAX_LINE_LENGTH - 1)) :
    ((u ++ 61 :: r).take (MAX_LINE_LENGTH - 1)).takeWhile (fun c => c != 61) = u := by
  rw [List.take_append_eq_append_take] at h ⊢
  cases hk : MAX_LINE_LENGTH - 1 - u.length with
  | zero =>
    rw [hk] at h
    simp only [List.take_zero, List.append_nil] at h
    exact absurd rfl (hu 61 (List.mem_of_mem_take h))
  | succ k =>
    have hle : u.length ≤ MAX_LINE_LENGTH - 1 := by omega
    rw [List.take_of_length_le hle, List.take_succ_cons]
    exact takeWhile_append_stop _ u 61 _ (fun x hx => by simpa using hu x hx) (by simp)

/-- The line `prefix_part ++ tail` built by `convert_color_line` passes the
prefix test its input line passed. -/
theorem kept_prefix_passes (Q : CStr) (hQ : ∀ x ∈ Q, x ≠ 61 ∧ isBlank x = false)
    (hu : str_to_upper (Q ++ [61]) = Q ++ [61]) (hlen : (Q ++ [61]).length ≤ 255)
    (l tail : CStr) (h : line_starts_with l (Q ++ [61]) = true)
    (heq : 61 ∈ l.take (MAX_LINE_LENGTH - 1)) :
    line_starts_with
      (((l.take (MAX_LINE_LENGTH - 1)).takeWhile (fun c => c != 61) ++ [61]) ++ tail)
      (Q ++ [61]) = true := by
  rw [line_starts_with_iff _ _ hu hlen] at h ⊢
  simp only [List.length_append, List.length_singleton] at h ⊢
  obtain ⟨q, d2, hd, hq, hne⟩ := split_at_equals Q _ (fun x hx => (hQ x hx).1) h
  have hl : l = (l.takeWhile isBlank ++ q) ++ 61 :: d2 := by
    rw [List.append_assoc, ← hd, List.takeWhile_append_dropWhile]
  have hws : ∀ x ∈ l.takeWhile isBlank, isBlank x = true := fun x hx =>
    List.mem_takeWhile_imp hx
  have hu2 : ∀ x ∈ l.takeWhile isBlank ++ q, x ≠ 61 := by
    intro x hx
    rcases List.mem_append.mp hx with h1 | h1
    · simpa using isBlank_ne_equals x (hws x h1)
    · exact hne x h1
  have hpre : (l.take (MAX_LINE_LENGTH - 1)).takeWhile (fun c => c != 61)
      = l.takeWhile isBlank ++ q := by
    rw [hl] at heq ⊢
    rw [takeWhile_take_equals _ d2 hu2 heq]
    rw [← hl]
  rw [hpre]
  have hdrop : ((l.takeWhile isBlank ++ q ++ [61]) ++ tail).dropWhile isBlank
      = q ++ 61 :: tail := by
    cases q with
    | nil =>
      simp only [List.append_nil, List.append_assoc, List.singleton_append, List.nil_append]
      exact dropWhile_append_stop _ _ 61 tail hws (by decide)
    | cons c t =>
      have hc : isBlank c = false := by
        cases Q with
        | nil => simp [str_to_upper] at hq
        | cons a Q2 =>
          simp only [str_to_upper, List.map_cons, List.cons.injEq] at hq
          have hb := (hQ a (List.mem_cons_self _ _)).2
          by_contra hcb
          have hcb2 : isBlank c = true := by simpa using hcb
          have : toupper c = c := by
            simp only [isBlank, Bool.or_eq_true, beq_iff_eq] at hcb2
            unfold toupper
            rw [if_neg (by omega)]
          rw [← hq.1, this, hcb2] at hb
          exact absurd hb (by decide)
      simp only [List.append_assoc, List.cons_append, List.singleton_append]
      rw [dropWhile_append_stop _ _ c _ hws hc]
      simp
  rw [hdrop]
  have : str_to_upper (q ++ 61 :: tail) = (Q ++ [61]) ++ str_to_upper tail := by
    simp only [str_to_upper, List.map_append, List.map_cons] at hq ⊢
    rw [hq]
    simp [toupper]
  rw [this, List.take_append_of_le_length (by simp)]
  simp

/-! ## `read_theme_file` -/

/-- Whenever `convert_color_line` succeeds the line has an equals sign among
its first 511 bytes and `prefix_part` is the line up to and including it. -/
theorem color_line_parts_pfx (l : CStr) (ov : ColorOverrides)
    (p : CStr × CStr × CStr × CStr × CStr × CStr) (h : color_line_parts l ov = some p) :
    61 ∈ l.take (MAX_LINE_LENGTH - 1) ∧
      p.1 = (l.take (MAX_LINE_LENGTH - 1)).takeWhile (fun c => c != 61) ++ [61] := by
  unfold color_line_parts at h
  simp only at h
  split at h
  · rename_i h61
    refine ⟨h61, ?_⟩
    split at h
    · exact absurd h (by simp)
    · split at h
      · simp only [Option.some.injEq] at h
        rw [← h]
      · split at h
        · simp only [Option.some.injEq] at h
          rw [← h]
        · split at h <;>
          · simp only [Option.some.injEq] at h
            rw [← h]
  · exact absurd h (by simp)

theorem convert_color_line_shape (l : CStr) (ov : ColorOverrides) (out : CStr)
    (h : convert_color_line l ov = some out) :
    61 ∈ l.take (MAX_LINE_LENGTH - 1) ∧
      ∃ tail, out = ((l.take (MAX_LINE_LENGTH - 1)).takeWhile (fun c => c != 61) ++ [61])
        ++ tail := by
  unfold convert_color_line at h
  cases hp : color_line_parts l ov with
  | none => simp [hp] at h
  | some p =>
    obtain ⟨pfx_part, load_flag, ansi_flag, r_str, g_str, b_str⟩ := p
    have hs := color_line_parts_pfx l ov _ hp
    simp only [hp, Option.some.injEq] at h
    refine ⟨hs.1, ?_⟩
    simp only at hs
    rw [← hs.2, ← h]
    unfold format_color_line
    exact ⟨_, by simp only [List.append_assoc]; rfl⟩

/-- A converted `CURSORCOLOR=` line is a `CURSORCOLOR=` line. -/
theorem convert_keeps_cursor (l : CStr) (ov : ColorOverrides) (out : CStr)
    (h : convert_color_line l ov = some out)
    (hl : line_starts_with l CURSORCOLOR_EQ = true) :
    line_starts_with out CURSORCOLOR_EQ = true := by
  obtain ⟨h61, tail, ht⟩ := convert_color_line_shape l ov out h
  rw [ht]
  exact kept_prefix_passes (cstr ("CURSORCOLOR")) (by decide) (by decide) (by decide) l tail hl h61

/-- A converted `COLOR=` line is a `COLOR=` line. -/
theorem convert_keeps_color (l : CStr) (ov : ColorOverrides) (out : CStr)
    (h : convert_color_line l ov = some out)
    (hl : line_starts_with l COLOR_EQ = true) :
    line_starts_with out COLOR_EQ = true := by
  obtain ⟨h61, tail, ht⟩ := convert_color_line_shape l ov out h
  rw [ht]
  exact kept_prefix_passes (cstr ("COLOR")) (by decide) (by decide) (by decide) l tail hl h61

theorem default_cursor_is_cursor_line (ov : ColorOverrides) :
    line_starts_with (default_line CURSORCOLOR_EQ ov) CURSORCOLOR_EQ = true := by
  obtain ⟨a, b, c, d⟩ := ov
  cases a <;> cases b <;> cases c <;> cases d <;> decide

theorem default_color_is_color_line (ov : ColorOverrides) :
    line_starts_with (default_line COLOR_EQ ov) COLOR_EQ = true := by
  obtain ⟨a, b, c, d⟩ := ov
  cases a <;> cases b <;> cases c <;> cases d <;> decide

theorem read_line_inv (ov : ColorOverrides) (line : CStr) (st : ReadState) (h : ReadInv st) :
    ReadInv (read_line ov line st) := by
  unfold read_line
  cases hf : st.found_cursor_color with
  | false =>
    obtain ⟨hcol, hcnt⟩ := h.1 hf
    simp only [Bool.not_false, Bool.true_and, Bool.false_and, Bool.false_eq_true, if_false]
    by_cases h1 : line_starts_with line CURSORCOLOR_EQ = true
    · simp only [h1, if_true]
      cases hc : convert_color_line line ov with
      | none => exact h
      | some conv =>
        refine ⟨fun hx => absurd hx (by simp), fun _ => ⟨conv, [], ?_, ?_, ?_, ?_, ?_⟩⟩
        · simp [hcol]
        · exact convert_keeps_cursor line ov conv hc h1
        · simp [hcnt]
        · simp [hcnt]
        · intro c hc2; exact absurd hc2 (List.not_mem_nil c)
    · simp only [h1, Bool.false_eq_true, if_false]
      exact h
  | true =>
    obtain ⟨cursor, cs, hcol, hcur, hlen, hle, hall⟩ := h.2 hf
    simp only [Bool.not_true, Bool.false_and, Bool.false_eq_true, if_false, Bool.true_and]
    by_cases h2 : (decide (st.color_count < REQUIRED_COLOR_LINES)
        && line_starts_with line COLOR_EQ) = true
    · rw [if_pos h2]
      simp only [Bool.and_eq_true, decide_eq_true_eq] at h2
      cases hc : convert_color_line line ov with
      | none => exact h
      | some conv =>
        refine ⟨fun hx => ?_, fun _ => ⟨cursor, cs ++ [conv], ?_, hcur, ?_, ?_, ?_⟩⟩
        · simp [hf] at hx
        · simp [hcol]
        · simp [hlen]
        · exact h2.1
        · intro c hc2
          rcases List.mem_append.mp hc2 with h3 | h3
          · exact hall c h3
          · rw [List.mem_singleton] at h3
            rw [h3]
            exact convert_keeps_color line ov conv hc h2.2
    · rw [if_neg h2]
      exact h

theorem read_loop_inv (ov : ColorOverrides) (lines : List CStr) :
    ∀ st : ReadState, ReadInv st → ReadInv (read_loop ov lines st) := by
  induction lines with
  | nil => intro st h; exact h
  | cons raw rest ih =>
    intro st h
    unfold read_loop
    simp only
    split
    · exact read_line_inv ov _ st h
    · exact ih _ (read_line_inv ov _ st h)

/-- Once a cursor line has been found the flag stays set through one line. -/
theorem read_line_found_mono (ov : ColorOverrides) (line : CStr) (st : ReadState)
    (h : st.found_cursor_color = true) : (read_line ov line st).found_cursor_color = true := by
  unfold read_line
  simp only [h, Bool.not_true, Bool.false_and, Bool.false_eq_true, if_false, Bool.true_and]
  split
  · split
    · rfl
    · exact h
  · exact h

/-- Once a cursor line has been found the flag stays set to the end of the
scan. -/
theorem read_loop_found_mono (ov : ColorOverrides) (lines : List CStr) :
    ∀ st : ReadState, st.found_cursor_color = true →
      (read_loop ov lines st).found_cursor_color = true := by
  induction lines with
  | nil => intro st h; exact h
  | cons raw rest ih =>
    intro st h
    have h1 := read_line_found_mono ov (chomp raw) st h
    rw [read_loop]
    split
    · exact h1
    · exact ih _ h1

/-- The scan finds a cursor line exactly when some line of the input passes
the `CURSORCOLOR=` test and decodes. -/
theorem read_loop_found_iff (ov : ColorOverrides) (lines : List CStr) :
    ∀ st : ReadState, st.found_cursor_color = false →
      ((read_loop ov lines st).found_cursor_color = true ↔
        ∃ l ∈ lines, line_starts_with (chomp l) CURSORCOLOR_EQ = true ∧
          (convert_color_line (chomp l) ov).isSome = true) := by
  induction lines with
  | nil =>
    intro st h
    simp [read_loop, h]
  | cons raw rest ih =>
    intro st h
    by_cases hm : line_starts_with (chomp raw) CURSORCOLOR_EQ = true
    · cases hc : convert_color_line (chomp raw) ov with
      | none =>
        have h1 : read_line ov (chomp raw) st = st := by
          unfold read_line
          simp [h, hm, hc]
        rw [read_loop]
        simp only [h1, h, Bool.false_and, Bool.false_eq_true, if_false]
        rw [ih st h]
        constructor
        · rintro ⟨l, hl, h2⟩
          exact ⟨l, List.mem_cons_of_mem _ hl, h2⟩
        · rintro ⟨l, hl, h2, h3⟩
          rcases List.mem_cons.mp hl with e | e
          · rw [e, hc] at h3
            exact absurd h3 (by simp)
          · exact ⟨l, e, h2, h3⟩
      | some x =>
        have h1 : (read_line ov (chomp raw) st).found_cursor_color = true := by
          unfold read_line
          simp [h, hm, hc]
        have h2 : (read_loop ov (raw :: rest) st).found_cursor_color = true := by
          rw [read_loop]
          split
          · exact h1
          · exact read_loop_found_mono ov rest _ h1
        simp only [h2, true_iff]
        exact ⟨raw, List.mem_cons_self _ _, hm, by rw [hc]; rfl⟩
    · have hmf : line_starts_with (chomp raw) CURSORCOLOR_EQ = false := by simpa using hm
      have h1 : read_line ov (chomp raw) st = st := by
        unfold read_line
        simp [h, hmf]
      rw [read_loop]
      simp only [h1, h, Bool.false_and, Bool.false_eq_true, if_false]
      rw [ih st h]
      constructor
      · rintro ⟨l, hl, h2⟩
        exact ⟨l, List.mem_cons_of_mem _ hl, h2⟩
      · rintro ⟨l, hl, h2, h3⟩
        rcases List.mem_cons.mp hl with e | e
        · rw [e, hmf] at h2
          exact absurd h2 (by simp)
        · exact ⟨l, e, h2, h3⟩

/-- C8 (the code, with the failing input): when the scan finds a cursor line
the document built by `read_theme_file` has exactly 17 lines, one that passes
the `CURSORCOLOR=` test followed by 16 that pass the `COLOR=` test; when the
scan finds none, as on an empty input, the source runs the block that sizes
the default cursor entry from the unwritten buffer, and there is no document.
The scan finds a cursor line exactly when some line of the input passes the
`CURSORCOLOR=` test and decodes. -/
theorem C8_document_shape (lines : List CStr) (ov : ColorOverrides) :
    ((read_loop ov lines
        { found_cursor_color := false, color_count := 0, colors := [] }).found_cursor_color
        = true →
      ∃ cursor colors, read_theme_file (some lines) ov = some (cursor :: colors) ∧
        (cursor :: colors).length = 17 ∧
        line_starts_with cursor CURSORCOLOR_EQ = true ∧
        colors.length = 16 ∧ ∀ c ∈ colors, line_starts_with c COLOR_EQ = true) ∧
    ((read_loop ov lines
        { found_cursor_color := false, color_count := 0, colors := [] }).found_cursor_color
        = false →
      read_theme_file (some lines) ov = none) ∧
    ((read_loop ov lines
        { found_cursor_color := false, color_count := 0, colors := [] }).found_cursor_color
        = true ↔
      ∃ l ∈ lines, line_starts_with (chomp l) CURSORCOLOR_EQ = true ∧
        (convert_color_line (chomp l) ov).isSome = true) ∧
    read_theme_file (some []) ov = none := by
  have hinit : ReadInv { found_cursor_color := false, color_count := 0, colors := [] } :=
    ⟨fun _ => ⟨rfl, rfl⟩, fun h => absurd h (by simp)⟩
  have hinv := read_loop_inv ov lines _ hinit
  refine ⟨?_, ?_, read_loop_found_iff ov lines _ rfl, rfl⟩
  · intro hf
    simp only [read_theme_file, read_theme_lines, hf, if_true, fill_colors]
    obtain ⟨cursor, cs, hcol, hcur, hlen, hle, hall⟩ := hinv.2 hf
    have hl2 : (cs ++ List.replicate (REQUIRED_COLOR_LINES - (read_loop ov lines
        { found_cursor_color := false, color_count := 0, colors := [] }).color_count)
        (default_line COLOR_EQ ov)).length = 16 := by
      simp only [List.length_append, List.length_replicate, hlen]
      simp only [REQUIRED_COLOR_LINES] at hle ⊢
      omega
    refine ⟨cursor, cs ++ List.replicate (REQUIRED_COLOR_LINES - (read_loop ov lines
        { found_cursor_color := false, color_count := 0, colors := [] }).color_count)
        (default_line COLOR_EQ ov), ?_, ?_, hcur, hl2, ?_⟩
    · simp [hcol]
    · simp only [List.length_cons, hl2]
    · intro c hc
      rcases List.mem_append.mp hc with h3 | h3
      · exact hall c h3
      · rw [(List.mem_replicate.mp h3).2]
        exact default_color_is_color_line ov
  · intro hf
    simp only [read_theme_file, read_theme_lines, hf, Bool.false_eq_true, if_false]

set_option maxRecDepth 100000 in
/-- Witness of C8: on a cursor line followed by one color line the scan finds
the cursor and the document has 17 lines; on three color lines alone it finds
none. -/
theorem C8_document_shape_witness :
    (read_loop no_overrides [cstr ("CURSORCOLOR=1,2,3\n"), cstr ("COLOR=4,5,6\n")]
        { found_cursor_color := false, color_count := 0, colors := [] }).found_cursor_color
      = true ∧
    (∃ cursor colors,
      read_theme_file (some [cstr ("CURSORCOLOR=1,2,3\n"), cstr ("COLOR=4,5,6\n")]) no_overrides
        = some (cursor :: colors) ∧
      (cursor :: colors).length = 17 ∧
      line_starts_with cursor CURSORCOLOR_EQ = true ∧
      colors.length = 16 ∧ ∀ c ∈ colors, line_starts_with c COLOR_EQ = true) ∧
    (read_loop no_overrides
        [cstr ("COLOR=1,2,3\n"), cstr ("COLOR=4,5,6\n"), cstr ("COLOR=7,8,9\n")]
        { found_cursor_color := false, color_count := 0, colors := [] }).found_cursor_color
      = false ∧
    read_theme_file
        (some [cstr ("COLOR=1,2,3\n"), cstr ("COLOR=4,5,6\n"), cstr ("COLOR=7,8,9\n")])
        no_overrides = none :=
  ⟨by decide,
    (C8_document_shape [cstr ("CURSORCOLOR=1,2,3\n"), cstr ("COLOR=4,5,6\n")] no_overrides).1
      (by decide),
    by decide,
    (C8_document_shape [cstr ("COLOR=1,2,3\n"), cstr ("COLOR=4,5,6\n"), cstr ("COLOR=7,8,9\n")]
      no_overrides).2.1 (by decide)⟩

/-- The chomped line is the line without its last one or two bytes. -/
theorem chomp_prefix (l : CStr) : ∃ s, l = chomp l ++ s := by
  have hd : ∀ x : CStr, ∃ s, x = x.dropLast ++ s := by
    intro x
    obtain ⟨t, ht⟩ := List.dropLast_prefix x
    exact ⟨t, ht.symm⟩
  unfold chomp
  split
  · split
    · split
      · split
        · obtain ⟨s1, h1⟩ := hd l
          obtain ⟨s2, h2⟩ := hd l.dropLast
          exact ⟨s2 ++ s1, by rw [← List.append_assoc, ← h2, ← h1]⟩
        · exact hd l
      · exact hd l
    · exact ⟨[], by simp⟩
  · exact ⟨[], by simp⟩

/-- A line that fails the `CURSORCOLOR=` test still fails it once chomped. -/
theorem chomp_not_cursor (l : CStr) (h : line_starts_with l CURSORCOLOR_EQ = false) :
    line_starts_with (chomp l) CURSORCOLOR_EQ = false := by
  by_contra hc
  obtain ⟨s, hs⟩ := chomp_prefix l
  have := line_starts_with_append (chomp l) s CURSORCOLOR_EQ (by decide) (by decide) (by decide)
    (by simpa using hc)
  rw [← hs, h] at this
  exact absurd this (by decide)

/-- Without a `CURSORCOLOR=` line the read loop collects nothing. -/
theorem read_loop_no_cursor (ov : ColorOverrides) (lines : List CStr)
    (h : ∀ l ∈ lines, line_starts_with l CURSORCOLOR_EQ = false) :
    read_loop ov lines { found_cursor_color := false, color_count := 0, colors := [] }
      = { found_cursor_color := false, color_count := 0, colors := [] } := by
  induction lines with
  | nil => rfl
  | cons raw rest ih =>
    have h1 := chomp_not_cursor raw (h raw (List.mem_cons_self _ _))
    unfold read_loop
    simp only [read_line, h1, Bool.not_false, Bool.and_false, Bool.false_and, Bool.false_eq_true,
      if_false]
    exact ih (fun l hl => h l (List.mem_cons_of_mem _ hl))

set_option maxRecDepth 100000 in
/-- C9 (as stated, refuted): three `COLOR=` lines, none a `CURSORCOLOR=` line,
each of which `convert_color_line` decodes; with no override the scan of
`read_theme_file` ends as it started, with no cursor found, `color_count` 0
and an empty list: the three lines are not collected, so no document can hold
their records. -/
theorem C9_counterexample :
    (∀ l ∈ [cstr ("COLOR=1,2,3\n"), cstr ("COLOR=4,5,6\n"), cstr ("COLOR=7,8,9\n")],
      line_starts_with l CURSORCOLOR_EQ = false ∧ line_starts_with l COLOR_EQ = true) ∧
    [cstr ("COLOR=1,2,3\n"), cstr ("COLOR=4,5,6\n"), cstr ("COLOR=7,8,9\n")].map
        (fun l => convert_color_line (chomp l) no_overrides)
      = [some (cstr ("COLOR=NOLOAD,NOANSI,0x0101,0x0202,0x0303")),
         some (cstr ("COLOR=NOLOAD,NOANSI,0x0404,0x0505,0x0606")),
         some (cstr ("COLOR=NOLOAD,NOANSI,0x0707,0x0808,0x0909"))] ∧
    read_loop no_overrides
        [cstr ("COLOR=1,2,3\n"), cstr ("COLOR=4,5,6\n"), cstr ("COLOR=7,8,9\n")]
        { found_cursor_color := false, color_count := 0, colors := [] }
      = { found_cursor_color := false, color_count := 0, colors := [] } := by
  decide

/-- C9 (amended): for every input with no line passing the `CURSORCOLOR=`
test, whatever `COLOR=` lines it has, and every override policy, the scan of
`read_theme_file` collects nothing: it ends with no cursor found,
`color_count` 0 and an empty list, as `COLOR=` lines are collected only after
a cursor line has been found. -/
theorem C9_no_cursor_nothing_collected (lines : List CStr) (ov : ColorOverrides)
    (h : ∀ l ∈ lines, line_starts_with l CURSORCOLOR_EQ = false) :
    (read_loop ov lines
        { found_cursor_color := false, color_count := 0, colors := [] }).found_cursor_color
      = false ∧
    (read_loop ov lines
        { found_cursor_color := false, color_count := 0, colors := [] }).color_count = 0 ∧
    (read_loop ov lines
        { found_cursor_color := false, color_count := 0, colors := [] }).colors = [] := by
  rw [read_loop_no_cursor ov lines h]
  exact ⟨rfl, rfl, rfl⟩

set_option maxRecDepth 100000 in
/-- Witness of C9 (amended) on three `COLOR=` lines. -/
theorem C9_no_cursor_nothing_collected_witness :
    (∀ l ∈ [cstr ("COLOR=1,2,3\n"), cstr ("COLOR=4,5,6\n"), cstr ("COLOR=7,8,9\n")],
      line_starts_with l CURSORCOLOR_EQ = false) ∧
    (read_loop no_overrides
        [cstr ("COLOR=1,2,3\n"), cstr ("COLOR=4,5,6\n"), cstr ("COLOR=7,8,9\n")]
        { found_cursor_color := false, color_count := 0, colors := [] }).colors = [] :=
  ⟨by decide, (C9_no_cursor_nothing_collected _ no_overrides (by decide)).2.2⟩

/-- C10 (the code, with the failing input): for every override policy,
`generate_default_colors` yields the line
`CURSORCOLOR=<L>,<A>,0x0000,0x0000,0x0000` followed by 16 lines
`COLOR=<L>,<A>,0x0000,0x0000,0x0000`, with `<L>` the forced load token when
`override_load` is set and `NOLOAD` otherwise, `<A>` the forced ansi token when
`override_ansi` is set and `NOANSI` otherwise; on an empty input the scan of
`read_theme_file` finds no cursor line, the source runs the block that sizes
the default cursor entry from the unwritten buffer, and there is no document
to compare with. -/
theorem C10_defaults (ov : ColorOverrides) :
    generate_default_colors ov
      = (cstr ("CURSORCOLOR=")
          ++ (if ov.override_load = true then
                (if ov.use_load = true then cstr ("LOAD") else cstr ("NOLOAD"))
              else cstr ("NOLOAD"))
          ++ cstr (",")
          ++ (if ov.override_ansi = true then
                (if ov.use_ansi = true then cstr ("ANSI") else cstr ("NOANSI"))
              else cstr ("NOANSI"))
          ++ cstr (",0x0000,0x0000,0x0000"))
        :: List.replicate 16
            (cstr ("COLOR=")
              ++ (if ov.override_load = true then
                    (if ov.use_load = true then cstr ("LOAD") else cstr ("NOLOAD"))
                  else cstr ("NOLOAD"))
              ++ cstr (",")
              ++ (if ov.override_ansi = true then
                    (if ov.use_ansi = true then cstr ("ANSI") else cstr ("NOANSI"))
                  else cstr ("NOANSI"))
              ++ cstr (",0x0000,0x0000,0x0000")) ∧
    (read_loop ov []
        { found_cursor_color := false, color_count := 0, colors := [] }).found_cursor_color
      = false ∧
    read_theme_file (some []) ov = none := by
  obtain ⟨a, b, c, d⟩ := ov
  cases a <;> cases b <;> cases c <;> cases d <;> decide

/-! ## Canonical hexadecimal text -/

theorem hexdigit_range (d : Nat) (h : d < 16) :
    (48 ≤ hexdigit d ∧ hexdigit d ≤ 57) ∨ (97 ≤ hexdigit d ∧ hexdigit d ≤ 102) := by
  unfold hexdigit; split <;> omega

theorem hexval_hexdigit (d : Nat) (h : d < 16) : hexval (hexdigit d) = some d := by
  unfold hexdigit hexval
  split
  · rw [if_pos (by omega)]; congr 1; omega
  · rw [if_neg (by omega), if_pos (by omega)]; congr 1; omega

theorem isspace_hexdigit (d : Nat) (h : d < 16) : isspace (hexdigit d) = false := by
  have := hexdigit_range d h
  simp only [isspace, Bool.or_eq_false_iff, beq_eq_false_iff_ne, Bool.and_eq_false_iff,
    decide_eq_false_iff_not]
  omega

/-- The value `strtoul` reads from four digits printed by `%04x`. -/
theorem strtoul16_hex4 (x : Nat) (h : x < 65536) : strtoul16 (hex4 x) = x := by
  have r3 := hexdigit_range (x / 4096 % 16) (Nat.mod_lt _ (by decide))
  have r2 := hexdigit_range (x / 256 % 16) (Nat.mod_lt _ (by decide))
  have v3 := hexval_hexdigit (x / 4096 % 16) (Nat.mod_lt _ (by decide))
  have v2 := hexval_hexdigit (x / 256 % 16) (Nat.mod_lt _ (by decide))
  have v1 := hexval_hexdigit (x / 16 % 16) (Nat.mod_lt _ (by decide))
  have v0 := hexval_hexdigit (x % 16) (Nat.mod_lt _ (by decide))
  have s3 := isspace_hexdigit (x / 4096 % 16) (Nat.mod_lt _ (by decide))
  have hsg : read_sign (hex4 x) = (false, hex4 x) := by
    unfold read_sign hex4
    split
    · rename_i heq
      simp only [List.cons.injEq] at heq
      omega
    · rename_i heq
      simp only [List.cons.injEq] at heq
      omega
    · rfl
  have hbody : (match hex4 x with
      | 48 :: y :: t => if y = 120 ∨ y = 88 then t else hex4 x
      | _ => hex4 x) = hex4 x := by
    unfold hex4
    split
    · rename_i heq
      simp only [List.cons.injEq] at heq
      rw [if_neg (by omega)]
    · rfl
  have hdrop : (hex4 x).dropWhile isspace = hex4 x := by
    simp [hex4, List.dropWhile_cons, s3]
  unfold strtoul16
  simp only [hdrop, hsg, hbody]
  have hv : read_digits hexval 16 (hex4 x) 0 = x := by
    simp only [hex4, read_digits, v3, v2, v1, v0]
    omega
  rw [hv]
  simp only [Bool.false_eq_true, if_false]
  rw [if_neg (by omega)]

theorem byte_double_eq (v : Nat) (h : v ≤ 255) : byte_double v = 257 * v := by
  unfold byte_double
  rw [Nat.shiftLeft_eq, Nat.mul_comm v (2 ^ 8),
    ← Nat.mul_add_lt_is_or (show v < 2 ^ 8 by omega) v]
  omega

theorem clean_input_canonical (x : Nat) : clean_input (canonical_hex x) = canonical_hex x := by
  have s3 := isspace_hexdigit (x / 4096 % 16) (Nat.mod_lt _ (by decide))
  have s2 := isspace_hexdigit (x / 256 % 16) (Nat.mod_lt _ (by decide))
  have s1 := isspace_hexdigit (x / 16 % 16) (Nat.mod_lt _ (by decide))
  have s0 := isspace_hexdigit (x % 16) (Nat.mod_lt _ (by decide))
  have e : canonical_hex x = 48 :: 120 :: hex4 x := rfl
  have i0 : isspace 48 = false := by decide
  have i1 : isspace 120 = false := by decide
  rw [e]
  simp [clean_input, hex4, List.filter_cons, s3, s2, s1, s0, i0, i1]

/-- What `convert_to_16bit_rgb` returns on canonical text: values up to 0xFF
are taken for 8-bit values and doubled. -/
theorem convert_canonical (x : Nat) (h : x < 65536) :
    convert_to_16bit_rgb (canonical_hex x) = if 1 ≤ x ∧ x ≤ 255 then 257 * x else x := by
  unfold convert_to_16bit_rgb
  simp only [clean_input_canonical]
  have e : canonical_hex x = 48 :: 120 :: hex4 x := rfl
  have hs : starts_with (canonical_hex x) (cstr ("0x")) = true := by
    rw [e]
    simp [starts_with, strncmp_eq, str_to_upper, cstr, MAX_LINE_LENGTH, toupper]
  have hd : (canonical_hex x).drop 2 = hex4 x := rfl
  simp only [hs, Bool.true_or, if_true, hd, strtoul16_hex4 x h]
  by_cases h1 : x ≤ 255
  · rw [if_pos h1, byte_double_eq x h1]
    by_cases h0 : 1 ≤ x
    · rw [if_pos ⟨h0, h1⟩]
    · rw [if_neg (by omega)]; omega
  · rw [if_neg h1, if_neg (by omega)]
    have : x &&& 0xFFFF = x := Nat.and_pow_two_sub_one_of_lt_two_pow (n := 16) (by omega)
    rw [this]
    omega

set_option maxRecDepth 100000 in
/-- C20 (as stated, refuted): the canonical text of 0x0012 is `0x0012`, and
`convert_to_16bit_rgb` returns 0x1212 on it, not 0x0012. -/
theorem C20_counterexample :
    canonical_hex 0x0012 = cstr ("0x0012") ∧
    convert_to_16bit_rgb (canonical_hex 0x0012) = 0x1212 ∧
    convert_to_16bit_rgb (canonical_hex 0x0012) ≠ 0x0012 := by
  decide

/-- C20 (amended): for every 16-bit value `x`, `convert_to_16bit_rgb` applied
to the canonical text of `x` returns `x` when `x` is 0 or at least 0x0100, and
returns `257 * x` (the byte doubled) when `x` lies in 0x0001..0x00FF. -/
theorem C20_canonical_hex (x : Nat) (h : x < 65536) :
    (x = 0 ∨ 0x100 ≤ x → convert_to_16bit_rgb (canonical_hex x) = x) ∧
    (1 ≤ x ∧ x ≤ 0xFF → convert_to_16bit_rgb (canonical_hex x) = 257 * x) := by
  rw [convert_canonical x h]
  constructor
  · intro hx
    rw [if_neg (by omega)]
  · intro hx
    rw [if_pos hx]

/-- Witness of C20 (amended) at 0xABCD. -/
theorem C20_canonical_hex_witness :
    0xABCD < 65536 ∧ (0xABCD = 0 ∨ 0x100 ≤ 0xABCD) ∧
    convert_to_16bit_rgb (canonical_hex 0xABCD) = 0xABCD :=
  ⟨by decide, by decide, (C20_canonical_hex 0xABCD (by decide)).1 (by decide)⟩

/-! ## Conversion of lines given by their parts -/

theorem join_commas_cons (s a : CStr) (t : List CStr) :
    join_commas (s :: a :: t) = s ++ 44 :: join_commas (a :: t) := rfl

theorem comma_guard (s : CStr) (h : 44 ∉ s) : ∀ x ∈ s, (x != 44) = true := by
  intro x hx
  simp only [bne_iff_ne]
  intro he
  exact h (he ▸ hx)

/-- Cutting `s0,s1,...,sn` at its first `n` commas gives the segments back,
the last one holding what is left when there are more than `n` commas. -/
theorem split_commas_join (n : Nat) :
    ∀ (segs : List CStr), segs ≠ [] → (∀ s ∈ segs, 44 ∉ s) →
      split_commas n (join_commas segs)
        = if segs.length ≤ n + 1 then segs
          else segs.take n ++ [join_commas (segs.drop n)] := by
  induction n with
  | zero =>
    intro segs hne _
    cases segs with
    | nil => exact absurd rfl hne
    | cons s t =>
      cases t with
      | nil => simp [split_commas, join_commas]
      | cons a t => simp [split_commas]
  | succ n ih =>
    intro segs hne hc
    cases segs with
    | nil => exact absurd rfl hne
    | cons s t =>
      have hs : 44 ∉ s := hc s (List.mem_cons_self _ _)
      cases t with
      | nil => simp [split_commas, join_commas, hs]
      | cons a t =>
        have hmem : 44 ∈ join_commas (s :: a :: t) := by
          rw [join_commas_cons]; simp
        have htw : (join_commas (s :: a :: t)).takeWhile (fun c => c != 44) = s := by
          rw [join_commas_cons]
          exact takeWhile_append_stop _ s 44 _ (comma_guard s hs) (by simp)
        have hdw : ((join_commas (s :: a :: t)).dropWhile (fun c => c != 44)).drop 1
            = join_commas (a :: t) := by
          rw [join_commas_cons, dropWhile_append_stop _ s 44 _ (comma_guard s hs) (by simp)]
          rfl
        unfold split_commas
        rw [if_pos hmem, htw, hdw,
          ih (a :: t) (by simp) (fun x hx => hc x (List.mem_cons_of_mem _ hx))]
        by_cases hl : (a :: t).length ≤ n + 1
        · rw [if_pos hl, if_pos (by simpa using hl)]
        · rw [if_neg hl, if_neg (by simpa using hl)]
          simp

/-- The work line of a line `P=rest` that fits the line buffer. -/
theorem work_line_parts (P rest : CStr) (hP : 61 ∉ P)
    (hlen : (P ++ 61 :: rest).length ≤ MAX_LINE_LENGTH - 1) :
    61 ∈ (P ++ 61 :: rest).take (MAX_LINE_LENGTH - 1) ∧
    ((P ++ 61 :: rest).take (MAX_LINE_LENGTH - 1)).takeWhile (fun c => c != 61) = P ∧
    (((P ++ 61 :: rest).take (MAX_LINE_LENGTH - 1)).dropWhile (fun c => c != 61)).drop 1
      = rest := by
  have hg : ∀ x ∈ P, (x != 61) = true := by
    intro x hx
    simp only [bne_iff_ne]
    intro he
    exact hP (he ▸ hx)
  rw [List.take_of_length_le hlen]
  refine ⟨by simp, takeWhile_append_stop _ P 61 rest hg (by simp), ?_⟩
  rw [dropWhile_append_stop _ P 61 rest hg (by simp)]
  rfl

/-- The result of `color_line_parts` from `prefix_part` and the segments. -/
theorem color_line_parts_of (l : CStr) (ov : ColorOverrides) (P : CStr) (segs : List CStr)
    (h61 : 61 ∈ l.take (MAX_LINE_LENGTH - 1))
    (hP : (l.take (MAX_LINE_LENGTH - 1)).takeWhile (fun c => c != 61) = P)
    (hs : work_segments l = segs) :
    color_line_parts l ov =
      if segs.length - 1 < 2 then none
      else if segs.length - 1 = 2 then
        some (P ++ [61], apply_load ov (cstr ("NOLOAD")), apply_ansi ov (cstr ("NOANSI")),
          segs.getD 0 [], segs.getD 1 [], segs.getD 2 [])
      else if segs.length - 1 = 4 then
        some (P ++ [61], apply_load ov (segs.getD 0 []), apply_ansi ov (segs.getD 1 []),
          segs.getD 2 [], segs.getD 3 [], segs.getD 4 [])
      else if segs.length - 1 ≥ 4 then
        some (P ++ [61], apply_load ov (segs.getD 0 []), apply_ansi ov (segs.getD 1 []),
          segs.getD (segs.length - 1 - 2) [], segs.getD (segs.length - 1 - 2 + 1) [],
          segs.getD (segs.length - 1 - 2 + 2) [])
      else
        some (P ++ [61], cstr ("NOLOAD"), cstr ("NOANSI"),
          segs.getD (segs.length - 1 - 2) [], segs.getD (segs.length - 1 - 2 + 1) [],
          segs.getD (segs.length - 1 - 2 + 2) []) := by
  subst hP hs
  unfold color_line_parts work_segments
  simp only [h61, if_true]

/-- White space at the end of a channel text does not change its value. -/
theorem convert_strip_trailing (b : CStr) :
    convert_to_16bit_rgb (strip_trailing b) = convert_to_16bit_rgb b := by
  have hf : ∀ l : CStr, (l.dropWhile isspace).filter (fun c => !isspace c)
      = l.filter (fun c => !isspace c) := by
    intro l
    induction l with
    | nil => rfl
    | cons c t ih =>
      by_cases hc : isspace c = true
      · simp [List.dropWhile_cons, List.filter_cons, hc, ih]
      · simp [List.dropWhile_cons, hc]
  have hc : clean_input (strip_trailing b) = clean_input b := by
    unfold clean_input strip_trailing
    rw [List.filter_reverse, hf, List.filter_reverse, List.reverse_reverse]
  unfold convert_to_16bit_rgb
  rw [hc]

/-- The parts extracted from a line `P=s0,s1,...,sn` that fits the line
buffer: the segments seen are `s0 .. sn`, or with more than 10 commas
`s0 .. s9` and the rest of the line. -/
theorem work_segments_joined (P : CStr) (segs : List CStr) (hP : 61 ∉ P) (hne : segs ≠ [])
    (hc : ∀ s ∈ segs, 44 ∉ s)
    (hlen : (P ++ 61 :: join_commas segs).length ≤ MAX_LINE_LENGTH - 1) :
    61 ∈ (P ++ 61 :: join_commas segs).take (MAX_LINE_LENGTH - 1) ∧
    ((P ++ 61 :: join_commas segs).take (MAX_LINE_LENGTH - 1)).takeWhile (fun c => c != 61) = P ∧
    work_segments (P ++ 61 :: join_commas segs)
      = if segs.length ≤ 11 then segs else segs.take 10 ++ [join_commas (segs.drop 10)] := by
  obtain ⟨h1, h2, h3⟩ := work_line_parts P (join_commas segs) hP hlen
  refine ⟨h1, h2, ?_⟩
  unfold work_segments
  rw [h3, split_commas_join 10 segs hne hc]

/-- Conversion of a line from the parts `color_line_parts` extracts. -/
theorem convert_of_parts (l : CStr) (ov : ColorOverrides) (pfx_part load ansi r g b : CStr)
    (h : color_line_parts l ov = some (pfx_part, load, ansi, r, g, b)) :
    convert_color_line l ov = some (format_color_line pfx_part load ansi
      (convert_to_16bit_rgb r) (convert_to_16bit_rgb g) (convert_to_16bit_rgb b)) := by
  unfold convert_color_line
  rw [h]
  simp only [convert_strip_trailing]

set_option maxRecDepth 100000 in
/-- C14 (as stated, refuted): the line made of 510 spaces followed by
`COLOR=10,20,30` has the form `P=a,b,c` with exactly 2 commas after its first
equals sign, and `convert_color_line` fails on it: the equals sign lies beyond
the 511 bytes copied into `work_line`. -/
theorem C14_counterexample :
    61 ∉ List.replicate 510 32 ++ cstr ("COLOR") ∧
    44 ∉ cstr ("10") ∧ 44 ∉ cstr ("20") ∧ 44 ∉ cstr ("30") ∧
    convert_color_line
        ((List.replicate 510 32 ++ cstr ("COLOR"))
          ++ 61 :: (cstr ("10") ++ 44 :: (cstr ("20") ++ 44 :: cstr ("30"))))
        no_overrides = none := by
  decide

/-- C14 (amended): for every line `P=a,b,c` (no equals sign in `P`, no comma in
`a`, `b`, `c`) of at most 511 bytes, `convert_color_line` yields the prefix `P=`,
the load token forced by the policy if `override_load` is set and `NOLOAD`
otherwise, the ansi token forced by the policy if `override_ansi` is set and
`NOANSI` otherwise, and the channels `convert_to_16bit_rgb` of `a`, `b`, `c`. -/
theorem C14_two_commas (P a b c : CStr) (ov : ColorOverrides)
    (hP : 61 ∉ P) (ha : 44 ∉ a) (hb : 44 ∉ b) (hc : 44 ∉ c)
    (hlen : (P ++ 61 :: (a ++ 44 :: (b ++ 44 :: c))).length ≤ MAX_LINE_LENGTH - 1) :
    convert_color_line (P ++ 61 :: (a ++ 44 :: (b ++ 44 :: c))) ov
      = some (format_color_line (P ++ [61])
          (if ov.override_load = true then
            (if ov.use_load = true then cstr ("LOAD") else cstr ("NOLOAD"))
           else cstr ("NOLOAD"))
          (if ov.override_ansi = true then
            (if ov.use_ansi = true then cstr ("ANSI") else cstr ("NOANSI"))
           else cstr ("NOANSI"))
          (convert_to_16bit_rgb a) (convert_to_16bit_rgb b) (convert_to_16bit_rgb c)) := by
  have hj : a ++ 44 :: (b ++ 44 :: c) = join_commas [a, b, c] := rfl
  rw [hj] at hlen ⊢
  obtain ⟨h1, h2, h3⟩ := work_segments_joined P [a, b, c] hP (by simp)
    (by simp [ha, hb, hc]) hlen
  have hp := color_line_parts_of _ ov P _ h1 h2 h3
  simp only [List.length_cons, List.length_nil, Nat.reduceAdd, Nat.reduceLeDiff, if_true,
    Nat.reduceSub, Nat.lt_irrefl, if_false, List.getD_cons_zero, List.getD_cons_succ] at hp
  rw [convert_of_parts _ ov _ _ _ _ _ _ hp]
  rfl

set_option maxRecDepth 100000 in
/-- Witness of C14 (amended): `COLOR=10,20,30` with no override. -/
theorem C14_two_commas_witness :
    61 ∉ cstr ("COLOR") ∧ 44 ∉ cstr ("10") ∧ 44 ∉ cstr ("20") ∧ 44 ∉ cstr ("30") ∧
    (cstr ("COLOR=10,20,30")).length ≤ MAX_LINE_LENGTH - 1 ∧
    convert_color_line (cstr ("COLOR=10,20,30")) no_overrides
      = some (format_color_line (cstr ("COLOR=")) (cstr ("NOLOAD")) (cstr ("NOANSI"))
          (convert_to_16bit_rgb (cstr ("10"))) (convert_to_16bit_rgb (cstr ("20")))
          (convert_to_16bit_rgb (cstr ("30")))) :=
  ⟨by decide, by decide, by decide, by decide, by decide,
    C14_two_commas (cstr ("COLOR")) (cstr ("10")) (cstr ("20")) (cstr ("30")) no_overrides
      (by decide) (by decide) (by decide) (by decide) (by decide)⟩

/-- Conversion of a line `P=l,a,r,g,b` that fits the line buffer. -/
theorem convert_four_commas (P l a r g b : CStr) (ov : ColorOverrides)
    (hP : 61 ∉ P) (hc : ∀ s ∈ [l, a, r, g, b], 44 ∉ s)
    (hlen : (P ++ 61 :: join_commas [l, a, r, g, b]).length ≤ MAX_LINE_LENGTH - 1) :
    convert_color_line (P ++ 61 :: join_commas [l, a, r, g, b]) ov
      = some (format_color_line (P ++ [61]) (apply_load ov l) (apply_ansi ov a)
          (convert_to_16bit_rgb r) (convert_to_16bit_rgb g) (convert_to_16bit_rgb b)) := by
  obtain ⟨h1, h2, h3⟩ := work_segments_joined P [l, a, r, g, b] hP (by simp) hc hlen
  have hp := color_line_parts_of _ ov P _ h1 h2 h3
  simp only [List.length_cons, List.length_nil, Nat.reduceAdd, Nat.reduceLeDiff, if_true,
    Nat.reduceSub, Nat.reduceLT, Nat.reduceEqDiff, if_false, List.getD_cons_zero,
    List.getD_cons_succ] at hp
  exact convert_of_parts _ ov _ _ _ _ _ _ hp

set_option maxRecDepth 100000 in
/-- C15 (as stated, refuted): the line made of 510 spaces followed by
`COLOR=LOAD,ANSI,0x10,0x20,0x30` has the form `P=l,a,r,g,b` with exactly 4
commas after its first equals sign, and `convert_color_line` fails on it: the
equals sign lies beyond the 511 bytes copied into `work_line`. -/
theorem C15_counterexample :
    61 ∉ List.replicate 510 32 ++ cstr ("COLOR") ∧
    (∀ s ∈ [cstr ("LOAD"), cstr ("ANSI"), cstr ("0x10"), cstr ("0x20"), cstr ("0x30")],
      44 ∉ s) ∧
    convert_color_line
        ((List.replicate 510 32 ++ cstr ("COLOR"))
          ++ 61 :: (cstr ("LOAD") ++ 44 :: (cstr ("ANSI") ++ 44 :: (cstr ("0x10")
            ++ 44 :: (cstr ("0x20") ++ 44 :: cstr ("0x30"))))))
        no_overrides = none := by
  decide

/-- C15 (amended): for every line `P=l,a,r,g,b` (no equals sign in `P`, no
comma in the five segments) of at most 511 bytes, `convert_color_line` yields
the load token `l` and the ansi token `a` of the line unless the corresponding
override is set (then the forced value), and the channels
`convert_to_16bit_rgb` of `r`, `g`, `b`. -/
theorem C15_four_commas (P l a r g b : CStr) (ov : ColorOverrides)
    (hP : 61 ∉ P) (hl : 44 ∉ l) (ha : 44 ∉ a) (hr : 44 ∉ r) (hg : 44 ∉ g) (hb : 44 ∉ b)
    (hlen : (P ++ 61 :: (l ++ 44 :: (a ++ 44 :: (r ++ 44 :: (g ++ 44 :: b))))).length
      ≤ MAX_LINE_LENGTH - 1) :
    convert_color_line (P ++ 61 :: (l ++ 44 :: (a ++ 44 :: (r ++ 44 :: (g ++ 44 :: b))))) ov
      = some (format_color_line (P ++ [61])
          (if ov.override_load = true then
            (if ov.use_load = true then cstr ("LOAD") else cstr ("NOLOAD"))
           else l)
          (if ov.override_ansi = true then
            (if ov.use_ansi = true then cstr ("ANSI") else cstr ("NOANSI"))
           else a)
          (convert_to_16bit_rgb r) (convert_to_16bit_rgb g) (convert_to_16bit_rgb b)) :=
  convert_four_commas P l a r g b ov hP (by simp [hl, ha, hr, hg, hb]) hlen

set_option maxRecDepth 100000 in
/-- Witness of C15 (amended): `COLOR=LOAD,ANSI,0x10,0x20,0x30` with no override gives
`COLOR=LOAD,ANSI,0x1010,0x2020,0x3030`. -/
theorem C15_four_commas_witness :
    61 ∉ cstr ("COLOR") ∧ 44 ∉ cstr ("LOAD") ∧ 44 ∉ cstr ("ANSI") ∧ 44 ∉ cstr ("0x10") ∧
    44 ∉ cstr ("0x20") ∧ 44 ∉ cstr ("0x30") ∧
    (cstr ("COLOR=LOAD,ANSI,0x10,0x20,0x30")).length ≤ MAX_LINE_LENGTH - 1 ∧
    convert_color_line (cstr ("COLOR=LOAD,ANSI,0x10,0x20,0x30")) no_overrides
      = some (format_color_line (cstr ("COLOR=")) (cstr ("LOAD")) (cstr ("ANSI"))
          (convert_to_16bit_rgb (cstr ("0x10"))) (convert_to_16bit_rgb (cstr ("0x20")))
          (convert_to_16bit_rgb (cstr ("0x30")))) ∧
    format_color_line (cstr ("COLOR=")) (cstr ("LOAD")) (cstr ("ANSI"))
          (convert_to_16bit_rgb (cstr ("0x10"))) (convert_to_16bit_rgb (cstr ("0x20")))
          (convert_to_16bit_rgb (cstr ("0x30")))
      = cstr ("COLOR=LOAD,ANSI,0x1010,0x2020,0x3030") :=
  ⟨by decide, by decide, by decide, by decide, by decide, by decide, by decide,
    C15_four_commas (cstr ("COLOR")) (cstr ("LOAD")) (cstr ("ANSI")) (cstr ("0x10"))
      (cstr ("0x20")) (cstr ("0x30")) no_overrides
      (by decide) (by decide) (by decide) (by decide) (by decide) (by decide) (by decide),
    by decide⟩

set_option maxRecDepth 100000 in
/-- C17 (the code at the failing input): with `LOAD` and `ANSI` both forced,
the line `COLOR=1,10,20,30` (3 commas) is converted with the default tokens
`NOLOAD` and `NOANSI`, while the same policy on a line with 2 commas gives the
forced tokens. -/
theorem C17_three_commas_not_forced :
    convert_color_line (cstr ("COLOR=1,10,20,30"))
        { override_load := true, use_load := true, override_ansi := true, use_ansi := true }
      = some (cstr ("COLOR=NOLOAD,NOANSI,0x0a0a,0x1414,0x1e1e")) ∧
    convert_color_line (cstr ("COLOR=10,20,30"))
        { override_load := true, use_load := true, override_ansi := true, use_ansi := true }
      = some (cstr ("COLOR=LOAD,ANSI,0x0a0a,0x1414,0x1e1e")) := by
  decide

set_option maxRecDepth 100000 in
/-- C16 (as stated, refuted): on a line with 12 commas the channels are taken
from the segments 9 and 10 and from the text after the 10th comma, not from
the last three segments `11`, `12`, `13`. -/
theorem C16_counterexample :
    convert_color_line (cstr ("COLOR=1,2,3,4,5,6,7,8,9,10,11,12,13")) no_overrides
      = some (cstr ("COLOR=1,2,0x0909,0x0a0a,0x0b0b")) ∧
    convert_color_line (cstr ("COLOR=1,2,3,4,5,6,7,8,9,10,11,12,13")) no_overrides
      ≠ some (format_color_line (cstr ("COLOR=")) (cstr ("1")) (cstr ("2"))
          (convert_to_16bit_rgb (cstr ("11"))) (convert_to_16bit_rgb (cstr ("12")))
          (convert_to_16bit_rgb (cstr ("13")))) := by
  decide

/-- C16 (amended): for every line `P=s0,...,sc` (no equals sign in `P`, no
comma in the segments) of at most 511 bytes: with `c = 3` the channels
are the last three segments and each flag is the default where its override
is not set; with `5 ≤ c ≤ 10` the channels are the last three segments and the
flags are `s0`, `s1` subject to override; with `c > 10` the flags are `s0`,
`s1` subject to override, red and green are `s8`, `s9`, and blue is read from
everything after the 10th comma. -/
theorem C16_other_counts (P : CStr) (segs : List CStr) (c : Nat) (ov : ColorOverrides)
    (hP : 61 ∉ P) (hc : ∀ s ∈ segs, 44 ∉ s) (hn : segs.length = c + 1)
    (hlen : (P ++ 61 :: join_commas segs).length ≤ MAX_LINE_LENGTH - 1) :
    (c = 3 → ∃ load ansi,
      convert_color_line (P ++ 61 :: join_commas segs) ov
        = some (format_color_line (P ++ [61]) load ansi
            (convert_to_16bit_rgb (segs.getD 1 [])) (convert_to_16bit_rgb (segs.getD 2 []))
            (convert_to_16bit_rgb (segs.getD 3 []))) ∧
      (ov.override_load = false → load = cstr ("NOLOAD")) ∧
      (ov.override_ansi = false → ansi = cstr ("NOANSI"))) ∧
    (5 ≤ c → c ≤ 10 →
      convert_color_line (P ++ 61 :: join_commas segs) ov
        = some (format_color_line (P ++ [61])
            (if ov.override_load = true then
              (if ov.use_load = true then cstr ("LOAD") else cstr ("NOLOAD"))
             else segs.getD 0 [])
            (if ov.override_ansi = true then
              (if ov.use_ansi = true then cstr ("ANSI") else cstr ("NOANSI"))
             else segs.getD 1 [])
            (convert_to_16bit_rgb (segs.getD (c - 2) []))
            (convert_to_16bit_rgb (segs.getD (c - 1) []))
            (convert_to_16bit_rgb (segs.getD c [])))) ∧
    (10 < c →
      convert_color_line (P ++ 61 :: join_commas segs) ov
        = some (format_color_line (P ++ [61])
            (if ov.override_load = true then
              (if ov.use_load = true then cstr ("LOAD") else cstr ("NOLOAD"))
             else segs.getD 0 [])
            (if ov.override_ansi = true then
              (if ov.use_ansi = true then cstr ("ANSI") else cstr ("NOANSI"))
             else segs.getD 1 [])
            (convert_to_16bit_rgb (segs.getD 8 []))
            (convert_to_16bit_rgb (segs.getD 9 []))
            (convert_to_16bit_rgb (join_commas (segs.drop 10))))) := by
  have hne : segs ≠ [] := by
    intro h; rw [h] at hn; simp at hn
  obtain ⟨h1, h2, h3⟩ := work_segments_joined P segs hP hne hc hlen
  refine ⟨?_, ?_, ?_⟩
  · intro h3c
    subst h3c
    rw [if_pos (by omega)] at h3
    have hp := color_line_parts_of _ ov P _ h1 h2 h3
    simp only [hn, Nat.reduceAdd, Nat.reduceSub, Nat.reduceLT, Nat.reduceEqDiff, if_false,
      ge_iff_le, Nat.reduceLeDiff] at hp
    exact ⟨_, _, convert_of_parts _ ov _ _ _ _ _ _ hp, fun _ => rfl, fun _ => rfl⟩
  · intro h5 h10
    rw [if_pos (by omega)] at h3
    have hp := color_line_parts_of _ ov P _ h1 h2 h3
    rw [hn, if_neg (by omega), if_neg (by omega), if_neg (by omega), if_pos (by omega)] at hp
    have e1 : c + 1 - 1 - 2 = c - 2 := by omega
    have e2 : c - 2 + 1 = c - 1 := by omega
    have e3 : c - 2 + 2 = c := by omega
    rw [e1, e2, e3] at hp
    exact convert_of_parts _ ov _ _ _ _ _ _ hp
  · intro h10
    rw [if_neg (by omega)] at h3
    have hp := color_line_parts_of _ ov P _ h1 h2 h3
    have hl : (segs.take 10 ++ [join_commas (segs.drop 10)]).length = 11 := by
      simp only [List.length_append, List.length_take, List.length_singleton]
      omega
    rw [hl, if_neg (by omega), if_neg (by omega), if_neg (by omega), if_pos (by omega)] at hp
    have g0 : (segs.take 10 ++ [join_commas (segs.drop 10)]).getD 0 [] = segs.getD 0 [] := by
      simp only [List.getD_eq_getElem?_getD]
      rw [List.getElem?_append_left (by simp; omega), List.getElem?_take_of_lt (by omega)]
    have g1 : (segs.take 10 ++ [join_commas (segs.drop 10)]).getD 1 [] = segs.getD 1 [] := by
      simp only [List.getD_eq_getElem?_getD]
      rw [List.getElem?_append_left (by simp; omega), List.getElem?_take_of_lt (by omega)]
    have g8 : (segs.take 10 ++ [join_commas (segs.drop 10)]).getD 8 [] = segs.getD 8 [] := by
      simp only [List.getD_eq_getElem?_getD]
      rw [List.getElem?_append_left (by simp; omega), List.getElem?_take_of_lt (by omega)]
    have g9 : (segs.take 10 ++ [join_commas (segs.drop 10)]).getD 9 [] = segs.getD 9 [] := by
      simp only [List.getD_eq_getElem?_getD]
      rw [List.getElem?_append_left (by simp; omega), List.getElem?_take_of_lt (by omega)]
    have g10 : (segs.take 10 ++ [join_commas (segs.drop 10)]).getD 10 []
        = join_commas (segs.drop 10) := by
      simp only [List.getD_eq_getElem?_getD]
      rw [List.getElem?_append_right (by simp)]
      have : 10 - (segs.take 10).length = 0 := by
        simp only [List.length_take]; omega
      rw [this]
      rfl
    simp only [Nat.reduceSub, Nat.reduceAdd, g0, g1, g8, g9, g10] at hp
    exact convert_of_parts _ ov _ _ _ _ _ _ hp

set_option maxRecDepth 100000 in
/-- Witness of C16 (amended) on a line with 5 commas. -/
theorem C16_other_counts_witness :
    61 ∉ cstr ("COLOR") ∧
    (∀ s ∈ [cstr ("LOAD"), cstr ("ANSI"), cstr ("7"), cstr ("10"), cstr ("20"), cstr ("30")],
      44 ∉ s) ∧
    (cstr ("COLOR=LOAD,ANSI,7,10,20,30")).length ≤ MAX_LINE_LENGTH - 1 ∧
    convert_color_line (cstr ("COLOR=LOAD,ANSI,7,10,20,30")) no_overrides
      = some (format_color_line (cstr ("COLOR=")) (cstr ("LOAD")) (cstr ("ANSI"))
          (convert_to_16bit_rgb (cstr ("10"))) (convert_to_16bit_rgb (cstr ("20")))
          (convert_to_16bit_rgb (cstr ("30")))) :=
  ⟨by decide, by decide, by decide,
    (C16_other_counts (cstr ("COLOR"))
      [cstr ("LOAD"), cstr ("ANSI"), cstr ("7"), cstr ("10"), cstr ("20"), cstr ("30")] 5
      no_overrides (by decide) (by decide) (by decide) (by decide)).2.1
      (by decide) (by decide)⟩

theorem canonical_hex_no_comma (x : Nat) : 44 ∉ canonical_hex x := by
  have r3 := hexdigit_range (x / 4096 % 16) (Nat.mod_lt _ (by decide))
  have r2 := hexdigit_range (x / 256 % 16) (Nat.mod_lt _ (by decide))
  have r1 := hexdigit_range (x / 16 % 16) (Nat.mod_lt _ (by decide))
  have r0 := hexdigit_range (x % 16) (Nat.mod_lt _ (by decide))
  have e : canonical_hex x = 48 :: 120 :: hex4 x := rfl
  rw [e]
  simp only [hex4, List.mem_cons, List.mem_singleton, List.not_mem_nil, or_false, not_or]
  omega

/-- Conversion of a canonical record line with no override: the tokens come
back, each channel comes back as `convert_to_16bit_rgb` reads its text. -/
theorem convert_record_line (cursor load ansi : Bool) (r g b : Nat)
    (hr : r < 65536) (hg : g < 65536) (hb : b < 65536) :
    convert_color_line
        (format_color_line (if cursor = true then CURSORCOLOR_EQ else COLOR_EQ)
          (if load = true then cstr ("LOAD") else cstr ("NOLOAD"))
          (if ansi = true then cstr ("ANSI") else cstr ("NOANSI")) r g b) no_overrides
      = some (format_color_line (if cursor = true then CURSORCOLOR_EQ else COLOR_EQ)
          (if load = true then cstr ("LOAD") else cstr ("NOLOAD"))
          (if ansi = true then cstr ("ANSI") else cstr ("NOANSI"))
          (if 1 ≤ r ∧ r ≤ 255 then 257 * r else r)
          (if 1 ≤ g ∧ g ≤ 255 then 257 * g else g)
          (if 1 ≤ b ∧ b ≤ 255 then 257 * b else b)) := by
  have key : ∀ (P L A : CStr), 61 ∉ P → 44 ∉ L → 44 ∉ A → P.length ≤ 20 → L.length ≤ 10 →
      A.length ≤ 10 →
      convert_color_line (format_color_line (P ++ [61]) L A r g b) no_overrides
        = some (format_color_line (P ++ [61]) L A
            (if 1 ≤ r ∧ r ≤ 255 then 257 * r else r)
            (if 1 ≤ g ∧ g ≤ 255 then 257 * g else g)
            (if 1 ≤ b ∧ b ≤ 255 then 257 * b else b)) := by
    intro P L A hP hL hA hPl hLl hAl
    have e : format_color_line (P ++ [61]) L A r g b
        = P ++ 61 :: join_commas [L, A, canonical_hex r, canonical_hex g, canonical_hex b] := by
      simp [format_color_line, join_commas, canonical_hex, cstr]
    rw [e, convert_four_commas P L A _ _ _ no_overrides hP
      (by simp [hL, hA, canonical_hex_no_comma])
      (by simp [join_commas, canonical_hex, hex4, cstr, MAX_LINE_LENGTH]; omega),
      convert_canonical r hr, convert_canonical g hg, convert_canonical b hb]
    rfl
  cases cursor <;> cases load <;> cases ansi
  · exact key (cstr ("COLOR")) (cstr ("NOLOAD")) (cstr ("NOANSI")) (by decide) (by decide)
      (by decide) (by decide) (by decide) (by decide)
  · exact key (cstr ("COLOR")) (cstr ("NOLOAD")) (cstr ("ANSI")) (by decide) (by decide)
      (by decide) (by decide) (by decide) (by decide)
  · exact key (cstr ("COLOR")) (cstr ("LOAD")) (cstr ("NOANSI")) (by decide) (by decide)
      (by decide) (by decide) (by decide) (by decide)
  · exact key (cstr ("COLOR")) (cstr ("LOAD")) (cstr ("ANSI")) (by decide) (by decide)
      (by decide) (by decide) (by decide) (by decide)
  · exact key (cstr ("CURSORCOLOR")) (cstr ("NOLOAD")) (cstr ("NOANSI")) (by decide) (by decide)
      (by decide) (by decide) (by decide) (by decide)
  · exact key (cstr ("CURSORCOLOR")) (cstr ("NOLOAD")) (cstr ("ANSI")) (by decide) (by decide)
      (by decide) (by decide) (by decide) (by decide)
  · exact key (cstr ("CURSORCOLOR")) (cstr ("LOAD")) (cstr ("NOANSI")) (by decide) (by decide)
      (by decide) (by decide) (by decide) (by decide)
  · exact key (cstr ("CURSORCOLOR")) (cstr ("LOAD")) (cstr ("ANSI")) (by decide) (by decide)
      (by decide) (by decide) (by decide) (by decide)

set_option maxRecDepth 100000 in
/-- C19 (as stated, refuted): the canonical line of the record
(COLOR, NOLOAD, NOANSI, 0x0012, 0x0000, 0x0000) is converted, with no
override, to a line with red 0x1212, not to itself. -/
theorem C19_counterexample :
    format_color_line COLOR_EQ (cstr ("NOLOAD")) (cstr ("NOANSI")) 0x0012 0 0
      = cstr ("COLOR=NOLOAD,NOANSI,0x0012,0x0000,0x0000") ∧
    convert_color_line (cstr ("COLOR=NOLOAD,NOANSI,0x0012,0x0000,0x0000")) no_overrides
      = some (cstr ("COLOR=NOLOAD,NOANSI,0x1212,0x0000,0x0000")) ∧
    convert_color_line (cstr ("COLOR=NOLOAD,NOANSI,0x0012,0x0000,0x0000")) no_overrides
      ≠ some (cstr ("COLOR=NOLOAD,NOANSI,0x0012,0x0000,0x0000")) := by
  decide

/-- C19 (amended): for every record (kind CURSORCOLOR or COLOR, load flag,
ansi flag, three 16-bit intensities), converting its canonical line with no
override succeeds and keeps the kind and both flags; a channel that is 0 or at
least 0x0100 comes back unchanged and a channel `v` in 0x0001..0x00FF comes
back as `257 * v`; so the line comes back unchanged when every channel is 0
or at least 0x0100. -/
theorem C19_round_trip (cursor load ansi : Bool) (r g b : Nat)
    (hr : r < 65536) (hg : g < 65536) (hb : b < 65536) :
    convert_color_line
        (format_color_line (if cursor = true then CURSORCOLOR_EQ else COLOR_EQ)
          (if load = true then cstr ("LOAD") else cstr ("NOLOAD"))
          (if ansi = true then cstr ("ANSI") else cstr ("NOANSI")) r g b) no_overrides
      = some (format_color_line (if cursor = true then CURSORCOLOR_EQ else COLOR_EQ)
          (if load = true then cstr ("LOAD") else cstr ("NOLOAD"))
          (if ansi = true then cstr ("ANSI") else cstr ("NOANSI"))
          (if 1 ≤ r ∧ r ≤ 255 then 257 * r else r)
          (if 1 ≤ g ∧ g ≤ 255 then 257 * g else g)
          (if 1 ≤ b ∧ b ≤ 255 then 257 * b else b)) ∧
    ((r = 0 ∨ 0x100 ≤ r) → (g = 0 ∨ 0x100 ≤ g) → (b = 0 ∨ 0x100 ≤ b) →
      convert_color_line
          (format_color_line (if cursor = true then CURSORCOLOR_EQ else COLOR_EQ)
            (if load = true then cstr ("LOAD") else cstr ("NOLOAD"))
            (if ansi = true then cstr ("ANSI") else cstr ("NOANSI")) r g b) no_overrides
        = some (format_color_line (if cursor = true then CURSORCOLOR_EQ else COLOR_EQ)
            (if load = true then cstr ("LOAD") else cstr ("NOLOAD"))
            (if ansi = true then cstr ("ANSI") else cstr ("NOANSI")) r g b)) := by
  have h := convert_record_line cursor load ansi r g b hr hg hb
  refine ⟨h, ?_⟩
  intro h1 h2 h3
  have e1 : (if 1 ≤ r ∧ r ≤ 255 then 257 * r else r) = r := if_neg (by omega)
  have e2 : (if 1 ≤ g ∧ g ≤ 255 then 257 * g else g) = g := if_neg (by omega)
  have e3 : (if 1 ≤ b ∧ b ≤ 255 then 257 * b else b) = b := if_neg (by omega)
  rw [h, e1, e2, e3]

set_option maxRecDepth 100000 in
/-- Witness of C19 (amended) on the cursor record (LOAD, ANSI, 0x1111, 0x2222,
0x3333). -/
theorem C19_round_trip_witness :
    0x1111 < 65536 ∧ 0x2222 < 65536 ∧ 0x3333 < 65536 ∧
    format_color_line CURSORCOLOR_EQ (cstr ("LOAD")) (cstr ("ANSI")) 0x1111 0x2222 0x3333
      = sample_cursor ∧
    convert_color_line
        (format_color_line (if true = true then CURSORCOLOR_EQ else COLOR_EQ)
          (if true = true then cstr ("LOAD") else cstr ("NOLOAD"))
          (if true = true then cstr ("ANSI") else cstr ("NOANSI")) 0x1111 0x2222 0x3333)
        no_overrides
      = some (format_color_line (if true = true then CURSORCOLOR_EQ else COLOR_EQ)
          (if true = true then cstr ("LOAD") else cstr ("NOLOAD"))
          (if true = true then cstr ("ANSI") else cstr ("NOANSI")) 0x1111 0x2222 0x3333) :=
  ⟨by decide, by decide, by decide, by decide,
    (C19_round_trip true true true 0x1111 0x2222 0x3333 (by decide) (by decide) (by decide)).2
      (by decide) (by decide) (by decide)⟩

theorem count_comma_split (s : CStr) (h : 44 ∈ s) :
    s.count 44 = ((s.dropWhile (fun c => c != 44)).drop 1).count 44 + 1 := by
  induction s with
  | nil => exact absurd h (List.not_mem_nil _)
  | cons c t ih =>
    by_cases hc : c = 44
    · subst hc
      simp [List.dropWhile_cons]
    · have ht : 44 ∈ t := by
        rcases List.mem_cons.mp h with h1 | h1
        · exact absurd h1.symm hc
        · exact h1
      have hb : (c != 44) = true := by simpa using hc
      rw [List.dropWhile_cons, if_pos hb, List.count_cons, ih ht]
      have : (c == 44) = false := by simpa using hc
      simp [this]

/-- The number of commas recorded by the scan is the number of commas of the
text, at most `n`. -/
theorem split_commas_length (n : Nat) :
    ∀ s : CStr, (split_commas n s).length = min n (s.count 44) + 1 := by
  induction n with
  | zero => intro s; simp [split_commas]
  | succ n ih =>
    intro s
    unfold split_commas
    by_cases h : 44 ∈ s
    · rw [if_pos h, List.length_cons, ih, count_comma_split s h]
      omega
    · rw [if_neg h, List.count_eq_zero_of_not_mem h]
      simp

theorem convert_none_iff_parts (l : CStr) (ov : ColorOverrides) :
    convert_color_line l ov = none ↔ color_line_parts l ov = none := by
  unfold convert_color_line
  cases hp : color_line_parts l ov with
  | none => simp
  | some p =>
    obtain ⟨a, b, c, d, e, f⟩ := p
    simp

theorem color_line_parts_none_iff (l : CStr) (ov : ColorOverrides) :
    color_line_parts l ov = none ↔
      (61 ∉ l.take (MAX_LINE_LENGTH - 1) ∨ (work_segments l).length - 1 < 2) := by
  by_cases h61 : 61 ∈ l.take (MAX_LINE_LENGTH - 1)
  · rw [color_line_parts_of l ov _ _ h61 rfl rfl]
    by_cases h2 : (work_segments l).length - 1 < 2
    · simp [h2]
    · simp only [h2, if_false, h61, not_true_eq_false, false_or, iff_false]
      split
      · simp
      · split
        · simp
        · split <;> simp
  · unfold color_line_parts
    simp [h61]

/-- On any C string `convert_color_line` fails exactly when the first 511
bytes (the part copied into `work_line`) hold no equals sign or fewer than 2
commas after their first equals sign. -/
theorem convert_fails_iff (l : CStr) (ov : ColorOverrides) :
    convert_color_line l ov = none ↔
      (61 ∉ l.take (MAX_LINE_LENGTH - 1) ∨
        (((l.take (MAX_LINE_LENGTH - 1)).dropWhile (fun c => c != 61)).drop 1).count 44
          < 2) := by
  rw [convert_none_iff_parts, color_line_parts_none_iff]
  unfold work_segments
  rw [split_commas_length]
  constructor
  · rintro (h | h)
    · exact Or.inl h
    · right; omega
  · rintro (h | h)
    · exact Or.inl h
    · right; omega

set_option maxRecDepth 100000 in
/-- C13 (as stated, refuted): a line of 511 bytes `x` followed by `=1,2,3` has
an equals sign and two commas after it, and `convert_color_line` fails on it. -/
theorem C13_counterexample :
    61 ∈ List.replicate 511 120 ++ cstr ("=1,2,3") ∧
    (((List.replicate 511 120 ++ cstr ("=1,2,3")).dropWhile (fun c => c != 61)).drop 1).count 44
      = 2 ∧
    convert_color_line (List.replicate 511 120 ++ cstr ("=1,2,3")) no_overrides = none := by
  decide

/-- C13 (amended): `convert_color_line` fails if and only if the first 511
bytes of the line (the part copied into `work_line`) hold no equals sign or
fewer than 2 commas after their first equals sign; so for every line of at
most 511 bytes it fails if and only if the line has no equals sign or has
fewer than 2 commas after its first equals sign, and in every other case it
succeeds and produces an output line. -/
theorem C13_failure_cases (l : CStr) (ov : ColorOverrides) :
    (convert_color_line l ov = none ↔
      (61 ∉ l.take (MAX_LINE_LENGTH - 1) ∨
        (((l.take (MAX_LINE_LENGTH - 1)).dropWhile (fun c => c != 61)).drop 1).count 44 < 2)) ∧
    (l.length ≤ MAX_LINE_LENGTH - 1 →
      (convert_color_line l ov = none ↔
        (61 ∉ l ∨ ((l.dropWhile (fun c => c != 61)).drop 1).count 44 < 2)) ∧
      ((61 ∈ l ∧ 2 ≤ ((l.dropWhile (fun c => c != 61)).drop 1).count 44) →
        ∃ out, convert_color_line l ov = some out)) := by
  have main := convert_fails_iff l ov
  refine ⟨main, fun hlen => ?_⟩
  rw [List.take_of_length_le hlen] at main
  refine ⟨main, fun ⟨h1, h2⟩ => ?_⟩
  cases hc : convert_color_line l ov with
  | some out => exact ⟨out, rfl⟩
  | none =>
    rcases main.mp hc with h | h
    · exact absurd h1 h
    · omega

set_option maxRecDepth 100000 in
/-- Witness of C13 (amended): `COLOR=1,2` fails, `COLOR=1,2,3` succeeds. -/
theorem C13_failure_cases_witness :
    (cstr ("COLOR=1,2")).length ≤ MAX_LINE_LENGTH - 1 ∧
    (convert_color_line (cstr ("COLOR=1,2")) no_overrides = none ↔
      (61 ∉ cstr ("COLOR=1,2") ∨
        (((cstr ("COLOR=1,2")).dropWhile (fun c => c != 61)).drop 1).count 44 < 2)) ∧
    (cstr ("COLOR=1,2,3")).length ≤ MAX_LINE_LENGTH - 1 ∧
    (61 ∈ cstr ("COLOR=1,2,3") ∧
      2 ≤ (((cstr ("COLOR=1,2,3")).dropWhile (fun c => c != 61)).drop 1).count 44) ∧
    ∃ out, convert_color_line (cstr ("COLOR=1,2,3")) no_overrides = some out :=
  ⟨by decide, ((C13_failure_cases (cstr ("COLOR=1,2")) no_overrides).2 (by decide)).1,
    by decide, by decide,
    ((C13_failure_cases (cstr ("COLOR=1,2,3")) no_overrides).2 (by decide)).2 (by decide)⟩

set_option maxRecDepth 100000 in
/-- C18 (as stated, refuted): `COLOR=foo,bar,1,2,3` is converted with no
override to `COLOR=foo,bar,0x0101,0x0202,0x0303`, a line in which no equals
sign is followed by `LOAD,` or `NOLOAD,`. -/
theorem C18_counterexample :
    convert_color_line (cstr ("COLOR=foo,bar,1,2,3")) no_overrides
      = some (cstr ("COLOR=foo,bar,0x0101,0x0202,0x0303")) ∧
    ¬ (cstr ("=LOAD,") <:+: cstr ("COLOR=foo,bar,0x0101,0x0202,0x0303")) ∧
    ¬ (cstr ("=NOLOAD,") <:+: cstr ("COLOR=foo,bar,0x0101,0x0202,0x0303")) := by
  decide

/-- C18 (amended): every line `convert_color_line` produces has the form
`<prefix>=<load>,<ansi>,<R>,<G>,<B>`; `<load>` is `LOAD` or `NOLOAD` whenever
`override_load` is set or the line has fewer than 4 commas, and is the first
segment of the line copied as it is when `override_load` is not set and the
line has 4 commas or more; `<ansi>` likewise, with `ANSI`, `NOANSI`,
`override_ansi` and the second segment. -/
theorem C18_flag_tokens (l : CStr) (ov : ColorOverrides) (out : CStr)
    (h : convert_color_line l ov = some out) :
    ∃ load ansi r g b,
      out = format_color_line ((l.take (MAX_LINE_LENGTH - 1)).takeWhile (fun c => c != 61) ++ [61])
        load ansi r g b ∧
      ((ov.override_load = true ∨ (work_segments l).length - 1 < 4) →
        (load = cstr ("LOAD") ∨ load = cstr ("NOLOAD"))) ∧
      ((ov.override_load = false ∧ 4 ≤ (work_segments l).length - 1) →
        load = (work_segments l).getD 0 []) ∧
      ((ov.override_ansi = true ∨ (work_segments l).length - 1 < 4) →
        (ansi = cstr ("ANSI") ∨ ansi = cstr ("NOANSI"))) ∧
      ((ov.override_ansi = false ∧ 4 ≤ (work_segments l).length - 1) →
        ansi = (work_segments l).getD 1 []) := by
  have h61 : 61 ∈ l.take (MAX_LINE_LENGTH - 1) := by
    by_contra hn
    have := (color_line_parts_none_iff l ov).mpr (Or.inl hn)
    rw [(convert_none_iff_parts l ov).mpr this] at h
    exact absurd h (by simp)
  have hp := color_line_parts_of l ov _ _ h61 rfl rfl
  have hL : ∀ x : CStr, (ov.override_load = true ∨ (x = cstr ("LOAD") ∨ x = cstr ("NOLOAD"))) →
      (apply_load ov x = cstr ("LOAD") ∨ apply_load ov x = cstr ("NOLOAD")) := by
    intro x hx
    unfold apply_load
    cases h1 : ov.override_load <;> cases h2 : ov.use_load <;> simp_all
  have hA : ∀ x : CStr, (ov.override_ansi = true ∨ (x = cstr ("ANSI") ∨ x = cstr ("NOANSI"))) →
      (apply_ansi ov x = cstr ("ANSI") ∨ apply_ansi ov x = cstr ("NOANSI")) := by
    intro x hx
    unfold apply_ansi
    cases h1 : ov.override_ansi <;> cases h2 : ov.use_ansi <;> simp_all
  have hL0 : ∀ x : CStr, ov.override_load = false → apply_load ov x = x := by
    intro x hx; simp [apply_load, hx]
  have hA0 : ∀ x : CStr, ov.override_ansi = false → apply_ansi ov x = x := by
    intro x hx; simp [apply_ansi, hx]
  by_cases c2 : (work_segments l).length - 1 < 2
  · rw [if_pos c2] at hp
    rw [(convert_none_iff_parts l ov).mpr hp] at h
    exact absurd h (by simp)
  · rw [if_neg c2] at hp
    by_cases e2 : (work_segments l).length - 1 = 2
    · rw [if_pos e2] at hp
      have hc := convert_of_parts l ov _ _ _ _ _ _ hp
      rw [h] at hc
      refine ⟨_, _, _, _, _, Option.some.inj hc, fun _ => hL _ (Or.inr (Or.inr rfl)),
        fun hx => by omega, fun _ => hA _ (Or.inr (Or.inr rfl)), fun hx => by omega⟩
    · rw [if_neg e2] at hp
      by_cases e4 : (work_segments l).length - 1 = 4
      · rw [if_pos e4] at hp
        have hc := convert_of_parts l ov _ _ _ _ _ _ hp
        rw [h] at hc
        refine ⟨_, _, _, _, _, Option.some.inj hc, ?_, fun hx => hL0 _ hx.1, ?_,
          fun hx => hA0 _ hx.1⟩
        · rintro (hx | hx)
          · exact hL _ (Or.inl hx)
          · omega
        · rintro (hx | hx)
          · exact hA _ (Or.inl hx)
          · omega
      · rw [if_neg e4] at hp
        by_cases g4 : (work_segments l).length - 1 ≥ 4
        · rw [if_pos g4] at hp
          have hc := convert_of_parts l ov _ _ _ _ _ _ hp
          rw [h] at hc
          refine ⟨_, _, _, _, _, Option.some.inj hc, ?_, fun hx => hL0 _ hx.1, ?_,
            fun hx => hA0 _ hx.1⟩
          · rintro (hx | hx)
            · exact hL _ (Or.inl hx)
            · omega
          · rintro (hx | hx)
            · exact hA _ (Or.inl hx)
            · omega
        · rw [if_neg g4] at hp
          have hc := convert_of_parts l ov _ _ _ _ _ _ hp
          rw [h] at hc
          exact ⟨_, _, _, _, _, Option.some.inj hc, fun _ => Or.inr rfl,
            fun hx => by omega, fun _ => Or.inr rfl, fun hx => by omega⟩

/-! ## The read loop in detail -/

/-- A line on which the conversion fails leaves the read state as it is. -/
theorem read_line_of_fail (ov : ColorOverrides) (line : CStr) (st : ReadState)
    (h : convert_color_line line ov = none) : read_line ov line st = st := by
  unfold read_line
  rw [h]
  split
  · rfl
  · split <;> rfl

/-- Once the cursor and 16 colors are there the loop changes nothing. -/
theorem read_loop_full (ov : ColorOverrides) (lines : List CStr) (st : ReadState)
    (hf : st.found_cursor_color = true) (hc : REQUIRED_COLOR_LINES ≤ st.color_count) :
    read_loop ov lines st = st := by
  cases lines with
  | nil => rfl
  | cons raw rest =>
    have h1 : read_line ov (chomp raw) st = st := by
      unfold read_line
      have hlt : ¬ st.color_count < REQUIRED_COLOR_LINES := by omega
      simp [hf, hlt]
    unfold read_loop
    simp only [h1, hf, Bool.true_and, decide_eq_true_eq, ge_iff_le, hc, if_true]

theorem read_loop_skip_bad (ov : ColorOverrides) (bad : CStr) (post : List CStr)
    (h : convert_color_line (chomp bad) ov = none) (pre : List CStr) :
    ∀ st : ReadState, read_loop ov (pre ++ bad :: post) st = read_loop ov (pre ++ post) st := by
  induction pre with
  | nil =>
    intro st
    simp only [List.nil_append]
    rw [read_loop, read_line_of_fail ov _ st h]
    split
    · rename_i hfull
      simp only [Bool.and_eq_true, decide_eq_true_eq, ge_iff_le] at hfull
      exact (read_loop_full ov post st hfull.1 hfull.2).symm
    · rfl
  | cons a pre ih =>
    intro st
    simp only [List.cons_append]
    rw [read_loop, read_loop]
    split
    · rfl
    · exact ih _

/-- C12: for all line lists `pre` and `post`, every override policy and every
line `bad` on which `convert_color_line` fails (in particular one that passes
the `CURSORCOLOR=` or the `COLOR=` test): the scan of `pre ++ [bad] ++ post`
ends in the state in which the scan of `pre ++ post` ends, `read_theme_file`
gives on `pre ++ [bad] ++ post` what it gives on `pre ++ post`, and it builds
a document on `pre ++ [bad] ++ post` whenever the scan of `pre ++ post` finds
a cursor line. -/
theorem C12_bad_line_skipped (pre post : List CStr) (bad : CStr) (ov : ColorOverrides)
    (h : convert_color_line (chomp bad) ov = none) :
    ((read_loop ov (pre ++ post)
        { found_cursor_color := false, color_count := 0, colors := [] }).found_cursor_color
        = true →
      ∃ doc, read_theme_file (some (pre ++ [bad] ++ post)) ov = some doc) ∧
    read_theme_file (some (pre ++ [bad] ++ post)) ov
      = read_theme_file (some (pre ++ post)) ov ∧
    read_loop ov (pre ++ [bad] ++ post)
        { found_cursor_color := false, color_count := 0, colors := [] }
      = read_loop ov (pre ++ post)
        { found_cursor_color := false, color_count := 0, colors := [] } := by
  have e : pre ++ [bad] ++ post = pre ++ bad :: post := by simp
  have hl := read_loop_skip_bad ov bad post h pre
    { found_cursor_color := false, color_count := 0, colors := [] }
  refine ⟨?_, ?_, ?_⟩
  · intro hf
    refine ⟨fill_colors ov (read_loop ov (pre ++ post)
      { found_cursor_color := false, color_count := 0, colors := [] }), ?_⟩
    simp only [read_theme_file, read_theme_lines, e, hl, hf, if_true]
  · simp only [read_theme_file, read_theme_lines, e, hl]
  · rw [e, hl]

set_option maxRecDepth 100000 in
/-- Witness of C12: the line `COLOR=1,2` passes the `COLOR=` test and fails to
decode. -/
theorem C12_bad_line_skipped_witness :
    line_starts_with (chomp (cstr ("COLOR=1,2\n"))) COLOR_EQ = true ∧
    convert_color_line (chomp (cstr ("COLOR=1,2\n"))) no_overrides = none ∧
    (read_loop no_overrides ([cstr ("CURSORCOLOR=1,2,3\n")] ++ [cstr ("COLOR=4,5,6\n")])
        { found_cursor_color := false, color_count := 0, colors := [] }).found_cursor_color
      = true ∧
    (∃ doc, read_theme_file
        (some ([cstr ("CURSORCOLOR=1,2,3\n")] ++ [cstr ("COLOR=1,2\n")]
          ++ [cstr ("COLOR=4,5,6\n")])) no_overrides = some doc) ∧
    read_theme_file
        (some ([cstr ("CURSORCOLOR=1,2,3\n")] ++ [cstr ("COLOR=1,2\n")]
          ++ [cstr ("COLOR=4,5,6\n")])) no_overrides
      = read_theme_file (some ([cstr ("CURSORCOLOR=1,2,3\n")] ++ [cstr ("COLOR=4,5,6\n")]))
          no_overrides :=
  ⟨by decide, by decide, by decide,
    (C12_bad_line_skipped [cstr ("CURSORCOLOR=1,2,3\n")] [cstr ("COLOR=4,5,6\n")]
      (cstr ("COLOR=1,2\n")) no_overrides (by decide)).1 (by decide),
    (C12_bad_line_skipped [cstr ("CURSORCOLOR=1,2,3\n")] [cstr ("COLOR=4,5,6\n")]
      (cstr ("COLOR=1,2\n")) no_overrides (by decide)).2.1⟩

/-- Before the first `CURSORCOLOR=` line that decodes, the loop collects
nothing. -/
theorem read_loop_before_cursor (ov : ColorOverrides) (rest : List CStr) (pre : List CStr)
    (hpre : ∀ l ∈ pre, line_starts_with (chomp l) CURSORCOLOR_EQ = true →
      convert_color_line (chomp l) ov = none) :
    read_loop ov (pre ++ rest) { found_cursor_color := false, color_count := 0, colors := [] }
      = read_loop ov rest { found_cursor_color := false, color_count := 0, colors := [] } := by
  induction pre with
  | nil => rfl
  | cons a pre ih =>
    have h1 : read_line ov (chomp a)
        { found_cursor_color := false, color_count := 0, colors := [] }
        = { found_cursor_color := false, color_count := 0, colors := [] } := by
      by_cases hm : line_starts_with (chomp a) CURSORCOLOR_EQ = true
      · exact read_line_of_fail ov _ _ (hpre a (List.mem_cons_self _ _) hm)
      · unfold read_line
        simp [hm]
    simp only [List.cons_append]
    rw [read_loop]
    simp only [h1, Bool.false_and, Bool.false_eq_true, if_false]
    exact ih (fun l hl => hpre l (List.mem_cons_of_mem _ hl))

/-- After the cursor, the loop appends the conversions of the lines that pass
the `COLOR=` test and decode, until it has 16 colors. -/
theorem read_loop_collect (ov : ColorOverrides) (post : List CStr) :
    ∀ st : ReadState, st.found_cursor_color = true → st.color_count ≤ REQUIRED_COLOR_LINES →
      (read_loop ov post st).found_cursor_color = true ∧
      (read_loop ov post st).colors = st.colors ++
        ((((post.map chomp).filter (fun l => line_starts_with l COLOR_EQ)).filterMap
          (fun l => convert_color_line l ov)).take (REQUIRED_COLOR_LINES - st.color_count)) ∧
      (read_loop ov post st).color_count = st.color_count +
        ((((post.map chomp).filter (fun l => line_starts_with l COLOR_EQ)).filterMap
          (fun l => convert_color_line l ov)).take
            (REQUIRED_COLOR_LINES - st.color_count)).length := by
  induction post with
  | nil => intro st hf _; simp [read_loop, hf]
  | cons raw rest ih =>
    intro st hf hle
    by_cases hfull : REQUIRED_COLOR_LINES ≤ st.color_count
    · rw [read_loop_full ov _ st hf hfull]
      have : REQUIRED_COLOR_LINES - st.color_count = 0 := by omega
      simp [this, hf]
    · have hlt : st.color_count < REQUIRED_COLOR_LINES := by omega
      by_cases hm : line_starts_with (chomp raw) COLOR_EQ = true
      · cases hc : convert_color_line (chomp raw) ov with
        | none =>
          have h1 := read_line_of_fail ov (chomp raw) st hc
          rw [read_loop]
          simp only [h1, hf, Bool.true_and, decide_eq_true_eq, ge_iff_le, hfull, if_false]
          have := ih st hf hle
          simpa [List.filter_cons, hm, hc] using this
        | some x =>
          have h1 : read_line ov (chomp raw) st
              = { found_cursor_color := true, color_count := st.color_count + 1,
                  colors := st.colors ++ [x] } := by
            unfold read_line
            simp [hf, hlt, hm, hc]
          have hstep : REQUIRED_COLOR_LINES - st.color_count
              = (REQUIRED_COLOR_LINES - (st.color_count + 1)) + 1 := by omega
          rw [read_loop]
          simp only [h1, hf, Bool.true_and, decide_eq_true_eq, ge_iff_le]
          by_cases hnow : REQUIRED_COLOR_LINES ≤ st.color_count + 1
          · rw [if_pos hnow]
            have h0 : REQUIRED_COLOR_LINES - (st.color_count + 1) = 0 := by omega
            rw [hstep, h0]
            simp [List.filter_cons, hm, hc, hf]
          · rw [if_neg hnow]
            have := ih ⟨true, st.color_count + 1, st.colors ++ [x]⟩ rfl (by simp only; omega)
            rw [hstep]
            simp only [List.map_cons, List.filter_cons, hm, if_true, List.filterMap_cons, hc,
              List.take_succ_cons, List.length_cons]
            simp only [List.append_assoc, List.singleton_append] at this
            refine ⟨this.1, this.2.1, ?_⟩
            rw [this.2.2]
            omega
      · have h1 : read_line ov (chomp raw) st = st := by
          unfold read_line
          simp [hf, hm]
        rw [read_loop]
        simp only [h1, hf, Bool.true_and, decide_eq_true_eq, ge_iff_le, hfull, if_false]
        have := ih st hf hle
        simpa [List.filter_cons, hm] using this

/-- C11: for every input in which some line passes the `CURSORCOLOR=` test and
decodes, with `raw` the first such line (after the lines `pre`, before the
lines `post`): the document is the conversion of `raw`, then the conversions
of the first 16 at most of the lines of `post` that pass the `COLOR=` test and
decode, in order, then default color lines up to 16.  The lines of `pre` and
the other lines of `post` do not appear in the result. -/
theorem C11_first_cursor_then_colors (pre post : List CStr) (raw cur : CStr)
    (ov : ColorOverrides)
    (hpre : ∀ l ∈ pre, line_starts_with (chomp l) CURSORCOLOR_EQ = true →
      convert_color_line (chomp l) ov = none)
    (hm : line_starts_with (chomp raw) CURSORCOLOR_EQ = true)
    (hc : convert_color_line (chomp raw) ov = some cur) :
    let cols := (((post.map chomp).filter (fun l => line_starts_with l COLOR_EQ)).filterMap
      (fun l => convert_color_line l ov)).take 16
    read_theme_file (some (pre ++ raw :: post)) ov
      = some (cur :: (cols ++ List.replicate (16 - cols.length) (default_line COLOR_EQ ov))) := by
  intro cols
  have h1 : read_line ov (chomp raw)
      { found_cursor_color := false, color_count := 0, colors := [] }
      = { found_cursor_color := true, color_count := 0, colors := [cur] } := by
    unfold read_line
    simp [hm, hc]
  have h2 : read_loop ov (pre ++ raw :: post)
      { found_cursor_color := false, color_count := 0, colors := [] }
      = read_loop ov post { found_cursor_color := true, color_count := 0, colors := [cur] } := by
    rw [read_loop_before_cursor ov (raw :: post) pre hpre, read_loop, h1]
    simp [REQUIRED_COLOR_LINES]
  obtain ⟨c1, c2, c3⟩ := read_loop_collect ov post
    { found_cursor_color := true, color_count := 0, colors := [cur] } rfl (by simp)
  simp only [read_theme_file, read_theme_lines, fill_colors, h2, c1, if_true, c2, c3]
  simp [REQUIRED_COLOR_LINES, cols]

set_option maxRecDepth 100000 in
/-- Witness of C11: a `COLOR=` line, a `CURSORCOLOR=` line that does not
decode, the cursor line, then a second cursor line between two color lines. -/
theorem C11_first_cursor_then_colors_witness :
    (∀ l ∈ [cstr ("COLOR=9,9,9\n"), cstr ("CURSORCOLOR=1\n")],
      line_starts_with (chomp l) CURSORCOLOR_EQ = true →
        convert_color_line (chomp l) no_overrides = none) ∧
    line_starts_with (chomp (cstr ("CURSORCOLOR=1,2,3\n"))) CURSORCOLOR_EQ = true ∧
    convert_color_line (chomp (cstr ("CURSORCOLOR=1,2,3\n"))) no_overrides
      = some (cstr ("CURSORCOLOR=NOLOAD,NOANSI,0x0101,0x0202,0x0303")) ∧
    read_theme_file
        (some ([cstr ("COLOR=9,9,9\n"), cstr ("CURSORCOLOR=1\n")] ++ cstr ("CURSORCOLOR=1,2,3\n")
          :: [cstr ("COLOR=4,5,6\n"), cstr ("CURSORCOLOR=7,7,7\n"), cstr ("COLOR=7,8,9\n")]))
        no_overrides
      = some (cstr ("CURSORCOLOR=NOLOAD,NOANSI,0x0101,0x0202,0x0303")
          :: ([cstr ("COLOR=NOLOAD,NOANSI,0x0404,0x0505,0x0606"),
               cstr ("COLOR=NOLOAD,NOANSI,0x0707,0x0808,0x0909")]
              ++ List.replicate 14 (cstr ("COLOR=NOLOAD,NOANSI,0x0000,0x0000,0x0000")))) :=
  ⟨by decide, by decide, by decide,
    C11_first_cursor_then_colors [cstr ("COLOR=9,9,9\n"), cstr ("CURSORCOLOR=1\n")]
      [cstr ("COLOR=4,5,6\n"), cstr ("CURSORCOLOR=7,7,7\n"), cstr ("COLOR=7,8,9\n")]
      (cstr ("CURSORCOLOR=1,2,3\n")) (cstr ("CURSORCOLOR=NOLOAD,NOANSI,0x0101,0x0202,0x0303"))
      no_overrides (by decide) (by decide) (by decide)⟩

set_option maxRecDepth 100000 in
/-- Witness of C18 (amended) on `COLOR=10,20,30`. -/
theorem C18_flag_tokens_witness :
    convert_color_line (cstr ("COLOR=10,20,30")) no_overrides
      = some (cstr ("COLOR=NOLOAD,NOANSI,0x0a0a,0x1414,0x1e1e")) ∧
    ∃ load ansi r g b,
      cstr ("COLOR=NOLOAD,NOANSI,0x0a0a,0x1414,0x1e1e")
        = format_color_line
            (((cstr ("COLOR=10,20,30")).take (MAX_LINE_LENGTH - 1)).takeWhile (fun c => c != 61)
              ++ [61]) load ansi r g b ∧
      ((no_overrides.override_load = true
          ∨ (work_segments (cstr ("COLOR=10,20,30"))).length - 1 < 4) →
        (load = cstr ("LOAD") ∨ load = cstr ("NOLOAD"))) ∧
      ((no_overrides.override_load = false
          ∧ 4 ≤ (work_segments (cstr ("COLOR=10,20,30"))).length - 1) →
        load = (work_segments (cstr ("COLOR=10,20,30"))).getD 0 []) ∧
      ((no_overrides.override_ansi = true
          ∨ (work_segments (cstr ("COLOR=10,20,30"))).length - 1 < 4) →
        (ansi = cstr ("ANSI") ∨ ansi = cstr ("NOANSI"))) ∧
      ((no_overrides.override_ansi = false
          ∧ 4 ≤ (work_segments (cstr ("COLOR=10,20,30"))).length - 1) →
        ansi = (work_segments (cstr ("COLOR=10,20,30"))).getD 1 []) :=
  ⟨by decide,
    C18_flag_tokens (cstr ("COLOR=10,20,30")) no_overrides
      (cstr ("COLOR=NOLOAD,NOANSI,0x0a0a,0x1414,0x1e1e")) (by decide)⟩

/-! ## Reading digits -/

/-- Reading digit characters gives the number their values denote, most
significant digit first. -/
theorem read_digits_value (val : Nat → Option Nat) (base : Nat) (chars : CStr) :
    ∀ (ds : List Nat) (acc : Nat), chars.map val = ds.map some →
      read_digits val base chars acc
        = acc * base ^ ds.length + Nat.ofDigits base ds.reverse := by
  induction chars with
  | nil =>
    intro ds acc h
    cases ds with
    | nil => simp [read_digits]
    | cons d t => simp at h
  | cons c rest ih =>
    intro ds acc h
    cases ds with
    | nil => simp at h
    | cons d t =>
      simp only [List.map_cons, List.cons.injEq] at h
      rw [read_digits, h.1]
      simp only
      rw [ih t _ h.2, List.reverse_cons, Nat.ofDigits_append, Nat.ofDigits_singleton,
        List.length_reverse, List.length_cons]
      ring

theorem digits_length (val : Nat → Option Nat) (chars : CStr) (ds : List Nat)
    (h : chars.map val = ds.map some) : ds.length = chars.length := by
  have := congrArg List.length h
  simpa using this.symm

theorem digits_bound (val : Nat → Option Nat) (b : Nat)
    (hval : ∀ c d, val c = some d → d < b) (chars : CStr) :
    ∀ ds : List Nat, chars.map val = ds.map some → ∀ d ∈ ds, d < b := by
  induction chars with
  | nil =>
    intro ds h d hd
    cases ds with
    | nil => exact absurd hd (List.not_mem_nil d)
    | cons e t => simp at h
  | cons c rest ih =>
    intro ds h d hd
    cases ds with
    | nil => simp at h
    | cons e t =>
      simp only [List.map_cons, List.cons.injEq] at h
      rcases List.mem_cons.mp hd with h1 | h1
      · rw [h1]; exact hval c e h.1
      · exact ih t h.2 d h1

theorem digit_chars (val : Nat → Option Nat) (chars : CStr) :
    ∀ ds : List Nat, chars.map val = ds.map some → ∀ c ∈ chars, ∃ d, val c = some d := by
  induction chars with
  | nil => intro ds _ c hc; exact absurd hc (List.not_mem_nil c)
  | cons a rest ih =>
    intro ds h c hc
    cases ds with
    | nil => simp at h
    | cons e t =>
      simp only [List.map_cons, List.cons.injEq] at h
      rcases List.mem_cons.mp hc with h1 | h1
      · rw [h1]; exact ⟨e, h.1⟩
      · exact ih t h.2 c h1

theorem hexval_char (c d : Nat) (h : hexval c = some d) :
    d < 16 ∧ ((48 ≤ c ∧ c ≤ 57) ∨ (97 ≤ c ∧ c ≤ 102) ∨ (65 ≤ c ∧ c ≤ 70)) := by
  unfold hexval at h
  split at h
  · simp only [Option.some.injEq] at h; omega
  · split at h
    · simp only [Option.some.injEq] at h; omega
    · split at h
      · simp only [Option.some.injEq] at h; omega
      · exact absurd h (by simp)

theorem decval_char (c d : Nat) (h : decval c = some d) : d < 10 ∧ 48 ≤ c ∧ c ≤ 57 := by
  unfold decval at h
  split at h
  · simp only [Option.some.injEq] at h; omega
  · exact absurd h (by simp)

theorem decval_hexval (c d : Nat) (h : decval c = some d) : hexval c = some d := by
  have := decval_char c d h
  unfold decval at h
  unfold hexval
  rw [if_pos ⟨this.2.1, this.2.2⟩] at h ⊢
  exact h

theorem isspace_of_digit (c d : Nat) (h : hexval c = some d) : isspace c = false := by
  have := (hexval_char c d h).2
  simp only [isspace, Bool.or_eq_false_iff, beq_eq_false_iff_ne, Bool.and_eq_false_iff,
    decide_eq_false_iff_not]
  omega

/-- A token without white space that fits the work buffer is copied whole. -/
theorem clean_input_id (t : CStr) (hs : ∀ c ∈ t, isspace c = false) (hlen : t.length ≤ 31) :
    clean_input t = t := by
  unfold clean_input
  have : t.filter (fun c => !isspace c) = t := by
    rw [List.filter_eq_self]
    intro c hc
    simp [hs c hc]
  rw [this, List.take_of_length_le hlen]

/-- The test for the hexadecimal prefix looks at the first two bytes. -/
theorem hex_pfx_iff (l : CStr) :
    (starts_with l (cstr ("0x")) || starts_with l (cstr ("0X"))) = true ↔
      (str_to_upper l).take 2 = cstr ("0X") := by
  have e1 : str_to_upper ((cstr ("0x")).take 255) = cstr ("0X") := by decide
  have e2 : str_to_upper ((cstr ("0X")).take 255) = cstr ("0X") := by decide
  have e3 : (cstr ("0X")).length = 2 := by decide
  have e4 : (cstr ("0X")).take 2 = cstr ("0X") := by decide
  simp only [starts_with, strncmp_eq, e1, e2, e3, e4, Bool.or_self, beq_iff_eq, MAX_LINE_LENGTH]
  simp only [str_to_upper, ← List.map_take, List.take_take]
  rw [Nat.min_eq_left (by omega)]

/-- The value stored into the `ULONG` for a non-negative `long`. -/
theorem toULONG_natCast (n : Nat) (h : n < 2 ^ 32) : toULONG (n : Int) = n := by
  unfold toULONG
  omega

set_option maxRecDepth 100000 in
/-- C21: `convert_to_16bit_rgb` returns 0x1212 on `0x12`, 0xABCD on `0xABCD`,
0xFFFF on `255`, 0x0000 on `0`, a value within 1 of 0x7FFF on `0.5` (it is
0x7FFF), and 0xFFFF on `1.0`. -/
theorem C21_sample_values :
    convert_to_16bit_rgb (cstr ("0x12")) = 0x1212 ∧
    convert_to_16bit_rgb (cstr ("0xABCD")) = 0xABCD ∧
    convert_to_16bit_rgb (cstr ("255")) = 0xFFFF ∧
    convert_to_16bit_rgb (cstr ("0")) = 0x0000 ∧
    (0x7FFF - 1 ≤ convert_to_16bit_rgb (cstr ("0.5")) ∧
      convert_to_16bit_rgb (cstr ("0.5")) ≤ 0x7FFF + 1) ∧
    convert_to_16bit_rgb (cstr ("0.5")) = 0x7FFF ∧
    convert_to_16bit_rgb (cstr ("1.0")) = 0xFFFF := by
  decide

/-! ## White space in tokens -/

theorem filter_ws_inserted (t t' : CStr) (h : WsInserted t t') :
    t'.filter (fun c => !isspace c) = t.filter (fun c => !isspace c) := by
  induction h with
  | done => rfl
  | keep c _ ih => simp only [List.filter_cons, ih]
  | insert w hw _ ih => simp [List.filter_cons, hw, ih]

/-- C26: for every token `t` and every string `t'` obtained from `t` by
inserting white space bytes at any positions, `convert_to_16bit_rgb` returns
the same value on `t'` as on `t`. -/
theorem C26_whitespace_ignored (t t' : CStr) (h : WsInserted t t') :
    convert_to_16bit_rgb t' = convert_to_16bit_rgb t := by
  have hc : clean_input t' = clean_input t := by
    unfold clean_input
    rw [filter_ws_inserted t t' h]
  unfold convert_to_16bit_rgb
  rw [hc]

set_option maxRecDepth 100000 in
/-- Witness of C26: ` 0x\t1 2\n` is `0x12` with white space inserted. -/
theorem C26_whitespace_ignored_witness :
    WsInserted (cstr ("0x12")) (cstr (" 0x\t1 2\n")) ∧
    convert_to_16bit_rgb (cstr (" 0x\t1 2\n")) = convert_to_16bit_rgb (cstr ("0x12")) :=
  ⟨WsInserted.insert 32 (by decide) (WsInserted.keep 48 (WsInserted.keep 120
      (WsInserted.insert 9 (by decide) (WsInserted.keep 49 (WsInserted.insert 32 (by decide)
        (WsInserted.keep 50 (WsInserted.insert 10 (by decide) WsInserted.done))))))),
    C26_whitespace_ignored (cstr ("0x12")) (cstr (" 0x\t1 2\n"))
      (WsInserted.insert 32 (by decide) (WsInserted.keep 48 (WsInserted.keep 120
        (WsInserted.insert 9 (by decide) (WsInserted.keep 49 (WsInserted.insert 32 (by decide)
          (WsInserted.keep 50 (WsInserted.insert 10 (by decide) WsInserted.done))))))))⟩

/-! ## The value and the text of a channel -/

/-- Every value `convert_to_16bit_rgb` returns fits 16 bits. -/
theorem convert_lt (t : CStr) : convert_to_16bit_rgb t < 65536 := by
  have hm : ∀ x : Nat, x % 2 ^ 16 < 65536 := fun x => Nat.mod_lt _ (by decide)
  have hi : ∀ (p : Prop) [Decidable p] (x : Nat), (if p then 0xFFFF else x % 2 ^ 16) < 65536 := by
    intro p _ x
    split
    · decide
    · exact hm x
  unfold convert_to_16bit_rgb byte_double
  simp only
  split
  · split
    · exact hm _
    · exact hm _
  · split
    · exact hi _ _
    · exact hm _

/-- The four characters `%04x` prints for a 16-bit value are the lowercase
hexadecimal digits of the value. -/
theorem hex4_digits (v : Nat) (h : v < 65536) :
    ∃ d3 d2 d1 d0, d3 < 16 ∧ d2 < 16 ∧ d1 < 16 ∧ d0 < 16 ∧
      v = 4096 * d3 + 256 * d2 + 16 * d1 + d0 ∧
      hex4 v = [hex_chars.getD d3 0, hex_chars.getD d2 0, hex_chars.getD d1 0,
        hex_chars.getD d0 0] := by
  have key : ∀ d, d < 16 → hexdigit d = hex_chars.getD d 0 := by decide
  refine ⟨v / 4096 % 16, v / 256 % 16, v / 16 % 16, v % 16, Nat.mod_lt _ (by decide),
    Nat.mod_lt _ (by decide), Nat.mod_lt _ (by decide), Nat.mod_lt _ (by decide), by omega, ?_⟩
  unfold hex4
  rw [key _ (Nat.mod_lt _ (by decide)), key _ (Nat.mod_lt _ (by decide)),
    key _ (Nat.mod_lt _ (by decide)), key _ (Nat.mod_lt _ (by decide))]

theorem channel_text_hex4 (v : Nat) (h : v < 65536) : channel_text v (cstr ("0x") ++ hex4 v) := by
  obtain ⟨d3, d2, d1, d0, h3, h2, h1, h0, hv, ht⟩ := hex4_digits v h
  exact ⟨d3, d2, d1, d0, h3, h2, h1, h0, hv, by rw [ht]; rfl⟩

/-- C27: for every successful `convert_color_line` call, the produced line is
`<prefix><load>,<ansi>,<R>,<G>,<B>` where each of `<R>`, `<G>`, `<B>` is exactly
six characters, `0x` followed by the four lowercase hexadecimal digits of the
16-bit value `convert_to_16bit_rgb` returns for that channel. -/
theorem C27_channel_text (l : CStr) (ov : ColorOverrides) (out : CStr)
    (h : convert_color_line l ov = some out) :
    ∃ pfx_part load ansi r_str g_str b_str R G B,
      color_line_parts l ov = some (pfx_part, load, ansi, r_str, g_str, b_str) ∧
      out = pfx_part ++ load ++ [44] ++ ansi ++ [44] ++ R ++ [44] ++ G ++ [44] ++ B ∧
      R.length = 6 ∧ G.length = 6 ∧ B.length = 6 ∧
      convert_to_16bit_rgb r_str < 65536 ∧ convert_to_16bit_rgb g_str < 65536 ∧
      convert_to_16bit_rgb b_str < 65536 ∧
      channel_text (convert_to_16bit_rgb r_str) R ∧
      channel_text (convert_to_16bit_rgb g_str) G ∧
      channel_text (convert_to_16bit_rgb b_str) B := by
  cases hp : color_line_parts l ov with
  | none =>
    unfold convert_color_line at h
    rw [hp] at h
    exact absurd h (by simp)
  | some p =>
    obtain ⟨pfx_part, load, ansi, r_str, g_str, b_str⟩ := p
    have hc := convert_of_parts l ov _ _ _ _ _ _ hp
    rw [h] at hc
    have ho := Option.some.inj hc
    refine ⟨pfx_part, load, ansi, r_str, g_str, b_str,
      cstr ("0x") ++ hex4 (convert_to_16bit_rgb r_str),
      cstr ("0x") ++ hex4 (convert_to_16bit_rgb g_str),
      cstr ("0x") ++ hex4 (convert_to_16bit_rgb b_str), rfl, ?_, rfl, rfl, rfl,
      convert_lt _, convert_lt _, convert_lt _,
      channel_text_hex4 _ (convert_lt _), channel_text_hex4 _ (convert_lt _),
      channel_text_hex4 _ (convert_lt _)⟩
    rw [ho]
    simp [format_color_line, cstr]

set_option maxRecDepth 100000 in
/-- Witness of C27 on `COLOR=10,20,30`. -/
theorem C27_channel_text_witness :
    convert_color_line (cstr ("COLOR=10,20,30")) no_overrides
      = some (cstr ("COLOR=NOLOAD,NOANSI,0x0a0a,0x1414,0x1e1e")) ∧
    ∃ pfx_part load ansi r_str g_str b_str R G B,
      color_line_parts (cstr ("COLOR=10,20,30")) no_overrides
        = some (pfx_part, load, ansi, r_str, g_str, b_str) ∧
      cstr ("COLOR=NOLOAD,NOANSI,0x0a0a,0x1414,0x1e1e")
        = pfx_part ++ load ++ [44] ++ ansi ++ [44] ++ R ++ [44] ++ G ++ [44] ++ B ∧
      R.length = 6 ∧ G.length = 6 ∧ B.length = 6 ∧
      convert_to_16bit_rgb r_str < 65536 ∧ convert_to_16bit_rgb g_str < 65536 ∧
      convert_to_16bit_rgb b_str < 65536 ∧
      channel_text (convert_to_16bit_rgb r_str) R ∧
      channel_text (convert_to_16bit_rgb g_str) G ∧
      channel_text (convert_to_16bit_rgb b_str) B :=
  ⟨by decide,
    C27_channel_text (cstr ("COLOR=10,20,30")) no_overrides
      (cstr ("COLOR=NOLOAD,NOANSI,0x0a0a,0x1414,0x1e1e")) (by decide)⟩

set_option maxRecDepth 100000 in
/-- C28 (the code at the failing input): from a theme file whose two record
lines are indented, `read_theme_file` builds a document whose first two lines
keep the leading blanks; the split of `update_prefs_file` then finds no cursor
record and only the 15 default color records. -/
theorem C28_indented_records_dropped :
    read_theme_file (some [cstr ("  CURSORCOLOR=1,2,3\n"), cstr ("\tCOLOR=4,5,6\n")])
        no_overrides
      = some (cstr ("  CURSORCOLOR=NOLOAD,NOANSI,0x0101,0x0202,0x0303")
          :: cstr ("\tCOLOR=NOLOAD,NOANSI,0x0404,0x0505,0x0606")
          :: List.replicate 15 (cstr ("COLOR=NOLOAD,NOANSI,0x0000,0x0000,0x0000"))) ∧
    split_cursor (cstr ("  CURSORCOLOR=NOLOAD,NOANSI,0x0101,0x0202,0x0303")
        :: cstr ("\tCOLOR=NOLOAD,NOANSI,0x0404,0x0505,0x0606")
        :: List.replicate 15 (cstr ("COLOR=NOLOAD,NOANSI,0x0000,0x0000,0x0000"))) = none ∧
    split_colors (cstr ("  CURSORCOLOR=NOLOAD,NOANSI,0x0101,0x0202,0x0303")
        :: cstr ("\tCOLOR=NOLOAD,NOANSI,0x0404,0x0505,0x0606")
        :: List.replicate 15 (cstr ("COLOR=NOLOAD,NOANSI,0x0000,0x0000,0x0000")))
      = List.replicate 15 (cstr ("COLOR=NOLOAD,NOANSI,0x0000,0x0000,0x0000")) := by
  decide

set_option maxRecDepth 100000 in
/-- C30 (the code at the failing input): on `0.9999` the result 65528 is the
integer part of the exact value, and on `0.99999` the result is 22584 while the
exact value `65535 * 99999 / 100000` lies above 65534: the product
`99999 * 65535` does not fit 32 bits. -/
theorem C30_fraction_overflow :
    convert_to_16bit_rgb (cstr ("0.9999")) = 65528 ∧ 65535 * 9999 / 10000 = 65528 ∧
    convert_to_16bit_rgb (cstr ("0.99999")) = 22584 ∧ 65535 * 99999 / 100000 = 65534 ∧
    2 ^ 32 ≤ 99999 * 65535 := by
  decide

/-! ## The section marker -/

/-- The line written for a color record does not pass the marker test. -/
theorem color_rec_not_marker (e : CStr) (h : starts_with e COLOR_EQ = true) :
    starts_with (put_entry e) COLORS_MARKER = false := by
  rw [color_rec_iff] at h
  cases e with
  | nil => exact absurd h (by decide)
  | cons c t =>
    simp only [str_to_upper, List.map_cons, List.take_succ_cons, COLOR_EQ, cstr] at h
    have hc : toupper c = 67 := by
      have := congrArg List.head? h
      simpa using this
    by_contra hm
    have hu : str_to_upper (cstr (";COLORS:")) = cstr (";COLORS:") := by decide
    have h2 : starts_with (put_entry (c :: t)) (cstr (";COLORS:")) = true := by
      have e2 : str_to_upper (COLORS_MARKER.take 255)
          = str_to_upper ((cstr (";COLORS:")).take 255) := by decide
      have hm2 : starts_with (put_entry (c :: t)) COLORS_MARKER = true := by simpa using hm
      simpa only [starts_with, e2] using hm2
    rw [starts_with_iff _ _ hu (by decide)] at h2
    simp only [put_entry, List.cons_append, str_to_upper, List.map_cons] at h2
    have := congrArg List.head? h2
    simp [cstr] at this
    omega

/-- C29 (as stated, refuted): the target line `  ;Colors:` begins with
`;Colors:` once its leading blanks are removed, yet merging the complete
sample document into this one-line target appends a second `;Colors:` line
before the 16 color records. -/
theorem C29_counterexample :
    line_starts_with (cstr ("  ;Colors:\n")) COLORS_MARKER = true ∧
    merge_existing [cstr ("  ;Colors:\n")] (sample_cursor :: sample_colors)
      = cstr ("  ;Colors:\n") :: cstr (";Colors:\n") :: sample_colors.map put_entry := by
  decide

/-- C29 (amended): for every existing target that contains a line beginning
with `;Colors:` (case ignored, no leading white space: the test is
`starts_with`), whatever the new document and the number of `COLOR=` lines in
the target, the scan ends with `found_colors_section` set, and what
`update_prefs_file` appends after the target lines is only the unconsumed
color records: no appended line passes the marker test. -/
theorem C29_marker_not_repeated (old_lines new_colors : List CStr)
    (h : ∃ l ∈ old_lines, starts_with l COLORS_MARKER = true) :
    (scan_lines (split_cursor new_colors) (split_colors new_colors) old_lines 0 false).2.2
      = true ∧
    (merge_existing old_lines new_colors).drop old_lines.length
      = ((split_colors new_colors).drop
          (old_lines.countP (fun l => line_starts_with l COLOR_EQ))).map put_entry ∧
    ∀ w ∈ (merge_existing old_lines new_colors).drop old_lines.length,
      starts_with w COLORS_MARKER = false := by
  have hfound : (scan_lines (split_cursor new_colors) (split_colors new_colors)
      old_lines 0 false).2.2 = true := by
    rw [scan_lines_found]
    obtain ⟨l, hl, hm⟩ := h
    simp only [Bool.false_or, List.any_eq_true]
    exact ⟨l, hl, hm⟩
  have happ : (merge_existing old_lines new_colors).drop old_lines.length
      = ((split_colors new_colors).drop
          (old_lines.countP (fun l => line_starts_with l COLOR_EQ))).map put_entry := by
    unfold merge_existing append_remaining
    simp only [hfound, scan_lines_index, Nat.zero_add, if_true, List.nil_append]
    have hl := scan_lines_length (split_cursor new_colors) (split_colors new_colors)
      old_lines 0 false
    rw [List.drop_append_of_le_length (by omega), ← hl, List.drop_length, List.nil_append]
    split
    · rfl
    · rw [List.drop_of_length_le (by omega)]
      rfl
  refine ⟨hfound, happ, ?_⟩
  intro w hw
  rw [happ] at hw
  obtain ⟨e, he, rfl⟩ := List.mem_map.mp hw
  exact color_rec_not_marker e (split_colors_mem new_colors e (List.mem_of_mem_drop he)).2.1

set_option maxRecDepth 100000 in
/-- Witness of C29 (amended) on `sample_prefs`, whose third line is the
marker. -/
theorem C29_marker_not_repeated_witness :
    (∃ l ∈ sample_prefs, starts_with l COLORS_MARKER = true) ∧
    (merge_existing sample_prefs (sample_cursor :: sample_colors)).drop sample_prefs.length
      = ((split_colors (sample_cursor :: sample_colors)).drop
          (sample_prefs.countP (fun l => line_starts_with l COLOR_EQ))).map put_entry ∧
    ∀ w ∈ (merge_existing sample_prefs (sample_cursor :: sample_colors)).drop
        sample_prefs.length, starts_with w COLORS_MARKER = false :=
  ⟨⟨cstr (";Colors:\n"), by decide, by decide⟩,
    (C29_marker_not_repeated sample_prefs (sample_cursor :: sample_colors)
      ⟨cstr (";Colors:\n"), by decide, by decide⟩).2⟩

/-! ## Hexadecimal and decimal integer tokens -/

/-- The optional `0x` that `strtoul` skips is there only when the second byte
is an `x`. -/
theorem skip_0x_cases (s : CStr) :
    (match s with
      | 48 :: y :: t => if y = 120 ∨ y = 88 then t else s
      | _ => s) = s ∨ ∃ t, s = 48 :: 120 :: t ∨ s = 48 :: 88 :: t := by
  split
  · rename_i y t
    by_cases hy : y = 120 ∨ y = 88
    · right
      rcases hy with h | h
      · exact ⟨t, Or.inl (by rw [h])⟩
      · exact ⟨t, Or.inr (by rw [h])⟩
    · left
      rw [if_neg hy]
  · left; rfl

/-- The value `strtoul` reads from hexadecimal digit characters. -/
theorem strtoul16_digits (chars : CStr) (ds : List Nat) (hd : chars.map hexval = ds.map some)
    (hv : Nat.ofDigits 16 ds.reverse < 2 ^ 32) :
    strtoul16 chars = Nat.ofDigits 16 ds.reverse := by
  have hch := digit_chars hexval chars ds hd
  have hdrop : chars.dropWhile isspace = chars := by
    cases chars with
    | nil => rfl
    | cons c t =>
      obtain ⟨d, hcd⟩ := hch c (List.mem_cons_self _ _)
      simp [List.dropWhile_cons, isspace_of_digit c d hcd]
  have hsg : read_sign chars = (false, chars) := by
    unfold read_sign
    split
    · rename_i t
      obtain ⟨d, hcd⟩ := hch 45 (List.mem_cons_self _ _)
      simp [hexval] at hcd
    · rename_i t
      obtain ⟨d, hcd⟩ := hch 43 (List.mem_cons_self _ _)
      simp [hexval] at hcd
    · rfl
  have hbody : ¬ ∃ t, chars = 48 :: 120 :: t ∨ chars = 48 :: 88 :: t := by
    rintro ⟨t, h | h⟩
    · obtain ⟨d, hcd⟩ := hch 120 (by rw [h]; simp)
      simp [hexval] at hcd
    · obtain ⟨d, hcd⟩ := hch 88 (by rw [h]; simp)
      simp [hexval] at hcd
  have hskip := (skip_0x_cases chars).resolve_right hbody
  have hval := read_digits_value hexval 16 chars ds 0 hd
  simp only [Nat.zero_mul, Nat.zero_add] at hval
  have key : ∀ body : CStr, body = chars →
      (if read_digits hexval 16 body 0 > 4294967295 then 4294967295
        else if false = true then (2 ^ 32 - read_digits hexval 16 body 0) % 2 ^ 32
        else read_digits hexval 16 body 0) = Nat.ofDigits 16 ds.reverse := by
    intro body hb
    rw [hb, hval]
    simp only [Bool.false_eq_true, if_false]
    rw [if_neg (by omega)]
  unfold strtoul16
  simp only [hdrop, hsg]
  exact key _ hskip

/-- Conversion of a token `0x` or `0X` followed by hexadecimal digits that
fits the work buffer. -/
theorem convert_hex_token (x : Nat) (chars : CStr) (ds : List Nat) (hx : x = 120 ∨ x = 88)
    (hd : chars.map hexval = ds.map some) (hlen : (48 :: x :: chars).length ≤ 31)
    (hv : Nat.ofDigits 16 ds.reverse < 2 ^ 32) :
    convert_to_16bit_rgb (48 :: x :: chars)
      = if Nat.ofDigits 16 ds.reverse ≤ 0xFF then 257 * Nat.ofDigits 16 ds.reverse
        else Nat.ofDigits 16 ds.reverse % 2 ^ 16 := by
  have hch := digit_chars hexval chars ds hd
  have hclean : clean_input (48 :: x :: chars) = 48 :: x :: chars := by
    apply clean_input_id _ _ hlen
    intro c hc
    rcases List.mem_cons.mp hc with h | h
    · rw [h]; decide
    · rcases List.mem_cons.mp h with h | h
      · rcases hx with h2 | h2 <;> · rw [h, h2]; decide
      · obtain ⟨d, hcd⟩ := hch c h
        exact isspace_of_digit c d hcd
  have hp : (starts_with (48 :: x :: chars) (cstr ("0x"))
      || starts_with (48 :: x :: chars) (cstr ("0X"))) = true := by
    rw [hex_pfx_iff]
    rcases hx with h2 | h2 <;> · rw [h2]; rfl
  unfold convert_to_16bit_rgb
  simp only [hclean, hp, if_true, List.drop_succ_cons, List.drop_zero,
    strtoul16_digits chars ds hd hv]
  split
  · rename_i h1
    exact byte_double_eq _ h1
  · have : Nat.ofDigits 16 ds.reverse &&& 0xFFFF = Nat.ofDigits 16 ds.reverse % 2 ^ 16 :=
      Nat.and_pow_two_sub_one_eq_mod _ 16
    rw [this, Nat.mod_mod]

/-- C22 (as stated, refuted): the token `0x` followed by 30 digits `0` and a
digit `1` denotes the value 1, and `convert_to_16bit_rgb` returns 0 on it, not
257: only the first 31 bytes are kept in the work buffer. -/
theorem C22_counterexample :
    (List.replicate 30 48 ++ [49]).map hexval = (List.replicate 30 0 ++ [1]).map some ∧
    Nat.ofDigits 16 (List.replicate 30 0 ++ [1]).reverse = 1 ∧
    convert_to_16bit_rgb (cstr ("0x") ++ (List.replicate 30 48 ++ [49])) = 0 := by
  refine ⟨by decide, ?_, by decide⟩
  simp [Nat.ofDigits]

/-- C22 (amended): for every token of at most 31 characters made of `0x` or
`0X` followed by hexadecimal digits denoting a value `v < 2^32`: if
`v ≤ 0xFF` the result of `convert_to_16bit_rgb` is `v | (v << 8)`, that is
`257 * v`, and if `v > 0xFF` the result is `v mod 2^16`. -/
theorem C22_hex_tokens (x : Nat) (chars : CStr) (ds : List Nat) (hx : x = 120 ∨ x = 88)
    (hd : chars.map hexval = ds.map some) (hlen : (48 :: x :: chars).length ≤ 31)
    (hv : Nat.ofDigits 16 ds.reverse < 2 ^ 32) :
    (Nat.ofDigits 16 ds.reverse ≤ 0xFF →
      convert_to_16bit_rgb (48 :: x :: chars) = 257 * Nat.ofDigits 16 ds.reverse ∧
      convert_to_16bit_rgb (48 :: x :: chars)
        = Nat.ofDigits 16 ds.reverse ||| (Nat.ofDigits 16 ds.reverse <<< 8)) ∧
    (0xFF < Nat.ofDigits 16 ds.reverse →
      convert_to_16bit_rgb (48 :: x :: chars) = Nat.ofDigits 16 ds.reverse % 2 ^ 16) := by
  rw [convert_hex_token x chars ds hx hd hlen hv]
  constructor
  · intro h
    rw [if_pos h]
    refine ⟨rfl, ?_⟩
    have h2 := byte_double_eq _ h
    unfold byte_double at h2
    rw [Nat.lor_comm, ← h2, Nat.mod_eq_of_lt]
    rw [Nat.shiftLeft_eq, Nat.mul_comm _ (2 ^ 8),
      ← Nat.mul_add_lt_is_or (show Nat.ofDigits 16 ds.reverse < 2 ^ 8 by omega)]
    omega
  · intro h
    rw [if_neg (by omega)]

set_option maxRecDepth 100000 in
/-- Witness of C22 (amended): `0X1f` gives 0x1f1f and `0xABCD` gives 0xABCD. -/
theorem C22_hex_tokens_witness :
    (cstr ("1f")).map hexval = [1, 15].map some ∧ Nat.ofDigits 16 [1, 15].reverse = 0x1f ∧
    convert_to_16bit_rgb (cstr ("0X1f")) = 257 * Nat.ofDigits 16 [1, 15].reverse ∧
    (cstr ("ABCD")).map hexval = [10, 11, 12, 13].map some ∧
    Nat.ofDigits 16 [10, 11, 12, 13].reverse = 0xABCD ∧
    convert_to_16bit_rgb (cstr ("0xABCD")) = Nat.ofDigits 16 [10, 11, 12, 13].reverse % 2 ^ 16 :=
  ⟨by decide, by simp [Nat.ofDigits],
    ((C22_hex_tokens 88 (cstr ("1f")) [1, 15] (by decide) (by decide) (by decide)
      (by simp [Nat.ofDigits])).1 (by simp [Nat.ofDigits])).1,
    by decide, by simp [Nat.ofDigits],
    (C22_hex_tokens 120 (cstr ("ABCD")) [10, 11, 12, 13] (by decide) (by decide) (by decide)
      (by simp [Nat.ofDigits])).2 (by simp [Nat.ofDigits])⟩

/-! ## Decimal tokens -/

/-- A token with the hexadecimal prefix begins with `0` and `x` or `X`. -/
theorem hex_pfx_head (l : CStr)
    (h : (starts_with l (cstr ("0x")) || starts_with l (cstr ("0X"))) = true) :
    ∃ y t, l = 48 :: y :: t ∧ (y = 120 ∨ y = 88) := by
  rw [hex_pfx_iff] at h
  rcases l with _ | ⟨a, _ | ⟨b, t⟩⟩
  · simp [str_to_upper, cstr] at h
  · simp [str_to_upper, cstr] at h
  · have h2 : toupper a = 48 ∧ toupper b = 88 := by
      simpa [str_to_upper, cstr] using h
    refine ⟨b, t, ?_, ?_⟩
    · have ha : a = 48 := by
        have := h2.1
        unfold toupper at this
        split at this <;> omega
      rw [ha]
    · have := h2.2
      unfold toupper at this
      split at this <;> omega

/-- Reading digits stops at the first byte that is not a digit. -/
theorem read_digits_stop (val : Nat → Option Nat) (base : Nat) (rest : CStr)
    (hr : ∀ c, rest.head? = some c → val c = none) (chars : CStr) :
    ∀ (ds : List Nat) (acc : Nat), chars.map val = ds.map some →
      read_digits val base (chars ++ rest) acc
        = acc * base ^ ds.length + Nat.ofDigits base ds.reverse := by
  induction chars with
  | nil =>
    intro ds acc h
    cases ds with
    | nil =>
      cases rest with
      | nil => simp [read_digits]
      | cons c r =>
        have := hr c rfl
        simp [read_digits, this]
    | cons d t => simp at h
  | cons c tl ih =>
    intro ds acc h
    cases ds with
    | nil => simp at h
    | cons d t =>
      simp only [List.map_cons, List.cons.injEq] at h
      rw [List.cons_append, read_digits, h.1]
      simp only
      rw [ih t _ h.2, List.reverse_cons, Nat.ofDigits_append, Nat.ofDigits_singleton,
        List.length_reverse, List.length_cons]
      ring

/-- C `atol` on a string that begins with neither white space nor a sign. -/
theorem atol_unsigned (s : CStr)
    (hs : ∀ c, s.head? = some c → isspace c = false ∧ c ≠ 45 ∧ c ≠ 43) :
    atol s = if read_digits decval 10 s 0 > 2 ^ 31 - 1 then (2 ^ 31 - 1 : Int)
      else (read_digits decval 10 s 0 : Int) := by
  have hdrop : s.dropWhile isspace = s := by
    cases s with
    | nil => rfl
    | cons c t => simp [List.dropWhile_cons, (hs c rfl).1]
  have hsg : read_sign s = (false, s) := by
    unfold read_sign
    split
    · exact absurd rfl (hs 45 rfl).2.1
    · exact absurd rfl (hs 43 rfl).2.2
    · rfl
  unfold atol
  simp only [hdrop, hsg, Bool.false_eq_true, if_false]

/-- The `ULONG` that receives `atol` of an unsigned digit string. -/
theorem toULONG_atol_unsigned (s : CStr)
    (hs : ∀ c, s.head? = some c → isspace c = false ∧ c ≠ 45 ∧ c ≠ 43) :
    toULONG (atol s) = min (read_digits decval 10 s 0) (2 ^ 31 - 1) := by
  rw [atol_unsigned s hs]
  split
  · rename_i h
    have : ((2 : Int) ^ 31 - 1) = ((2 ^ 31 - 1 : Nat) : Int) := by norm_num
    rw [this, toULONG_natCast _ (by norm_num)]
    omega
  · rename_i h
    rw [toULONG_natCast _ (by omega)]
    omega

/-- The head of a string of decimal digits is neither white space nor a sign. -/
theorem digit_head (c d : Nat) (h : decval c = some d) :
    isspace c = false ∧ c ≠ 45 ∧ c ≠ 43 := by
  have h1 := decval_char c d h
  refine ⟨isspace_of_digit c d (decval_hexval c d h), ?_, ?_⟩ <;> omega

/-- Conversion of a token of decimal digits that fits the work buffer. -/
theorem convert_decimal_token (chars : CStr) (ds : List Nat)
    (hd : chars.map decval = ds.map some) (hlen : chars.length ≤ 31) :
    convert_to_16bit_rgb chars = 257 * min (Nat.ofDigits 10 ds.reverse) 255 := by
  have hch := digit_chars decval chars ds hd
  have hclean : clean_input chars = chars := by
    apply clean_input_id _ _ hlen
    intro c hc
    obtain ⟨d, hcd⟩ := hch c hc
    exact (digit_head c d hcd).1
  have hp : (starts_with chars (cstr ("0x")) || starts_with chars (cstr ("0X"))) = false := by
    rw [Bool.eq_false_iff]
    intro h
    obtain ⟨y, t, e, hy⟩ := hex_pfx_head chars h
    obtain ⟨d, hcd⟩ := hch y (by rw [e]; simp)
    have := decval_char y d hcd
    omega
  have hdot : 46 ∉ chars := by
    intro h
    obtain ⟨d, hcd⟩ := hch 46 h
    have := decval_char 46 d hcd
    omega
  have hhead : ∀ c, chars.head? = some c → isspace c = false ∧ c ≠ 45 ∧ c ≠ 43 := by
    intro c hc
    obtain ⟨d, hcd⟩ := hch c (List.mem_of_mem_head? hc)
    exact digit_head c d hcd
  have hval := read_digits_value decval 10 chars ds 0 hd
  simp only [Nat.zero_mul, Nat.zero_add] at hval
  unfold convert_to_16bit_rgb
  simp only [hclean, hp, Bool.false_eq_true, if_false, hdot, toULONG_atol_unsigned chars hhead,
    hval]
  split
  · rename_i h
    rw [byte_double_eq 255 (by omega)]
    omega
  · rename_i h
    rw [byte_double_eq _ (by omega)]
    omega

set_option maxRecDepth 100000 in
/-- C23 (as stated, refuted): the token of 31 digits `0` followed by a digit
`1` is the decimal integer 1, and `convert_to_16bit_rgb` returns 0 on it, not
257: only the first 31 bytes are kept in the work buffer. -/
theorem C23_counterexample :
    (List.replicate 31 48 ++ [49]).map decval = (List.replicate 31 0 ++ [1]).map some ∧
    Nat.ofDigits 10 (List.replicate 31 0 ++ [1]).reverse = 1 ∧
    convert_to_16bit_rgb (List.replicate 31 48 ++ [49]) = 0 ∧
    257 * min 1 255 = 257 := by
  refine ⟨by decide, ?_, by decide, by decide⟩
  simp [Nat.ofDigits]

/-- C23 (amended): for every token of at most 31 characters that is a
decimal integer `n ≥ 0` (decimal digits only), `convert_to_16bit_rgb` returns
`257 * min n 255`: for `n ≤ 255` the high byte and the low byte of the result
are both `n`, and for `n > 255` the result is `0xFFFF` (for `n` above
`LONG_MAX`, with `atol` clamping as `strtol` does). -/
theorem C23_decimal_tokens (chars : CStr) (ds : List Nat)
    (hd : chars.map decval = ds.map some) (hlen : chars.length ≤ 31) :
    convert_to_16bit_rgb chars = 257 * min (Nat.ofDigits 10 ds.reverse) 255 ∧
    (Nat.ofDigits 10 ds.reverse ≤ 255 →
      convert_to_16bit_rgb chars / 256 = Nat.ofDigits 10 ds.reverse ∧
      convert_to_16bit_rgb chars % 256 = Nat.ofDigits 10 ds.reverse) ∧
    (255 < Nat.ofDigits 10 ds.reverse → convert_to_16bit_rgb chars = 0xFFFF) := by
  rw [convert_decimal_token chars ds hd hlen]
  refine ⟨rfl, ?_, ?_⟩
  · intro h
    rw [Nat.min_eq_left h]
    omega
  · intro h
    rw [Nat.min_eq_right (by omega)]

set_option maxRecDepth 100000 in
/-- Witness of C23 (amended): `200` gives 0xC8C8 and `1000` gives 0xFFFF. -/
theorem C23_decimal_tokens_witness :
    (cstr ("200")).map decval = [2, 0, 0].map some ∧ Nat.ofDigits 10 [2, 0, 0].reverse = 200 ∧
    convert_to_16bit_rgb (cstr ("200")) = 257 * min (Nat.ofDigits 10 [2, 0, 0].reverse) 255 ∧
    (cstr ("1000")).map decval = [1, 0, 0, 0].map some ∧
    Nat.ofDigits 10 [1, 0, 0, 0].reverse = 1000 ∧
    convert_to_16bit_rgb (cstr ("1000")) = 0xFFFF :=
  ⟨by decide, by simp [Nat.ofDigits],
    (C23_decimal_tokens (cstr ("200")) [2, 0, 0] (by decide) (by decide)).1,
    by decide, by simp [Nat.ofDigits],
    (C23_decimal_tokens (cstr ("1000")) [1, 0, 0, 0] (by decide) (by decide)).2.2
      (by simp [Nat.ofDigits])⟩

/-! ## Tokens with a decimal point -/

/-- The loop that reads the fraction, on decimal digits: numerator and
divisor modulo `2^32`. -/
theorem read_fraction_digits (F : CStr) :
    ∀ (ds : List Nat) (a b : Nat), F.map decval = ds.map some →
      read_fraction F (a % 2 ^ 32) (b % 2 ^ 32)
        = ((a * 10 ^ ds.length + Nat.ofDigits 10 ds.reverse) % 2 ^ 32,
           (b * 10 ^ ds.length) % 2 ^ 32) := by
  induction F with
  | nil =>
    intro ds a b h
    cases ds with
    | nil => simp [read_fraction]
    | cons d t => simp at h
  | cons c rest ih =>
    intro ds a b h
    cases ds with
    | nil => simp at h
    | cons d t =>
      simp only [List.map_cons, List.cons.injEq] at h
      have hc := decval_char c d h.1
      have hd : c - 48 = d := by
        have := h.1
        unfold decval at this
        rw [if_pos ⟨hc.2.1, hc.2.2⟩] at this
        exact Option.some.inj this
      rw [read_fraction, if_pos ⟨hc.2.1, hc.2.2⟩, hd]
      have e1 : (a % 2 ^ 32 * 10 + d) % 2 ^ 32 = (a * 10 + d) % 2 ^ 32 := by omega
      have e2 : (b % 2 ^ 32 * 10) % 2 ^ 32 = (b * 10) % 2 ^ 32 := by omega
      rw [e1, e2, ih t _ _ h.2, List.reverse_cons, Nat.ofDigits_append, Nat.ofDigits_singleton,
        List.length_reverse, List.length_cons]
      congr 2 <;> ring

/-- The loop that reads the fraction stops at once on a byte that is not a
decimal digit. -/
theorem read_fraction_stop (s : CStr) (a b : Nat)
    (h : ∀ c, s.head? = some c → decval c = none) : read_fraction s a b = (a, b) := by
  cases s with
  | nil => rfl
  | cons c t =>
    have hc := h c rfl
    unfold decval at hc
    rw [read_fraction]
    split
    · rename_i h1
      rw [if_pos h1] at hc
      exact absurd hc (by simp)
    · rfl

/-- The number that decimal digits denote is below the power of ten of their
count. -/
theorem decimal_lt_pow (chars : CStr) (ds : List Nat) (hd : chars.map decval = ds.map some) :
    Nat.ofDigits 10 ds.reverse < 10 ^ chars.length := by
  have hb := digits_bound decval 10 (fun c d h => (decval_char c d h).1) chars ds hd
  have := Nat.ofDigits_lt_base_pow_length (b := 10) (l := ds.reverse) (by omega)
    (fun x hx => hb x (List.mem_reverse.mp hx))
  rw [List.length_reverse, digits_length decval chars ds hd] at this
  exact this

/-- Rounding to nearest is the quotient of the integer division or one more. -/
theorem round_div_floor (n d : Nat) (hd : 0 < d) :
    n / d ≤ round_div n d ∧ round_div n d ≤ n / d + 1 := by
  unfold round_div
  have h1 : n / d * d ≤ n := Nat.div_mul_le_self n d
  have h2 : n < (n / d + 1) * d := by
    have e1 := Nat.div_add_mod n d
    have e2 := Nat.mod_lt n hd
    have e3 : (n / d + 1) * d = d * (n / d) + d := by ring
    omega
  constructor
  · rw [Nat.le_div_iff_mul_le (by omega)]
    calc n / d * (2 * d) = 2 * (n / d * d) := by ring
      _ ≤ 2 * n + d := by omega
  · rw [← Nat.lt_succ_iff, Nat.div_lt_iff_lt_mul (by omega)]
    calc 2 * n + d < 2 * ((n / d + 1) * d) + 2 * d := by omega
      _ = (n / d + 1).succ * (2 * d) := by simp only [Nat.succ_eq_add_one]; ring

/-- The parts of the conversion of a token made of decimal digits, a point and
decimal digits, that fits the work buffer. -/
theorem convert_point_token (I F : CStr) (di df : List Nat)
    (hI : I.map decval = di.map some) (hF : F.map decval = df.map some)
    (hlen : (I ++ 46 :: F).length ≤ 31) :
    convert_to_16bit_rgb (I ++ 46 :: F)
      = if min (Nat.ofDigits 10 di.reverse) (2 ^ 31 - 1) ≥ 1 then 0xFFFF
        else ((Nat.ofDigits 10 df.reverse % 2 ^ 32 * 65535) % 2 ^ 32
          / (10 ^ F.length % 2 ^ 32)) % 2 ^ 16 := by
  have hchI := digit_chars decval I di hI
  have hchF := digit_chars decval F df hF
  have h46 : decval 46 = none := by decide
  have hclean : clean_input (I ++ 46 :: F) = I ++ 46 :: F := by
    apply clean_input_id _ _ hlen
    intro c hc
    rcases List.mem_append.mp hc with h | h
    · obtain ⟨d, hcd⟩ := hchI c h
      exact (digit_head c d hcd).1
    · rcases List.mem_cons.mp h with h | h
      · rw [h]; decide
      · obtain ⟨d, hcd⟩ := hchF c h
        exact (digit_head c d hcd).1
  have hp : (starts_with (I ++ 46 :: F) (cstr ("0x"))
      || starts_with (I ++ 46 :: F) (cstr ("0X"))) = false := by
    rw [Bool.eq_false_iff]
    intro h
    obtain ⟨y, t, e, hy⟩ := hex_pfx_head _ h
    rcases I with _ | ⟨a, _ | ⟨b, I2⟩⟩
    · simp at e
    · simp only [List.cons_append, List.nil_append, List.cons.injEq] at e
      omega
    · simp only [List.cons_append, List.cons.injEq] at e
      obtain ⟨d, hcd⟩ := hchI b (by simp)
      have := decval_char b d hcd
      omega
  have hdot : 46 ∈ I ++ 46 :: F := by simp
  have hdrop : (I ++ 46 :: F).dropWhile (fun c => c != 46) = 46 :: F := by
    apply dropWhile_append_stop
    · intro x hx
      obtain ⟨d, hcd⟩ := hchI x hx
      have := decval_char x d hcd
      simp only [bne_iff_ne, ne_eq]
      omega
    · simp
  have hfrac := read_fraction_digits F df 0 1 hF
  simp only [Nat.zero_mul, Nat.zero_add, Nat.one_mul, Nat.zero_mod,
    Nat.one_mod_eq_one.mpr (show (2 : Nat) ^ 32 ≠ 1 by norm_num)] at hfrac
  rw [digits_length decval F df hF] at hfrac
  have hint : (if (I ++ 46 :: F).head? = some 46 then 0 else toULONG (atol (I ++ 46 :: F)))
      = min (Nat.ofDigits 10 di.reverse) (2 ^ 31 - 1) := by
    cases I with
    | nil =>
      cases di with
      | nil => simp [Nat.ofDigits]
      | cons d t => simp at hI
    | cons a I2 =>
      have hne : ¬ ((a :: I2 ++ 46 :: F).head? = some 46) := by
        simp only [List.cons_append, List.head?_cons, Option.some.injEq]
        obtain ⟨d, hcd⟩ := hchI a (List.mem_cons_self _ _)
        have := decval_char a d hcd
        omega
      rw [if_neg hne, toULONG_atol_unsigned]
      · have := read_digits_stop decval 10 (46 :: F) (fun c hc => by
          simp only [List.head?_cons, Option.some.injEq] at hc
          rw [← hc]; exact h46) (a :: I2) di 0 hI
        simp only [Nat.zero_mul, Nat.zero_add] at this
        rw [this]
      · intro c hc
        simp only [List.cons_append, List.head?_cons, Option.some.injEq] at hc
        obtain ⟨d, hcd⟩ := hchI a (List.mem_cons_self _ _)
        rw [← hc]
        exact digit_head a d hcd
  unfold convert_to_16bit_rgb
  simp only [hclean, hp, Bool.false_eq_true, if_false, hdot, if_true, hdrop, List.drop_succ_cons,
    List.drop_zero, hfrac, hint]

set_option maxRecDepth 100000 in
/-- C24 (as stated, refuted): on `0.99` the digits after the point are the
numerator 99 over the denominator 10^2; `99 * 65535 / 100` is 64879.65, which
rounds to 64880, and `convert_to_16bit_rgb` returns 64879: the quotient of the
integer division. -/
theorem C24_counterexample :
    (cstr ("0")).map decval = [0].map some ∧ (cstr ("99")).map decval = [9, 9].map some ∧
    cstr ("0.99") = cstr ("0") ++ 46 :: cstr ("99") ∧
    Nat.ofDigits 10 [0].reverse = 0 ∧ Nat.ofDigits 10 [9, 9].reverse = 99 ∧
    round_div (99 * 65535) (10 ^ 2) = 64880 ∧
    convert_to_16bit_rgb (cstr ("0.99")) = 64879 := by
  refine ⟨by decide, by decide, by decide, ?_, ?_, by decide, by decide⟩ <;> simp [Nat.ofDigits]

/-- C24 (amended): for every token of at most 31 characters made of decimal
digits `I` (possibly none: a bare leading point counts as integer part 0), a
point, and `k` decimal digits `F` that denote `n`: if the integer part is
`≥ 1` the result of `convert_to_16bit_rgb` is `0xFFFF` (for an integer part
above `LONG_MAX`, with `atol` clamping as `strtol` does); if it is 0, `k ≤ 9`
and `n * 65535 < 2^32` (in particular whenever `k ≤ 4`), the result is the
quotient of the integer division of `n * 65535` by `10^k`, which is the
rounded value or one less. -/
theorem C24_point_tokens (I F : CStr) (di df : List Nat)
    (hI : I.map decval = di.map some) (hF : F.map decval = df.map some)
    (hlen : (I ++ 46 :: F).length ≤ 31) :
    (1 ≤ Nat.ofDigits 10 di.reverse → convert_to_16bit_rgb (I ++ 46 :: F) = 0xFFFF) ∧
    (Nat.ofDigits 10 di.reverse = 0 → F.length ≤ 9 →
      Nat.ofDigits 10 df.reverse * 65535 < 2 ^ 32 →
      convert_to_16bit_rgb (I ++ 46 :: F) = Nat.ofDigits 10 df.reverse * 65535 / 10 ^ F.length ∧
      convert_to_16bit_rgb (I ++ 46 :: F)
        ≤ round_div (Nat.ofDigits 10 df.reverse * 65535) (10 ^ F.length) ∧
      round_div (Nat.ofDigits 10 df.reverse * 65535) (10 ^ F.length)
        ≤ convert_to_16bit_rgb (I ++ 46 :: F) + 1) ∧
    (Nat.ofDigits 10 di.reverse = 0 → F.length ≤ 4 →
      convert_to_16bit_rgb (I ++ 46 :: F)
        = Nat.ofDigits 10 df.reverse * 65535 / 10 ^ F.length) := by
  have hn := decimal_lt_pow F df hF
  have hpos : 0 < 10 ^ F.length := by positivity
  have key : Nat.ofDigits 10 di.reverse = 0 → F.length ≤ 9 →
      Nat.ofDigits 10 df.reverse * 65535 < 2 ^ 32 →
      convert_to_16bit_rgb (I ++ 46 :: F)
        = Nat.ofDigits 10 df.reverse * 65535 / 10 ^ F.length := by
    intro hi hk hm
    rw [convert_point_token I F di df hI hF hlen, hi, if_neg (by omega)]
    have h10 : 10 ^ F.length ≤ 10 ^ 9 := Nat.pow_le_pow_right (by norm_num) hk
    rw [Nat.mod_eq_of_lt (show Nat.ofDigits 10 df.reverse < 2 ^ 32 by omega),
      Nat.mod_eq_of_lt hm, Nat.mod_eq_of_lt (show 10 ^ F.length < 2 ^ 32 by omega)]
    apply Nat.mod_eq_of_lt
    have : Nat.ofDigits 10 df.reverse * 65535 / 10 ^ F.length < 65535 := by
      rw [Nat.div_lt_iff_lt_mul hpos]
      calc Nat.ofDigits 10 df.reverse * 65535 < 10 ^ F.length * 65535 :=
            Nat.mul_lt_mul_of_pos_right hn (by norm_num)
        _ = 65535 * 10 ^ F.length := Nat.mul_comm _ _
    omega
  refine ⟨?_, ?_, ?_⟩
  · intro hi
    rw [convert_point_token I F di df hI hF hlen, if_pos (by omega)]
  · intro hi hk hm
    have hr := round_div_floor (Nat.ofDigits 10 df.reverse * 65535) (10 ^ F.length) hpos
    rw [key hi hk hm]
    exact ⟨rfl, hr.1, hr.2⟩
  · intro hi hk
    have h10 : 10 ^ F.length ≤ 10 ^ 4 := Nat.pow_le_pow_right (by norm_num) hk
    exact key hi (by omega) (by omega)

set_option maxRecDepth 100000 in
/-- Witness of C24 (amended): `1.0` gives 0xFFFF, and `.25` gives
`25 * 65535 / 100`, which is 16383. -/
theorem C24_point_tokens_witness :
    (cstr ("1")).map decval = [1].map some ∧ (cstr ("0")).map decval = [0].map some ∧
    1 ≤ Nat.ofDigits 10 [1].reverse ∧
    convert_to_16bit_rgb (cstr ("1") ++ 46 :: cstr ("0")) = 0xFFFF ∧
    ([] : CStr).map decval = ([] : List Nat).map some ∧
    (cstr ("25")).map decval = [2, 5].map some ∧
    Nat.ofDigits 10 ([] : List Nat).reverse = 0 ∧ Nat.ofDigits 10 [2, 5].reverse = 25 ∧
    convert_to_16bit_rgb ([] ++ 46 :: cstr ("25"))
      = Nat.ofDigits 10 [2, 5].reverse * 65535 / 10 ^ (cstr ("25")).length ∧
    25 * 65535 / 10 ^ 2 = 16383 :=
  ⟨by decide, by decide, by simp [Nat.ofDigits],
    (C24_point_tokens (cstr ("1")) (cstr ("0")) [1] [0] (by decide) (by decide) (by decide)).1
      (by simp [Nat.ofDigits]),
    by decide, by decide, by simp [Nat.ofDigits], by simp [Nat.ofDigits],
    (C24_point_tokens [] (cstr ("25")) [] [2, 5] (by decide) (by decide) (by decide)).2.2
      (by simp [Nat.ofDigits]) (by decide),
    by decide⟩

/-! ## Tokens of no recognised form -/

/-- The work buffer holds no white space. -/
theorem clean_input_nospace (t : CStr) : ∀ c ∈ clean_input t, isspace c = false := by
  intro c hc
  unfold clean_input at hc
  have := (List.mem_filter.mp (List.mem_of_mem_take hc)).2
  simpa using this

/-- C `atol` on a string without leading white space whose first byte after an
optional sign is not a decimal digit. -/
theorem atol_no_digits (s : CStr) (hs : ∀ c ∈ s, isspace c = false)
    (h : (read_sign s).2.head?.bind decval = none) : atol s = 0 := by
  have hdrop : s.dropWhile isspace = s := by
    cases s with
    | nil => rfl
    | cons c t => simp [List.dropWhile_cons, hs c (List.mem_cons_self _ _)]
  have hv : read_digits decval 10 (read_sign s).2 0 = 0 := by
    have := read_digits_stop decval 10 (read_sign s).2 (fun c hc => by
      rw [hc] at h; exact h) [] [] 0 rfl
    simpa using this
  unfold atol
  simp only [hdrop, hv]
  split <;> simp

set_option maxRecDepth 100000 in
/-- C25 (as stated, refuted): `12abc`, `x.5` and `-5` are none of the
recognised forms, and `convert_to_16bit_rgb` returns 0x0c0c, 0x7fff and 0xffff
on them: the leading digits are read and the rest is ignored, the digits after
the point are read whatever stands before it, and a negative number wraps. -/
theorem C25_counterexample :
    convert_to_16bit_rgb (cstr ("12abc")) = 0x0c0c ∧
    convert_to_16bit_rgb (cstr ("x.5")) = 0x7fff ∧
    convert_to_16bit_rgb (cstr ("-5")) = 0xffff := by
  decide

/-- C25 (amended): `convert_to_16bit_rgb` never fails: every token yields a
16-bit value; and every token in which, white space removed and cut to 31
bytes, no decimal digit stands at the head (after an optional sign) and no
decimal digit stands right after the first point (if there is one) - for
example the empty token or a non-numeric word - yields intensity 0. -/
theorem C25_never_fails (t : CStr) :
    convert_to_16bit_rgb t < 65536 ∧
    ((read_sign (clean_input t)).2.head?.bind decval = none →
      (((clean_input t).dropWhile (fun c => c != 46)).drop 1).head?.bind decval = none →
      convert_to_16bit_rgb t = 0) := by
  refine ⟨convert_lt t, ?_⟩
  intro h1 h2
  have hat := atol_no_digits (clean_input t) (clean_input_nospace t) h1
  have hp : (starts_with (clean_input t) (cstr ("0x"))
      || starts_with (clean_input t) (cstr ("0X"))) = false := by
    rw [Bool.eq_false_iff]
    intro h
    obtain ⟨y, r, e, hy⟩ := hex_pfx_head _ h
    rw [e] at h1
    simp [read_sign, decval] at h1
  have hfr := read_fraction_stop (((clean_input t).dropWhile (fun c => c != 46)).drop 1) 0 1
    (fun c hc => by rw [hc] at h2; exact h2)
  have hz : toULONG 0 = 0 := by decide
  have hb : byte_double 0 = 0 := by decide
  unfold convert_to_16bit_rgb
  simp only [hp, Bool.false_eq_true, if_false, hat, hz, hfr, ite_self]
  split
  · simp
  · simp [hb]

set_option maxRecDepth 100000 in
/-- Witness of C25 (amended): the empty token, the word `abc` and a lone
point yield 0. -/
theorem C25_never_fails_witness :
    (read_sign (clean_input [])).2.head?.bind decval = none ∧
    convert_to_16bit_rgb [] = 0 ∧
    (read_sign (clean_input (cstr ("abc")))).2.head?.bind decval = none ∧
    convert_to_16bit_rgb (cstr ("abc")) = 0 ∧
    convert_to_16bit_rgb (cstr (".")) = 0 :=
  ⟨by decide, (C25_never_fails []).2 (by decide) (by decide),
    by decide, (C25_never_fails (cstr ("abc"))).2 (by decide) (by decide),
    (C25_never_fails (cstr ("."))).2 (by decide) (by decide)⟩

/-! ## The divisor of the fraction -/

/-- The divisor after the loop that reads the fraction is the start value
times a power of ten, with as many factors as digits read, modulo `2^32`. -/
theorem read_fraction_divisor (s : CStr) :
    ∀ (a b : Nat), ∃ k, k ≤ s.length ∧
      (read_fraction s a (b % 2 ^ 32)).2 = (b * 10 ^ k) % 2 ^ 32 := by
  induction s with
  | nil =>
    intro a b
    exact ⟨0, Nat.le_refl _, by simp [read_fraction]⟩
  | cons c rest ih =>
    intro a b
    rw [read_fraction]
    split
    · obtain ⟨k, hk, e⟩ := ih ((a * 10 + (c - 48)) % 2 ^ 32) (b * 10)
      have e2 : (b % 2 ^ 32 * 10) % 2 ^ 32 = (b * 10) % 2 ^ 32 := by omega
      refine ⟨k + 1, by simp only [List.length_cons]; omega, ?_⟩
      rw [e2, e, pow_succ]
      congr 1
      ring
    · exact ⟨0, Nat.zero_le _, by simp⟩

/-- A power of ten with at most 30 factors is not a multiple of `2^32`. -/
theorem pow10_mod_ne_zero (k : Nat) (h : k ≤ 30) : 10 ^ k % 2 ^ 32 ≠ 0 := by
  interval_cases k <;> decide

/-- The text after the first point of the work buffer has at most 30 bytes. -/
theorem fraction_text_length (input : CStr) :
    (((clean_input input).dropWhile (fun c => c != 46)).drop 1).length ≤ 30 := by
  have h1 : (clean_input input).length ≤ 31 := by
    unfold clean_input
    rw [List.length_take]
    omega
  have h2 : ((clean_input input).dropWhile (fun c => c != 46)).length
      ≤ (clean_input input).length :=
    (List.dropWhile_sublist _).length_le
  rw [List.length_drop]
  omega

/-- C33: for every input string, the divisor the fractional path of
`convert_to_16bit_rgb` divides by (the power of ten built in 32-bit unsigned
arithmetic while the digits after the first point are read) is not zero; and
whenever the input has no `0x` prefix and has a point, the result is `0xFFFF`
or the quotient by that divisor. -/
theorem C33_divisor_nonzero (input : CStr) :
    (read_fraction (((clean_input input).dropWhile (fun c => c != 46)).drop 1) 0 1).2 ≠ 0 ∧
    ((starts_with (clean_input input) (cstr ("0x"))
        || starts_with (clean_input input) (cstr ("0X"))) = false →
      46 ∈ clean_input input →
      convert_to_16bit_rgb input = 0xFFFF ∨
      convert_to_16bit_rgb input
        = (((read_fraction (((clean_input input).dropWhile (fun c => c != 46)).drop 1) 0 1).1
            * 65535) % 2 ^ 32
          / (read_fraction (((clean_input input).dropWhile (fun c => c != 46)).drop 1) 0 1).2)
          % 2 ^ 16) := by
  constructor
  · obtain ⟨k, hk, e⟩ := read_fraction_divisor
      (((clean_input input).dropWhile (fun c => c != 46)).drop 1) 0 1
    have e1 : (1 : Nat) % 2 ^ 32 = 1 := by norm_num
    rw [e1] at e
    rw [e, Nat.one_mul]
    exact pow10_mod_ne_zero k (Nat.le_trans hk (fraction_text_length input))
  · intro hp hdot
    have key : ∀ (i X : Nat), (if i ≥ 1 then 0xFFFF else X) = 0xFFFF
        ∨ (if i ≥ 1 then 0xFFFF else X) = X := by
      intro i X
      by_cases h : i ≥ 1
      · left; rw [if_pos h]
      · right; rw [if_neg h]
    unfold convert_to_16bit_rgb
    simp only [hp, Bool.false_eq_true, if_false, hdot, if_true]
    exact key _ _

set_option maxRecDepth 100000 in
/-- Witness of C33 on `0.5`: the divisor is 10 and the result is
`5 * 65535 / 10`. -/
theorem C33_divisor_nonzero_witness :
    (starts_with (clean_input (cstr ("0.5"))) (cstr ("0x"))
        || starts_with (clean_input (cstr ("0.5"))) (cstr ("0X"))) = false ∧
    46 ∈ clean_input (cstr ("0.5")) ∧
    read_fraction (((clean_input (cstr ("0.5"))).dropWhile (fun c => c != 46)).drop 1) 0 1
      = (5, 10) ∧
    (convert_to_16bit_rgb (cstr ("0.5")) = 0xFFFF ∨
      convert_to_16bit_rgb (cstr ("0.5"))
        = (((read_fraction (((clean_input (cstr ("0.5"))).dropWhile
              (fun c => c != 46)).drop 1) 0 1).1 * 65535) % 2 ^ 32
          / (read_fraction (((clean_input (cstr ("0.5"))).dropWhile
              (fun c => c != 46)).drop 1) 0 1).2) % 2 ^ 16) :=
  ⟨by decide, by decide, by decide,
    (C33_divisor_nonzero (cstr ("0.5"))).2 (by decide) (by decide)⟩

/-! ## The 8-bit value of a channel -/

/-- The high byte of a doubled byte is the byte. -/
theorem to_8bit_double (n : Nat) (h : n ≤ 255) : to_8bit (257 * n) = n := by
  unfold to_8bit
  rw [Nat.shiftRight_eq_div_pow]
  have : (257 * n / 2 ^ 8) &&& 0xFF = (257 * n / 2 ^ 8) % 2 ^ 8 :=
    Nat.and_pow_two_sub_one_eq_mod _ 8
  rw [this]
  have e : (2 : Nat) ^ 8 = 256 := by norm_num
  have hb : 257 * n / 256 = n := by omega
  rw [e, hb]
  exact Nat.mod_eq_of_lt (by omega)

/-- The decimal text of `n` is made of decimal digit characters that denote
`n`. -/
theorem decimal_text_digits (n : Nat) :
    ∃ ds : List Nat, (decimal_text n).map decval = ds.map some ∧ Nat.ofDigits 10 ds.reverse = n ∧
      (n ≠ 0 → (decimal_text n).length = (Nat.digits 10 n).length) := by
  by_cases h0 : n = 0
  · subst h0
    exact ⟨[0], by decide, by simp [Nat.ofDigits], fun h => absurd rfl h⟩
  · refine ⟨(Nat.digits 10 n).reverse, ?_, ?_, ?_⟩
    · unfold decimal_text
      rw [if_neg h0, List.map_map]
      apply List.map_congr_left
      intro d hd
      have hlt : d < 10 := Nat.digits_lt_base (by norm_num) (List.mem_reverse.mp hd)
      simp only [Function.comp, decval]
      rw [if_pos (by omega)]
      congr 1
      omega
    · rw [List.reverse_reverse, Nat.ofDigits_digits]
    · intro _
      unfold decimal_text
      rw [if_neg h0, List.length_map, List.length_reverse]

/-- C38: for every integer `n` in 0..255, the 8-bit value `(v >> 8) & 0xFF`
derived from `v = convert_to_16bit_rgb` of the decimal text of `n` equals `n`,
and so does the one derived from the two-digit hexadecimal text `0xhh` of
`n`. -/
theorem C38_high_byte (n : Nat) (h : n ≤ 255) :
    to_8bit (convert_to_16bit_rgb (decimal_text n)) = n ∧
    to_8bit (convert_to_16bit_rgb (hex2_text n)) = n := by
  constructor
  · obtain ⟨ds, hd, hv, hl⟩ := decimal_text_digits n
    have hlen : (decimal_text n).length ≤ 31 := by
      by_cases h0 : n = 0
      · subst h0; decide
      · rw [hl h0]
        have h3 : (Nat.digits 10 255).length = 3 := by norm_num
        have := Nat.le_digits_len_le 10 n 255 h
        omega
    rw [convert_decimal_token (decimal_text n) ds hd hlen, hv, Nat.min_eq_left h]
    exact to_8bit_double n h
  · have hd : [hexdigit (n / 16 % 16), hexdigit (n % 16)].map hexval
        = [n / 16 % 16, n % 16].map some := by
      simp only [List.map_cons, List.map_nil,
        hexval_hexdigit _ (Nat.mod_lt _ (show 0 < 16 by norm_num))]
    have hv : Nat.ofDigits 16 [n / 16 % 16, n % 16].reverse = n := by
      simp [Nat.ofDigits]
      omega
    have hc := convert_hex_token 120 [hexdigit (n / 16 % 16), hexdigit (n % 16)]
      [n / 16 % 16, n % 16] (Or.inl rfl) hd (by simp) (by rw [hv]; omega)
    rw [hv, if_pos (by omega)] at hc
    have e : hex2_text n = 48 :: 120 :: [hexdigit (n / 16 % 16), hexdigit (n % 16)] := rfl
    rw [e, hc]
    exact to_8bit_double n h

set_option maxRecDepth 100000 in
/-- Witness of C38 at `n = 200`: the texts are `200` and `0xc8`. -/
theorem C38_high_byte_witness :
    decimal_text 200 = cstr ("200") ∧ hex2_text 200 = cstr ("0xc8") ∧
    to_8bit (convert_to_16bit_rgb (decimal_text 200)) = 200 ∧
    to_8bit (convert_to_16bit_rgb (hex2_text 200)) = 200 :=
  ⟨by simp [decimal_text, cstr], by decide, C38_high_byte 200 (by decide)⟩

/-! ## The load flag read back by `convert_to_ansi_colors` -/

/-- C `strstr` finds a needle that is there. -/
theorem strstr_found (needle b : CStr) :
    ∀ a : CStr, (strstr (a ++ needle ++ b) needle).isSome = true := by
  have base : (strstr (needle ++ b) needle).isSome = true := by
    cases h : needle ++ b with
    | nil =>
      have : needle = [] := (List.append_eq_nil.mp h).1
      simp [strstr, this]
    | cons c t =>
      rw [strstr, ← h, List.take_left, if_pos rfl]
      rfl
  intro a
  induction a with
  | nil => simpa using base
  | cons x a ih =>
    simp only [List.cons_append]
    rw [strstr]
    split
    · rfl
    · simpa using ih

/-- The load flag stored for a parsed entry is the result of
`strstr(line, "LOAD")`. -/
theorem parse_ansi_entry_load (line : CStr) (old c : AnsiColor)
    (h : parse_ansi_entry line old = some c) :
    c.load_flag = (strstr line (cstr ("LOAD"))).isSome := by
  unfold parse_ansi_entry at h
  split at h
  · exact absurd h (by simp)
  · split at h
    · exact absurd h (by simp)
    · split at h
      · exact absurd h (by simp)
      · split at h
        · exact absurd h (by simp)
        · rw [← Option.some.inj h]

/-- Every parsed entry whose line holds the token `NOLOAD` gets the load flag
`TRUE`. -/
theorem parse_ansi_entry_noload (pre post : CStr) (old c : AnsiColor)
    (h : parse_ansi_entry (pre ++ cstr ("NOLOAD") ++ post) old = some c) :
    c.load_flag = true := by
  rw [parse_ansi_entry_load _ old c h]
  have e : pre ++ cstr ("NOLOAD") ++ post = (pre ++ cstr ("NO")) ++ cstr ("LOAD") ++ post := by
    simp [cstr]
  rw [e]
  exact strstr_found _ _ _

set_option maxRecDepth 100000 in
/-- C36 (the code at the failing input): every color record of the default
document has the load token `NOLOAD`, and `convert_to_ansi_colors` sets
`load_flag` to `TRUE` for all 16 colors: `strstr(line, "LOAD")` finds `LOAD`
inside `NOLOAD`. -/
theorem C36_noload_read_as_load :
    generate_default_colors no_overrides
      = cstr ("CURSORCOLOR=NOLOAD,NOANSI,0x0000,0x0000,0x0000")
        :: List.replicate 16 (cstr ("COLOR=NOLOAD,NOANSI,0x0000,0x0000,0x0000")) ∧
    (convert_to_ansi_colors (generate_default_colors no_overrides)).map
        (fun c => c.load_flag) = List.replicate 16 true ∧
    strstr (cstr ("COLOR=NOLOAD,NOANSI,0x0000,0x0000,0x0000")) (cstr ("LOAD"))
      = some (cstr ("LOAD,NOANSI,0x0000,0x0000,0x0000")) := by
  decide

/-! ## The closest pen -/

/-- The distance of two colors is at most `3 * 255^2`. -/
theorem calculate_color_distance_le (r1 g1 b1 r2 g2 b2 : Nat) :
    calculate_color_distance r1 g1 b1 r2 g2 b2 ≤ 195075 := by
  have sq : ∀ (x y : Nat), x < 256 → y < 256 →
      0 ≤ ((x : Int) - y) * ((x : Int) - y) ∧ ((x : Int) - y) * ((x : Int) - y) ≤ 65025 := by
    intro x y hx hy
    constructor
    · exact mul_self_nonneg _
    · have h1 : -255 ≤ (x : Int) - y := by omega
      have h2 : (x : Int) - y ≤ 255 := by omega
      nlinarith
  have hr := sq (r1 % 256) (r2 % 256) (Nat.mod_lt _ (by norm_num)) (Nat.mod_lt _ (by norm_num))
  have hg := sq (g1 % 256) (g2 % 256) (Nat.mod_lt _ (by norm_num)) (Nat.mod_lt _ (by norm_num))
  have hb := sq (b1 % 256) (b2 % 256) (Nat.mod_lt _ (by norm_num)) (Nat.mod_lt _ (by norm_num))
  unfold calculate_color_distance toULONG
  simp only
  omega

/-- The state of the loop of `find_closest_pen` after the pens `0 .. n`: the
best pen is the first one at the least distance. -/
theorem find_closest_pen_loop (colormap : Nat → Nat × Nat × Nat) (red green blue : Nat) :
    ∀ (n : Nat) (st : Nat × Nat),
      st = (List.range (n + 1)).foldl (pen_step colormap red green blue) (0, 0xFFFFFFFF) →
      st.1 ≤ n ∧ st.2 = pen_distance colormap red green blue st.1 ∧
      (∀ p, p ≤ n → st.2 ≤ pen_distance colormap red green blue p) ∧
      (∀ p, p < st.1 → st.2 < pen_distance colormap red green blue p) := by
  have hstep : ∀ (st : Nat × Nat) (pen : Nat), pen_step colormap red green blue st pen
      = if pen_distance colormap red green blue pen < st.2
        then (pen, pen_distance colormap red green blue pen) else st := fun _ _ => rfl
  intro n
  induction n with
  | zero =>
    intro st hst
    have hd : pen_distance colormap red green blue 0 ≤ 195075 :=
      calculate_color_distance_le _ _ _ _ _ _
    have e : (List.range (0 + 1)).foldl (pen_step colormap red green blue) (0, 0xFFFFFFFF)
        = (0, pen_distance colormap red green blue 0) := by
      have e0 : List.range (0 + 1) = [0] := rfl
      rw [e0, List.foldl_cons, List.foldl_nil, hstep, if_pos (by show _ < 4294967295; omega)]
    rw [e] at hst
    subst hst
    refine ⟨Nat.le_refl _, rfl, ?_, ?_⟩
    · intro p hp
      have : p = 0 := by omega
      rw [this]
    · intro p hp
      exact absurd hp (Nat.not_lt_zero p)
  | succ n ih =>
    intro st hst
    rw [List.range_succ, List.foldl_append] at hst
    have ih0 := ih _ rfl
    generalize (List.range (n + 1)).foldl (pen_step colormap red green blue) (0, 0xFFFFFFFF)
      = st0 at ih0 hst
    obtain ⟨h1, h2, h3, h4⟩ := ih0
    rw [List.foldl_cons, List.foldl_nil, hstep] at hst
    by_cases hlt : pen_distance colormap red green blue (n + 1) < st0.2
    · rw [if_pos hlt] at hst
      subst hst
      refine ⟨Nat.le_refl _, rfl, ?_, ?_⟩
      · intro p hp
        by_cases hpn : p ≤ n
        · have := h3 p hpn
          show pen_distance colormap red green blue (n + 1) ≤ _
          omega
        · have : p = n + 1 := by omega
          rw [this]
      · intro p hp
        have hp2 : p < n + 1 := hp
        have := h3 p (by omega)
        show pen_distance colormap red green blue (n + 1) < _
        omega
    · rw [if_neg hlt] at hst
      subst hst
      refine ⟨by omega, h2, ?_, h4⟩
      intro p hp
      by_cases hpn : p ≤ n
      · exact h3 p hpn
      · have : p = n + 1 := by omega
        rw [this]
        omega

/-- On a screen of depth at most 7 `find_closest_pen` returns a pen below `2^d`
at the least distance among the `2^d` pens, the lowest-numbered one on ties. -/
theorem find_closest_pen_minimal (d : Nat) (hd7 : d ≤ 7)
    (colormap : Nat → Nat × Nat × Nat) (red green blue : Nat) :
    find_closest_pen (init_available_pens d) colormap red green blue < 2 ^ d ∧
    (∀ p, p < 2 ^ d →
      pen_distance colormap red green blue
          (find_closest_pen (init_available_pens d) colormap red green blue)
        ≤ pen_distance colormap red green blue p) ∧
    (∀ p, p < find_closest_pen (init_available_pens d) colormap red green blue →
      pen_distance colormap red green blue
          (find_closest_pen (init_available_pens d) colormap red green blue)
        < pen_distance colormap red green blue p) := by
  have hpow : init_available_pens d = (2 ^ d - 1) + 1 := by
    unfold init_available_pens
    rw [Nat.shiftLeft_eq, Nat.one_mul]
    have h1 : 2 ^ d ≤ 2 ^ 7 := Nat.pow_le_pow_right (by norm_num) hd7
    have h2 : 0 < 2 ^ d := by positivity
    rw [Nat.mod_eq_of_lt (by omega)]
    omega
  have h2 : 0 < 2 ^ d := by positivity
  obtain ⟨k1, k2, k3, k4⟩ := find_closest_pen_loop colormap red green blue (2 ^ d - 1) _ rfl
  unfold find_closest_pen
  rw [hpow]
  refine ⟨by omega, ?_, ?_⟩
  · intro p hp
    rw [← k2]
    exact k3 p (by omega)
  · intro p hp
    rw [← k2]
    exact k4 p hp

set_option maxRecDepth 100000 in
/-- C37 (the code at the failing input): on a screen of depth 8
`available_pens`, a `UBYTE`, receives `1 << 8` and holds 0, so the loop of
`find_closest_pen` is not entered and the result is pen 0 for every color map
and every color; with white at pen 1 and black at pen 0, the pen returned for
white is pen 0, at distance 195075, not pen 1, at distance 0. -/
theorem C37_depth_8_no_pens :
    init_available_pens 8 = 0 ∧
    (∀ (colormap : Nat → Nat × Nat × Nat) (red green blue : Nat),
      find_closest_pen (init_available_pens 8) colormap red green blue = 0) ∧
    find_closest_pen (init_available_pens 8) sample_colormap 255 255 255 = 0 ∧
    pen_distance sample_colormap 255 255 255 0 = 195075 ∧
    pen_distance sample_colormap 255 255 255 1 = 0 := by
  refine ⟨by decide, ?_, by decide, by decide, by decide⟩
  intro colormap red green blue
  rfl

/-! ## Signed decimal tokens -/

/-- Conversion of a token made of a sign and decimal digits that fits the work
buffer: with `+` the digits are read as without it, with `-` every value but
0 wraps in the `ULONG` and is clamped to 255. -/
theorem convert_signed_token (sign : Nat) (chars : CStr) (ds : List Nat)
    (hs : sign = 45 ∨ sign = 43) (hd : chars.map decval = ds.map some)
    (hlen : (sign :: chars).length ≤ 31) :
    convert_to_16bit_rgb (sign :: chars)
      = if sign = 45 then (if Nat.ofDigits 10 ds.reverse = 0 then 0 else 0xFFFF)
        else 257 * min (Nat.ofDigits 10 ds.reverse) 255 := by
  have hch := digit_chars decval chars ds hd
  have hsp : isspace sign = false := by
    rcases hs with h | h <;> · rw [h]; decide
  have hval := read_digits_value decval 10 chars ds 0 hd
  simp only [Nat.zero_mul, Nat.zero_add] at hval
  have hb255 : byte_double 255 = 65535 := by decide
  have hdrop : (sign :: chars).dropWhile isspace = sign :: chars := by
    simp [List.dropWhile_cons, hsp]
  have hclean : clean_input (sign :: chars) = sign :: chars := by
    apply clean_input_id _ _ hlen
    intro c hc
    rcases List.mem_cons.mp hc with h | h
    · rw [h]; exact hsp
    · obtain ⟨d, hcd⟩ := hch c h
      exact (digit_head c d hcd).1
  have hp : (starts_with (sign :: chars) (cstr ("0x"))
      || starts_with (sign :: chars) (cstr ("0X"))) = false := by
    rw [Bool.eq_false_iff]
    intro h
    obtain ⟨y, t, e, hy⟩ := hex_pfx_head _ h
    have := (List.cons.inj e).1
    omega
  have hdot : 46 ∉ sign :: chars := by
    intro h
    rcases List.mem_cons.mp h with h | h
    · omega
    · obtain ⟨d, hcd⟩ := hch 46 h
      have := decval_char 46 d hcd
      omega
  generalize hv : Nat.ofDigits 10 ds.reverse = v at hval ⊢
  have hat : toULONG (atol (sign :: chars))
      = if sign = 45 then (if v = 0 then 0 else if v > 2 ^ 31 then 2 ^ 31 else 2 ^ 32 - v)
        else min v (2 ^ 31 - 1) := by
    unfold atol
    rw [hdrop]
    rcases hs with h | h
    · subst h
      have e : read_sign (45 :: chars) = (true, chars) := rfl
      simp only [e, hval, if_true]
      by_cases h0 : v = 0
      · subst h0
        simp [toULONG]
      · rw [if_neg h0]
        by_cases hbig : v > 2 ^ 31
        · rw [if_pos hbig, if_pos hbig]
          unfold toULONG
          omega
        · rw [if_neg hbig, if_neg hbig]
          unfold toULONG
          omega
    · subst h
      have e : read_sign (43 :: chars) = (false, chars) := rfl
      have hne : ¬ ((43 : Nat) = 45) := by decide
      simp only [e, hval, Bool.false_eq_true, if_false, if_neg hne]
      by_cases hbig : v > 2 ^ 31 - 1
      · rw [if_pos hbig]
        unfold toULONG
        omega
      · rw [if_neg hbig]
        unfold toULONG
        omega
  unfold convert_to_16bit_rgb
  simp only [hclean, hp, Bool.false_eq_true, if_false, hdot, hat]
  rcases hs with h | h
  · subst h
    simp only [if_true]
    by_cases h0 : v = 0
    · rw [if_pos h0, if_pos h0]
      decide
    · rw [if_neg h0, if_neg h0]
      by_cases hbig : v > 2 ^ 31
      · rw [if_pos hbig, if_pos (by norm_num), hb255]
      · rw [if_neg hbig, if_pos (by omega), hb255]
  · subst h
    have hne : ¬ ((43 : Nat) = 45) := by decide
    simp only [if_neg hne]
    by_cases h255 : v ≤ 255
    · have e1 : min v (2 ^ 31 - 1) = v := by omega
      have e2 : min v 255 = v := by omega
      rw [e1, e2, if_neg (by omega), byte_double_eq _ h255]
    · have e1 : min v (2 ^ 31 - 1) > 255 := by omega
      have e2 : min v 255 = 255 := by omega
      rw [if_pos e1, e2, hb255]

set_option maxRecDepth 100000 in
/-- C35 (as stated, refuted): `-5` and `0` are the texts of the integers -5
and 0, -5 is below 0, and `convert_to_16bit_rgb` returns 0xFFFF on `-5` and 0
on `0`: the negative value is stored in an unsigned variable and clamped to
255. -/
theorem C35_counterexample :
    atol (cstr ("-5")) = -5 ∧ atol (cstr ("0")) = 0 ∧ (-5 : Int) ≤ 0 ∧
    toULONG (atol (cstr ("-5"))) = 4294967291 ∧
    convert_to_16bit_rgb (cstr ("-5")) = 0xFFFF ∧
    convert_to_16bit_rgb (cstr ("0")) = 0 ∧
    ¬ (convert_to_16bit_rgb (cstr ("-5")) ≤ convert_to_16bit_rgb (cstr ("0"))) := by
  decide

/-- C35 (amended): over decimal integer tokens of at most 31 characters
without a minus sign, `convert_to_16bit_rgb` is monotone non-decreasing in the
integer value: for digit strings that denote `m ≤ n` the result for the first
is at most the result for the second, and a leading `+` changes nothing; the
text of a negative integer `-m` with `m ≥ 1` yields 0xFFFF, the largest
result (for values beyond `LONG_MAX`, with `atol` clamping as `strtol` does). -/
theorem C35_monotone_unsigned (c1 c2 : CStr) (ds1 ds2 : List Nat)
    (h1 : c1.map decval = ds1.map some) (h2 : c2.map decval = ds2.map some)
    (hl1 : c1.length ≤ 31) (hl2 : c2.length ≤ 31)
    (hle : Nat.ofDigits 10 ds1.reverse ≤ Nat.ofDigits 10 ds2.reverse) :
    convert_to_16bit_rgb c1 ≤ convert_to_16bit_rgb c2 ∧
    ((43 :: c1).length ≤ 31 → convert_to_16bit_rgb (43 :: c1) = convert_to_16bit_rgb c1) ∧
    ((45 :: c1).length ≤ 31 → 1 ≤ Nat.ofDigits 10 ds1.reverse →
      convert_to_16bit_rgb (45 :: c1) = 0xFFFF) ∧
    convert_to_16bit_rgb c2 ≤ 0xFFFF := by
  have e1 := convert_decimal_token c1 ds1 h1 (by omega)
  have e2 := convert_decimal_token c2 ds2 h2 (by omega)
  have hmin : min (Nat.ofDigits 10 ds1.reverse) 255 ≤ min (Nat.ofDigits 10 ds2.reverse) 255 :=
    min_le_min hle (Nat.le_refl _)
  have hmax : min (Nat.ofDigits 10 ds2.reverse) 255 ≤ 255 := Nat.min_le_right _ _
  refine ⟨?_, ?_, ?_, ?_⟩
  · rw [e1, e2]
    exact Nat.mul_le_mul_left 257 hmin
  · intro hl
    rw [convert_signed_token 43 c1 ds1 (Or.inr rfl) h1 hl, e1, if_neg (by decide)]
  · intro hl hpos
    rw [convert_signed_token 45 c1 ds1 (Or.inl rfl) h1 hl, if_pos rfl, if_neg (by omega)]
  · rw [e2]
    omega

set_option maxRecDepth 100000 in
/-- Witness of C35 (amended): `7` and `12` give 0x0707 and 0x0c0c, `+7` gives
what `7` gives, `-7` gives 0xFFFF. -/
theorem C35_monotone_unsigned_witness :
    (cstr ("7")).map decval = [7].map some ∧ (cstr ("12")).map decval = [1, 2].map some ∧
    Nat.ofDigits 10 [7].reverse ≤ Nat.ofDigits 10 [1, 2].reverse ∧
    convert_to_16bit_rgb (cstr ("7")) ≤ convert_to_16bit_rgb (cstr ("12")) ∧
    convert_to_16bit_rgb (cstr ("+7")) = convert_to_16bit_rgb (cstr ("7")) ∧
    convert_to_16bit_rgb (cstr ("-7")) = 0xFFFF :=
  ⟨by decide, by decide, by simp [Nat.ofDigits],
    (C35_monotone_unsigned (cstr ("7")) (cstr ("12")) [7] [1, 2] (by decide) (by decide)
      (by decide) (by decide) (by simp [Nat.ofDigits])).1,
    (C35_monotone_unsigned (cstr ("7")) (cstr ("12")) [7] [1, 2] (by decide) (by decide)
      (by decide) (by decide) (by simp [Nat.ofDigits])).2.1 (by decide),
    (C35_monotone_unsigned (cstr ("7")) (cstr ("12")) [7] [1, 2] (by decide) (by decide)
      (by decide) (by decide) (by simp [Nat.ofDigits])).2.2.1 (by decide)
      (by simp [Nat.ofDigits])⟩

/-! ## A target whose last line has no line feed -/

set_option maxRecDepth 1000000 in
/-- C34 (the code at the failing input): the target text is `;Colors:`, a line
feed and `FONT=topaz` with no line feed after it.  `update_prefs_file`
succeeds and the file then holds the target text directly followed by the 16
color records: the first record stands on the line of `FONT=topaz`, and read
again that line, `FONT=topazCOLOR=...`, does not pass the `COLOR=` test.  On
the target text `FONT=topaz` alone the appended marker is glued to it in the
same way. -/
theorem C34_record_glued_to_last_line :
    unterminated_fs sample_path = some (cstr (";Colors:\nFONT=topaz")) ∧
    (update_prefs_file all_ok_env unterminated_fs sample_path
        (sample_cursor :: sample_colors)).map (fun o => (o.success, o.fs sample_path))
      = some (true, some (cstr (";Colors:\nFONT=topaz")
          ++ (sample_colors.map put_entry).flatten)) ∧
    (fgets_chunks (cstr (";Colors:\nFONT=topaz") ++ (sample_colors.map put_entry).flatten) [])[1]?
      = some (cstr ("FONT=topazCOLOR=NOLOAD,NOANSI,0x0000,0x0000,0x0000\n")) ∧
    line_starts_with (cstr ("FONT=topazCOLOR=NOLOAD,NOANSI,0x0000,0x0000,0x0000\n")) COLOR_EQ
      = false ∧
    (merge_existing (fgets_chunks (cstr ("FONT=topaz")) []) (sample_cursor :: sample_colors)).flatten
      = cstr ("FONT=topaz;Colors:\n") ++ (sample_colors.map put_entry).flatten := by
  decide

/-! ## Merging twice -/

/-- The line written for a color record passes the `COLOR=` test and fails the
`CURSORCOLOR=` test. -/
theorem put_color_is_color_line (e : CStr) (h : starts_with e COLOR_EQ = true) :
    line_starts_with (put_entry e) COLOR_EQ = true ∧
    line_starts_with (put_entry e) CURSORCOLOR_EQ = false := by
  have h1 : line_starts_with (put_entry e) COLOR_EQ = true :=
    line_starts_with_append e [NL] COLOR_EQ (by decide) (by decide) (by decide)
      (rec_is_line e COLOR_EQ (by decide) (by decide) (by decide) h)
  refine ⟨h1, ?_⟩
  cases h2 : line_starts_with (put_entry e) CURSORCOLOR_EQ with
  | false => rfl
  | true =>
    have := cursor_line_not_color_line _ h2
    rw [h1] at this
    exact absurd this (by simp)

/-- Scanning the line written for a line writes the same text again and
advances the color index in the same way. -/
theorem scan_line_idem (cur : Option CStr) (cols : List CStr)
    (hcur : ∀ c, cur = some c → starts_with c CURSORCOLOR_EQ = true)
    (hcols : ∀ e ∈ cols, starts_with e COLOR_EQ = true)
    (l : CStr) (idx : Nat) (f f' : Bool) :
    (scan_line cur cols (scan_line cur cols l idx f).1 idx f').1 = (scan_line cur cols l idx f).1 ∧
    (scan_line cur cols (scan_line cur cols l idx f).1 idx f').2.1
      = (scan_line cur cols l idx f).2.1 := by
  by_cases h1 : line_starts_with l CURSORCOLOR_EQ = true
  · cases hc : cur with
    | none => simp [scan_line, h1]
    | some c =>
      have hc1 := put_cursor_is_cursor_line c (hcur c hc)
      simp [scan_line, h1, hc1]
  · have h1f : line_starts_with l CURSORCOLOR_EQ = false := by
      simpa using h1
    by_cases h2 : line_starts_with l COLOR_EQ = true
    · cases he : cols[idx]? with
      | none => simp [scan_line, h1f, h2, he]
      | some e =>
        have hmem : e ∈ cols := List.getElem?_mem he
        obtain ⟨k1, k2⟩ := put_color_is_color_line e (hcols e hmem)
        simp [scan_line, h1f, h2, he, k1, k2]
    · have h2f : line_starts_with l COLOR_EQ = false := by
        simpa using h2
      by_cases h3 : starts_with l COLORS_MARKER = true
      · simp [scan_line, h1f, h2f, h3]
      · simp [scan_line, h1f, h2f, h3]

/-- Scanning the lines written by a scan writes the same lines again and ends
at the same color index. -/
theorem scan_lines_idem (cur : Option CStr) (cols : List CStr)
    (hcur : ∀ c, cur = some c → starts_with c CURSORCOLOR_EQ = true)
    (hcols : ∀ e ∈ cols, starts_with e COLOR_EQ = true) (lines : List CStr) :
    ∀ (idx : Nat) (f f' : Bool),
      (scan_lines cur cols (scan_lines cur cols lines idx f).1 idx f').1
        = (scan_lines cur cols lines idx f).1 ∧
      (scan_lines cur cols (scan_lines cur cols lines idx f).1 idx f').2.1
        = (scan_lines cur cols lines idx f).2.1 := by
  induction lines with
  | nil => intro idx f f'; exact ⟨rfl, rfl⟩
  | cons l rest ih =>
    intro idx f f'
    obtain ⟨e1, e2⟩ := scan_line_idem cur cols hcur hcols l idx f f'
    simp only [scan_lines]
    rw [e1, e2]
    obtain ⟨i1, i2⟩ := ih (scan_line cur cols l idx f).2.1 (scan_line cur cols l idx f).2.2
      (scan_line cur cols (scan_line cur cols l idx f).1 idx f').2.2
    exact ⟨by rw [i1], i2⟩

/-- The scan of two lists one after the other. -/
theorem scan_lines_append (cur : Option CStr) (cols : List CStr) (A B : List CStr) :
    ∀ (idx : Nat) (f : Bool),
      scan_lines cur cols (A ++ B) idx f
        = ((scan_lines cur cols A idx f).1
            ++ (scan_lines cur cols B (scan_lines cur cols A idx f).2.1
                (scan_lines cur cols A idx f).2.2).1,
          (scan_lines cur cols B (scan_lines cur cols A idx f).2.1
            (scan_lines cur cols A idx f).2.2).2.1,
          (scan_lines cur cols B (scan_lines cur cols A idx f).2.1
            (scan_lines cur cols A idx f).2.2).2.2) := by
  induction A with
  | nil => intro idx f; rfl
  | cons a rest ih =>
    intro idx f
    rw [List.cons_append]
    simp only [scan_lines]
    rw [ih]
    rfl

/-- The scan of the lines written for the color records from number `k` on,
started at color index `k`, writes them again and ends at the number of
records. -/
theorem scan_lines_records (cur : Option CStr) (cols : List CStr)
    (hcols : ∀ e ∈ cols, starts_with e COLOR_EQ = true) :
    ∀ (n k : Nat) (f : Bool), cols.length - k = n → k ≤ cols.length →
      (scan_lines cur cols ((cols.drop k).map put_entry) k f).1 = (cols.drop k).map put_entry ∧
      (scan_lines cur cols ((cols.drop k).map put_entry) k f).2.1 = cols.length := by
  intro n
  induction n with
  | zero =>
    intro k f hn hk
    have : cols.drop k = [] := List.drop_of_length_le (by omega)
    rw [this]
    exact ⟨rfl, by simp only [List.map_nil, scan_lines]; omega⟩
  | succ n ih =>
    intro k f hn hk
    have hlt : k < cols.length := by omega
    have hd : cols.drop k = cols[k] :: cols.drop (k + 1) := List.drop_eq_getElem_cons hlt
    have hmem : cols[k] ∈ cols := List.getElem_mem _
    obtain ⟨k1, k2⟩ := put_color_is_color_line cols[k] (hcols _ hmem)
    have hget : cols[k]? = some cols[k] := List.getElem?_eq_getElem hlt
    have hs : scan_line cur cols (put_entry cols[k]) k f = (put_entry cols[k], k + 1, f) := by
      simp [scan_line, k1, k2, hget]
    rw [hd]
    simp only [List.map_cons, scan_lines, hs]
    obtain ⟨i1, i2⟩ := ih (k + 1) f (by omega) (by omega)
    exact ⟨by rw [i1], i2⟩

/-- The scan copies the marker line. -/
theorem scan_line_marker (cur : Option CStr) (cols : List CStr) (idx : Nat) (f : Bool) :
    scan_line cur cols (put_entry COLORS_MARKER) idx f = (put_entry COLORS_MARKER, idx, true) := by
  have hm : starts_with (put_entry COLORS_MARKER) COLORS_MARKER = true := by decide
  obtain ⟨h1, h2⟩ := marker_not_record _ hm
  simp [scan_line, h1, h2, hm]

/-- Merging a document into the result of merging it into a target gives that
result again. -/
theorem merge_existing_idem (old_lines new_colors : List CStr) :
    merge_existing (merge_existing old_lines new_colors) new_colors
      = merge_existing old_lines new_colors := by
  have hcur : ∀ c, split_cursor new_colors = some c → starts_with c CURSORCOLOR_EQ = true :=
    fun c hc => (split_cursor_mem new_colors c hc).2
  have hcols : ∀ e ∈ split_colors new_colors, starts_with e COLOR_EQ = true :=
    fun e he => (split_colors_mem new_colors e he).2.1
  generalize hC : split_cursor new_colors = cur at hcur
  generalize hK : split_colors new_colors = cols at hcols
  have hm : merge_existing old_lines new_colors
      = (scan_lines cur cols old_lines 0 false).1
        ++ append_remaining cols (scan_lines cur cols old_lines 0 false).2.1
            (scan_lines cur cols old_lines 0 false).2.2 := by
    unfold merge_existing
    simp only [hC, hK]
  have hm2 : ∀ L, merge_existing L new_colors
      = (scan_lines cur cols L 0 false).1
        ++ append_remaining cols (scan_lines cur cols L 0 false).2.1
            (scan_lines cur cols L 0 false).2.2 := by
    intro L
    unfold merge_existing
    simp only [hC, hK]
  rw [hm2 (merge_existing old_lines new_colors), hm]
  generalize hs : scan_lines cur cols old_lines 0 false = s
  obtain ⟨i1, i2⟩ := scan_lines_idem cur cols hcur hcols old_lines 0 false false
  rw [hs] at i1 i2
  rw [scan_lines_append]
  simp only [i1, i2]
  have hnil : ∀ (k : Nat) (g : Bool), ¬ k < cols.length → append_remaining cols k g = [] := by
    intro k g hk
    unfold append_remaining
    rw [if_neg hk]
  by_cases hk : s.2.1 < cols.length
  · have hr := fun g => scan_lines_records cur cols hcols (cols.length - s.2.1) s.2.1 g rfl
      (by omega)
    have hA : ∀ g : Bool, ∃ g2,
        scan_lines cur cols (append_remaining cols s.2.1 s.2.2) s.2.1 g
          = (append_remaining cols s.2.1 s.2.2, cols.length, g2) := by
      intro g
      unfold append_remaining
      rw [if_pos hk]
      by_cases hf : s.2.2 = true
      · rw [if_pos hf, List.nil_append]
        exact ⟨_, Prod.ext (hr g).1 (Prod.ext (hr g).2 rfl)⟩
      · rw [if_neg hf, scan_lines_append]
        simp only [scan_lines, scan_line_marker]
        exact ⟨_, Prod.ext (by rw [(hr true).1]) (Prod.ext (hr true).2 rfl)⟩
    obtain ⟨g2, hg⟩ := hA (scan_lines cur cols s.1 0 false).2.2
    rw [hg]
    simp only
    rw [hnil cols.length g2 (Nat.lt_irrefl _), List.append_nil]
  · rw [hnil _ _ hk]
    simp only [scan_lines, List.append_nil]
    rw [hnil _ _ hk, List.append_nil]

/-- Merging a document into the file written for it when there was no target
gives that file again. -/
theorem merge_fresh_idem (new_colors out : List CStr) (h : write_fresh new_colors = some out) :
    merge_existing out new_colors = out := by
  have hcur : ∀ c, split_cursor new_colors = some c → starts_with c CURSORCOLOR_EQ = true :=
    fun c hc => (split_cursor_mem new_colors c hc).2
  have hcols : ∀ e ∈ split_colors new_colors, starts_with e COLOR_EQ = true :=
    fun e he => (split_colors_mem new_colors e he).2.1
  unfold write_fresh at h
  unfold merge_existing
  generalize split_cursor new_colors = cur at hcur h
  generalize split_colors new_colors = cols at hcols h
  simp only at h ⊢
  split at h
  · have ho := (Option.some.inj h).symm
    have hr := fun g => scan_lines_records cur cols hcols cols.length 0 g rfl (Nat.zero_le _)
    simp only [List.drop_zero] at hr
    have hnil : ∀ g, append_remaining cols cols.length g = [] := by
      intro g
      unfold append_remaining
      rw [if_neg (Nat.lt_irrefl _)]
    cases hc : cur with
    | none =>
      rw [hc] at ho hr
      simp only [List.append_nil] at ho
      rw [ho, scan_lines_append]
      simp only [scan_lines, scan_line_marker, (hr true).1, (hr true).2, hnil, List.append_nil]
    | some c =>
      rw [hc] at ho hr
      have hcl := put_cursor_is_cursor_line c (hcur c hc)
      have hsc : ∀ g, scan_line (some c) cols (put_entry c) 0 g = (put_entry c, 0, g) := by
        intro g
        simp [scan_line, hcl]
      rw [ho, scan_lines_append, scan_lines_append]
      simp only [scan_lines, scan_line_marker, hsc, (hr true).1, (hr true).2, hnil,
        List.append_nil]
  · exact absurd h (by simp)

/-! ## Reading a written file back -/

/-- The parts of a text line. -/
theorem text_line_parts (l : CStr) (h : is_text_line l = true) :
    ∃ body, l = body ++ [NL] ∧ NL ∉ body ∧ body.length + 1 ≤ MAX_LINE_LENGTH - 1 := by
  unfold is_text_line at h
  simp only [Bool.and_eq_true, beq_iff_eq, Bool.not_eq_true', decide_eq_true_eq] at h
  obtain ⟨⟨h1, h2⟩, h3⟩ := h
  have hl : l.dropLast ++ [NL] = l := List.dropLast_append_getLast? NL h1
  refine ⟨l.dropLast, hl.symm, ?_, ?_⟩
  · intro hm
    have : l.dropLast.contains NL = true := by simpa using hm
    rw [this] at h2
    exact absurd h2 (by simp)
  · have := congrArg List.length hl
    simp only [List.length_append, List.length_singleton] at this
    omega

/-- On a text that begins with a text line `FGets` returns that line. -/
theorem fgets_chunks_line (rest : CStr) (body : CStr) (hb : NL ∉ body) :
    ∀ cur : CStr, cur.length + body.length + 1 ≤ MAX_LINE_LENGTH - 1 →
      fgets_chunks (body ++ NL :: rest) cur = (cur ++ body ++ [NL]) :: fgets_chunks rest [] := by
  induction body with
  | nil =>
    intro cur _
    simp [fgets_chunks]
  | cons c b ih =>
    intro cur hlen
    have hc : c ≠ NL := fun e => hb (by rw [e]; exact List.mem_cons_self _ _)
    have hb2 : NL ∉ b := fun e => hb (List.mem_cons_of_mem _ e)
    simp only [List.length_cons, MAX_LINE_LENGTH] at hlen
    rw [List.cons_append, fgets_chunks, if_neg (by simp only [MAX_LINE_LENGTH]; omega),
      ih hb2 (cur ++ [c]) (by
        simp only [List.length_append, List.length_singleton, MAX_LINE_LENGTH]; omega)]
    simp

/-- A file made of text lines is read back line by line. -/
theorem fgets_chunks_flatten (L : List CStr) (h : ∀ l ∈ L, is_text_line l = true) :
    fgets_chunks L.flatten [] = L := by
  induction L with
  | nil => rfl
  | cons l rest ih =>
    obtain ⟨body, e, hb, hlen⟩ := text_line_parts l (h l (List.mem_cons_self _ _))
    rw [List.flatten_cons, e, List.append_assoc, List.singleton_append,
      fgets_chunks_line _ body hb [] (by simp only [List.length_nil]; omega),
      ih (fun x hx => h x (List.mem_cons_of_mem _ hx))]
    simp

/-- Every line written by the scan is a line read or the line written for a
record. -/
theorem scan_lines_mem (cur : Option CStr) (cols : List CStr) (lines : List CStr) :
    ∀ (idx : Nat) (f : Bool), ∀ w ∈ (scan_lines cur cols lines idx f).1,
      w ∈ lines ∨ (∃ c, cur = some c ∧ w = put_entry c) ∨ ∃ e ∈ cols, w = put_entry e := by
  induction lines with
  | nil => intro idx f w hw; simp [scan_lines] at hw
  | cons l rest ih =>
    intro idx f w hw
    simp only [scan_lines, List.mem_cons] at hw
    rcases hw with hw | hw
    · rcases scan_line_cases cur cols l idx f with ⟨_, c, hc, e⟩ | ⟨_, _, x, hx, e⟩ | e
      · exact Or.inr (Or.inl ⟨c, hc, by rw [hw, e]⟩)
      · exact Or.inr (Or.inr ⟨x, List.getElem?_mem hx, by rw [hw, e]⟩)
      · exact Or.inl (by rw [hw, e]; exact List.mem_cons_self _ _)
    · rcases ih _ _ w hw with h | h | h
      · exact Or.inl (List.mem_cons_of_mem _ h)
      · exact Or.inr (Or.inl h)
      · exact Or.inr (Or.inr h)

/-- Every line of the merged file is a line of the target, the marker line or
the line written for a record of the new document. -/
theorem merge_existing_mem (old_lines new_colors : List CStr) :
    ∀ w ∈ merge_existing old_lines new_colors,
      w ∈ old_lines ∨ w = put_entry COLORS_MARKER ∨ ∃ e ∈ new_colors, w = put_entry e := by
  intro w hw
  unfold merge_existing at hw
  simp only [List.mem_append] at hw
  rcases hw with hw | hw
  · rcases scan_lines_mem _ _ _ _ _ w hw with h | ⟨c, hc, e⟩ | ⟨x, hx, e⟩
    · exact Or.inl h
    · exact Or.inr (Or.inr ⟨c, (split_cursor_mem new_colors c hc).1, e⟩)
    · exact Or.inr (Or.inr ⟨x, (split_colors_mem new_colors x hx).1, e⟩)
  · unfold append_remaining at hw
    split at hw
    · simp only [List.mem_append, List.mem_map] at hw
      rcases hw with hw | ⟨x, hx, e⟩
      · split at hw
        · exact absurd hw (List.not_mem_nil _)
        · exact Or.inr (Or.inl (List.mem_singleton.mp hw))
      · exact Or.inr (Or.inr ⟨x, (split_colors_mem new_colors x (List.mem_of_mem_drop hx)).1,
          e.symm⟩)
    · exact absurd hw (List.not_mem_nil _)

/-- C31: for every target, given as the list of its lines or absent, and every
complete document `D` (a record that passes `starts_with` for `CURSORCOLOR=`
followed by 16 that pass it for `COLOR=`), `update_prefs_file` writes some
output, and merging `D` into that output writes the same output again; when
the lines of the target are text lines and the records fit a text line, the
written file read back with `FGets` is that list of lines. -/
theorem C31_merge_idempotent (target : Option (List CStr)) (cursor : CStr) (colors : List CStr)
    (hdoc : complete_doc cursor colors = true) :
    ∃ out, update_prefs_lines target (cursor :: colors) = some out ∧
      update_prefs_lines (some out) (cursor :: colors) = some out ∧
      ((∀ ls, target = some ls → ∀ l ∈ ls, is_text_line l = true) →
        (∀ r ∈ cursor :: colors, is_text_line (put_entry r) = true) →
        fgets_chunks out.flatten [] = out ∧
        update_prefs_lines (some (fgets_chunks out.flatten [])) (cursor :: colors) = some out) := by
  obtain ⟨hsc, hsk⟩ := split_complete cursor colors hdoc
  have hlen : colors.length = REQUIRED_COLOR_LINES := by
    unfold complete_doc at hdoc
    simp only [Bool.and_eq_true, beq_iff_eq] at hdoc
    exact hdoc.1.2
  have hmark : is_text_line (put_entry COLORS_MARKER) = true := by decide
  cases target with
  | some ls =>
    refine ⟨merge_existing ls (cursor :: colors), rfl, ?_, ?_⟩
    · show some (merge_existing _ _) = _
      rw [merge_existing_idem]
    · intro hl hr
      have hf : fgets_chunks (merge_existing ls (cursor :: colors)).flatten []
          = merge_existing ls (cursor :: colors) := by
        apply fgets_chunks_flatten
        intro w hw
        rcases merge_existing_mem ls (cursor :: colors) w hw with h | h | ⟨e, he, h⟩
        · exact hl ls rfl w h
        · rw [h]; exact hmark
        · rw [h]; exact hr e he
      refine ⟨hf, ?_⟩
      rw [hf]
      show some (merge_existing _ _) = _
      rw [merge_existing_idem]
  | none =>
    have hw : write_fresh (cursor :: colors)
        = some ([put_entry COLORS_MARKER] ++ [put_entry cursor] ++ colors.map put_entry) := by
      unfold write_fresh
      simp only [hsc, hsk]
      rw [if_pos hlen]
    refine ⟨_, hw, ?_, ?_⟩
    · show some (merge_existing _ _) = _
      rw [merge_fresh_idem _ _ hw]
    · intro _ hr
      have hf : fgets_chunks
          ([put_entry COLORS_MARKER] ++ [put_entry cursor] ++ colors.map put_entry).flatten []
          = [put_entry COLORS_MARKER] ++ [put_entry cursor] ++ colors.map put_entry := by
        apply fgets_chunks_flatten
        intro w hw2
        simp only [List.mem_append, List.mem_singleton, List.mem_map] at hw2
        rcases hw2 with (h | h) | ⟨e, he, h⟩
        · rw [h]; exact hmark
        · rw [h]; exact hr cursor (List.mem_cons_self _ _)
        · rw [← h]; exact hr e (List.mem_cons_of_mem _ he)
      refine ⟨hf, ?_⟩
      rw [hf]
      show some (merge_existing _ _) = _
      rw [merge_fresh_idem _ _ hw]

set_option maxRecDepth 1000000 in
/-- Witness of C31 on `sample_prefs` and the sample document. -/
theorem C31_merge_idempotent_witness :
    complete_doc sample_cursor sample_colors = true ∧
    (∀ l ∈ sample_prefs, is_text_line l = true) ∧
    (∀ r ∈ sample_cursor :: sample_colors, is_text_line (put_entry r) = true) ∧
    ∃ out, update_prefs_lines (some sample_prefs) (sample_cursor :: sample_colors) = some out ∧
      update_prefs_lines (some out) (sample_cursor :: sample_colors) = some out ∧
      fgets_chunks out.flatten [] = out ∧
      update_prefs_lines (some (fgets_chunks out.flatten [])) (sample_cursor :: sample_colors)
        = some out := by
  refine ⟨by decide, by decide, by decide, ?_⟩
  obtain ⟨out, h1, h2, h3⟩ :=
    C31_merge_idempotent (some sample_prefs) sample_cursor sample_colors (by decide)
  have h4 := h3 (fun ls hls => by
    rw [← Option.some.inj hls]
    decide) (by decide)
  exact ⟨out, h1, h2, h4.1, h4.2⟩

/-! ## Converting a converted line again -/

/-- Every segment cut by `split_commas` but the last has no comma. -/
theorem split_commas_no_comma (n : Nat) :
    ∀ (s : CStr) (i : Nat), i + 1 < (split_commas n s).length →
      44 ∉ (split_commas n s).getD i [] := by
  induction n with
  | zero =>
    intro s i h
    simp [split_commas] at h
  | succ n ih =>
    intro s i h
    rw [split_commas] at h ⊢
    by_cases hc : 44 ∈ s
    · rw [if_pos hc] at h ⊢
      cases i with
      | zero =>
        simp only [List.getD_cons_zero]
        intro hm
        have := List.mem_takeWhile_imp hm
        simp at this
      | succ j =>
        simp only [List.getD_cons_succ]
        simp only [List.length_cons] at h
        exact ih _ j (by omega)
    · rw [if_neg hc] at h
      simp at h

/-- The tokens `convert_color_line` extracts with no override have no comma,
and the prefix has one equals sign, at its end. -/
theorem color_line_parts_tokens (l : CStr) (p load ansi r g b : CStr)
    (h : color_line_parts l no_overrides = some (p, load, ansi, r, g, b)) :
    (∃ P, p = P ++ [61] ∧ 61 ∉ P) ∧ 44 ∉ load ∧ 44 ∉ ansi := by
  obtain ⟨h61, hp⟩ := color_line_parts_pfx l no_overrides _ h
  refine ⟨⟨_, hp, ?_⟩, ?_⟩
  · intro hm
    have := List.mem_takeWhile_imp hm
    simp at this
  · have hno : 44 ∉ cstr ("NOLOAD") ∧ 44 ∉ cstr ("NOANSI") := by decide
    have e := color_line_parts_of l no_overrides _ (work_segments l) h61 rfl rfl
    rw [h] at e
    have a0 : ∀ x, apply_load no_overrides x = x := fun _ => rfl
    have a1 : ∀ x, apply_ansi no_overrides x = x := fun _ => rfl
    simp only [a0, a1] at e
    have hseg : ∀ i, i + 1 < (work_segments l).length → 44 ∉ (work_segments l).getD i [] :=
      fun i hi => split_commas_no_comma 10 _ i hi
    split at e
    · exact absurd e (by simp)
    · split at e
      · have := Option.some.inj e
        simp only [Prod.mk.injEq] at this
        rw [this.2.1, this.2.2.1]
        exact hno
      · split at e
        · rename_i h4
          have := Option.some.inj e
          simp only [Prod.mk.injEq] at this
          rw [this.2.1, this.2.2.1]
          exact ⟨hseg 0 (by omega), hseg 1 (by omega)⟩
        · split at e
          · rename_i h4
            have := Option.some.inj e
            simp only [Prod.mk.injEq] at this
            rw [this.2.1, this.2.2.1]
            exact ⟨hseg 0 (by omega), hseg 1 (by omega)⟩
          · have := Option.some.inj e
            simp only [Prod.mk.injEq] at this
            rw [this.2.1, this.2.2.1]
            exact hno

/-- C32: for every line on which `convert_color_line` succeeds with no
override and whose produced line fits the 512-byte line buffer it is written
to, converting the produced line again with no override succeeds: the produced
line has exactly 4 commas after its equals sign (its segments are the two
tokens and the three canonical channel texts), so the 4-comma branch is taken,
the prefix and the load and ansi tokens come back the same, and each channel
comes back unchanged when its value is 0 or at least 0x0100, and as `257 * v`
when its value `v` lies in 0x0001..0x00FF. -/
theorem C32_reconversion (l out : CStr) (h : convert_color_line l no_overrides = some out)
    (hfit : out.length ≤ MAX_LINE_LENGTH - 1) :
    ∃ p load ansi R G B, R < 65536 ∧ G < 65536 ∧ B < 65536 ∧
      out = format_color_line p load ansi R G B ∧
      work_segments out = [load, ansi, canonical_hex R, canonical_hex G, canonical_hex B] ∧
      color_line_parts out no_overrides
        = some (p, load, ansi, canonical_hex R, canonical_hex G, canonical_hex B) ∧
      convert_color_line out no_overrides
        = some (format_color_line p load ansi
            (if 1 ≤ R ∧ R ≤ 0xFF then 257 * R else R)
            (if 1 ≤ G ∧ G ≤ 0xFF then 257 * G else G)
            (if 1 ≤ B ∧ B ≤ 0xFF then 257 * B else B)) := by
  cases hparts : color_line_parts l no_overrides with
  | none =>
    unfold convert_color_line at h
    rw [hparts] at h
    exact absurd h (by simp)
  | some q =>
    obtain ⟨p, load, ansi, r, g, b⟩ := q
    obtain ⟨⟨P, hp, hP⟩, hl, ha⟩ := color_line_parts_tokens l p load ansi r g b hparts
    have hc := convert_of_parts l no_overrides _ _ _ _ _ _ hparts
    rw [h] at hc
    have ho := Option.some.inj hc
    have hR := convert_lt r
    have hG := convert_lt g
    have hB := convert_lt b
    have e : format_color_line p load ansi (convert_to_16bit_rgb r) (convert_to_16bit_rgb g)
          (convert_to_16bit_rgb b)
        = P ++ 61 :: join_commas [load, ansi, canonical_hex (convert_to_16bit_rgb r),
            canonical_hex (convert_to_16bit_rgb g), canonical_hex (convert_to_16bit_rgb b)] := by
      rw [hp]
      simp [format_color_line, join_commas, canonical_hex, cstr]
    have hcom : ∀ s ∈ [load, ansi, canonical_hex (convert_to_16bit_rgb r),
        canonical_hex (convert_to_16bit_rgb g), canonical_hex (convert_to_16bit_rgb b)],
        44 ∉ s := by
      simp [hl, ha, canonical_hex_no_comma]
    have hlen : (P ++ 61 :: join_commas [load, ansi, canonical_hex (convert_to_16bit_rgb r),
        canonical_hex (convert_to_16bit_rgb g),
        canonical_hex (convert_to_16bit_rgb b)]).length ≤ MAX_LINE_LENGTH - 1 := by
      rw [← e, ← ho]
      exact hfit
    obtain ⟨w1, w2, w3⟩ := work_segments_joined P _ hP (by simp) hcom hlen
    rw [if_pos (by simp)] at w3
    have hcp := color_line_parts_of _ no_overrides P _ w1 w2 w3
    have a0 : ∀ x, apply_load no_overrides x = x := fun _ => rfl
    have a1 : ∀ x, apply_ansi no_overrides x = x := fun _ => rfl
    simp only [List.length_cons, List.length_nil, a0, a1] at hcp
    rw [if_neg (by decide), if_neg (by decide), if_pos (by decide)] at hcp
    simp only [List.getD_cons_zero, List.getD_cons_succ] at hcp
    have h4 := convert_four_commas P load ansi _ _ _ no_overrides hP hcom hlen
    rw [a0, a1, convert_canonical _ hR, convert_canonical _ hG, convert_canonical _ hB] at h4
    refine ⟨p, load, ansi, convert_to_16bit_rgb r, convert_to_16bit_rgb g,
      convert_to_16bit_rgb b, hR, hG, hB, ho, ?_, ?_, ?_⟩
    · rw [ho, e]; exact w3
    · rw [ho, e, hp]; exact hcp
    · rw [ho, e, hp]; exact h4

set_option maxRecDepth 100000 in
/-- Witness of C32: `COLOR=LOAD,ANSI,7,0,0x1234` is converted to
`COLOR=LOAD,ANSI,0x0707,0x0000,0x1234`, a line that is converted to itself;
`COLOR=0.001,0,1` is converted to `COLOR=NOLOAD,NOANSI,0x0041,0x0000,0x0101`,
whose red channel 0x0041 comes back as 0x4141. -/
theorem C32_reconversion_witness :
    convert_color_line (cstr ("COLOR=LOAD,ANSI,7,0,0x1234")) no_overrides
      = some (cstr ("COLOR=LOAD,ANSI,0x0707,0x0000,0x1234")) ∧
    (cstr ("COLOR=LOAD,ANSI,0x0707,0x0000,0x1234")).length ≤ MAX_LINE_LENGTH - 1 ∧
    (∃ p load ansi R G B, R < 65536 ∧ G < 65536 ∧ B < 65536 ∧
      cstr ("COLOR=LOAD,ANSI,0x0707,0x0000,0x1234") = format_color_line p load ansi R G B ∧
      work_segments (cstr ("COLOR=LOAD,ANSI,0x0707,0x0000,0x1234"))
        = [load, ansi, canonical_hex R, canonical_hex G, canonical_hex B] ∧
      color_line_parts (cstr ("COLOR=LOAD,ANSI,0x0707,0x0000,0x1234")) no_overrides
        = some (p, load, ansi, canonical_hex R, canonical_hex G, canonical_hex B) ∧
      convert_color_line (cstr ("COLOR=LOAD,ANSI,0x0707,0x0000,0x1234")) no_overrides
        = some (format_color_line p load ansi
            (if 1 ≤ R ∧ R ≤ 0xFF then 257 * R else R)
            (if 1 ≤ G ∧ G ≤ 0xFF then 257 * G else G)
            (if 1 ≤ B ∧ B ≤ 0xFF then 257 * B else B))) ∧
    convert_color_line (cstr ("COLOR=LOAD,ANSI,0x0707,0x0000,0x1234")) no_overrides
      = some (cstr ("COLOR=LOAD,ANSI,0x0707,0x0000,0x1234")) ∧
    convert_color_line (cstr ("COLOR=0.001,0,1")) no_overrides
      = some (cstr ("COLOR=NOLOAD,NOANSI,0x0041,0x0000,0x0101")) ∧
    convert_color_line (cstr ("COLOR=NOLOAD,NOANSI,0x0041,0x0000,0x0101")) no_overrides
      = some (cstr ("COLOR=NOLOAD,NOANSI,0x4141,0x0000,0x0101")) :=
  ⟨by decide, by decide,
    C32_reconversion (cstr ("COLOR=LOAD,ANSI,7,0,0x1234"))
      (cstr ("COLOR=LOAD,ANSI,0x0707,0x0000,0x1234")) (by decide) (by decide),
    by decide, by decide, by decide⟩

end ViNCEd
